import Mathlib

/-!
# Updater repository tool: metadata state engine

A shallow embedding of the authoring-side operations of the repository
(`internal/repository`, `internal/pkg/metahelper`, `internal/pkg/filesystem`,
`internal/pkg/cli`, `internal/pkg/filesemaphore`) together with the
properties of the written specification that they decide.

Conventions of the embedding

* Go `string` values are `String`; byte-level routines work on `String.data`.
* Go `int` / `int64` values are `Int`; an increment or decrement is wrapped
  into the 64-bit two's complement range by `wrapInt64`.
* A Go function returning `error` returns `Except Err _`; a run-time panic is
  the error `Err.panic`.
* The metadata directory is explicit state (`FS`), threaded through the
  operations; the console, the clock, the key files and the target scan are
  inputs collected in `Env`.
* Signatures are symbolic: signature bytes record the signing key and the
  signed payload, and verify exactly under that key and payload.
-/

set_option linter.dupNamespace false

namespace UpdaterRepo

/-! ## Errors -/

/-- Error kinds returned by the operations; `panic` is a Go run-time panic. -/
inductive Err where
  | walk
  | noFile
  | io
  | decode
  | value
  | unsigned
  | inadequatePrior
  | scan
  | duplicateSignature
  | unrecognizedKey
  | duplicateKey
  | thresholdUnderflow
  | revoke
  | invalidKeyForRole
  | notConfirmed
  | notWritable
  | write
  | expired
  | badVersion
  | reported
  | undefinedName
  | contentMismatch
  | panic
  deriving DecidableEq, Repr

instance instDecidableEqExcept {ε α : Type} [DecidableEq ε] [DecidableEq α] :
    DecidableEq (Except ε α) := fun a b =>
  match a, b with
  | .ok x, .ok y =>
    if h : x = y then isTrue (by rw [h]) else isFalse (fun h2 => h (by cases h2; rfl))
  | .error x, .error y =>
    if h : x = y then isTrue (by rw [h]) else isFalse (fun h2 => h (by cases h2; rfl))
  | .ok _, .error _ => isFalse (fun h => by cases h)
  | .error _, .ok _ => isFalse (fun h => by cases h)

/-! ## Machine integers -/

/-- Two's complement wrap of an integer into the `int64` range. -/
def wrapInt64 (x : Int) : Int := (x + 2 ^ 63) % 2 ^ 64 - 2 ^ 63

/-! ## Strings (`strings`, `strconv`, `path/filepath`) -/

/-- The host path separator (`os.PathSeparator`). -/
def PathSeparator : Char := '/'

/-- Model of `strings.Split(s, sep)` for a one-character separator. -/
def Split (sep : Char) : List Char → List (List Char)
  | [] => [[]]
  | c :: cs =>
    if c = sep then [] :: Split sep cs
    else
      match Split sep cs with
      | [] => [[c]]
      | p :: ps => (c :: p) :: ps

/-- Whether `s` starts with `p`. -/
def startsWith : List Char → List Char → Bool
  | [], _ => true
  | _ :: _, [] => false
  | p :: ps, c :: cs => p == c && startsWith ps cs

/-- Model of `strings.Contains(s, substr)` on character lists. -/
def containsChars : List Char → List Char → Bool
  | [], substr => startsWith substr []
  | c :: cs, substr => startsWith substr (c :: cs) || containsChars cs substr

/-- Model of `strings.Contains(s, substr)`. -/
def Contains (s substr : String) : Bool := containsChars s.data substr.data

/-- Value of a decimal digit. -/
def digitVal (c : Char) : Option Nat :=
  if '0' ≤ c ∧ c ≤ '9' then some (c.toNat - '0'.toNat) else none

/-- Decimal value of a digit string, left to right, starting from `acc`. -/
def parseDigits : List Char → Nat → Option Nat
  | [], acc => some acc
  | c :: cs, acc =>
    match digitVal c with
    | none => none
    | some d => parseDigits cs (acc * 10 + d)

/-- Model of `strconv.Atoi` on a 64-bit host: an optional sign, at least one
digit, only decimal digits, and a value in the `int` range; otherwise an
error (`none`). -/
def Atoi (s : List Char) : Option Int :=
  match s with
  | [] => none
  | c :: cs =>
    let neg := c = '-'
    let ds := if c = '-' ∨ c = '+' then cs else c :: cs
    match ds with
    | [] => none
    | d :: ds' =>
      match parseDigits (d :: ds') 0 with
      | none => none
      | some n =>
        if neg then (if n ≤ 2 ^ 63 then some (-(n : Int)) else none)
        else (if n < 2 ^ 63 then some (n : Int) else none)

/-- The last path element: `l[len(l)-1]` for `l = strings.Split(p, sep)`. -/
def lastPathElem (p : List Char) : List Char :=
  ((Split PathSeparator p).getLast?).getD []

/-- The version field of a file name: `strings.Split(name, ".")[0]`. -/
def firstField (name : List Char) : List Char :=
  ((Split '.' name).head?).getD []

/-- The integer the sort comparator of `GetRoleMetadataFilepathsFromDir`
parses from a file path; `none` is the branch that panics. -/
def verOf (path : String) : Option Int :=
  Atoi (firstField (lastPathElem path.data))

/-! ## Directory listing and selection of a role's files (`metahelper`) -/

/-- The comparator passed to `sort.Slice`: `iVer < jVer`, or a panic
(`none`) when one of the two version fields does not parse. -/
def lessVer (a b : String) : Option Bool :=
  match verOf a with
  | none => none
  | some i =>
    match verOf b with
    | none => none
    | some j => some (decide (i < j))

/-- One insertion step of the sort: `x` is placed before the first element
it is less than. -/
def insertByVer (x : String) : List String → Option (List String)
  | [] => some [x]
  | y :: ys =>
    match lessVer x y with
    | none => none
    | some true => some (x :: y :: ys)
    | some false =>
      match insertByVer x ys with
      | none => none
      | some r => some (y :: r)

/-- Model of `sort.Slice(paths, less)` as the insertion sort the Go run time
uses for short slices, elements taken left to right; `none` when the
comparator panics. A slice of length 0 or 1 is returned without any call of
the comparator. -/
def sortSlice (paths : List String) : Option (List String) :=
  paths.foldlM (fun acc x => insertByVer x acc) []

/-- The files selected for a role: the full paths whose local path contains
the role name (the loop over `fullFilepaths`). -/
def selectRole (listing : List (String × String)) (roleName : String) : List String :=
  (listing.filter (fun e => Contains e.1 roleName)).map (fun e => e.2)

/-- Embedding of `metahelper.GetRoleMetadataFilepathsFromDir`, on the result
of `filesystem.GetAllFilepathsInDir` (pairs of local and full path, in walk
order). -/
def GetRoleMetadataFilepathsFromDir (walk : Except Err (List (String × String)))
    (roleName : String) : Except Err (List String) :=
  match walk with
  | .error e => .error e
  | .ok listing =>
    if listing.length = 0 then .error Err.noFile
    else
      match sortSlice (selectRole listing roleName) with
      | none => .error Err.panic
      | some sorted => .ok sorted

/-! ## Keys and signatures (symbolic model of `go-tuf/v2/metadata`) -/

/-- A public key as recorded in Root (`metadata.Key`); `keyval` stands for
the public key material. -/
structure Key where
  keyval : String
  deriving DecidableEq, Repr

/-- Model of `Key.ID()`: the fingerprint of the key material, taken to be
collision free, so the key material stands for its own fingerprint. -/
def Key.ID (k : Key) : String := k.keyval

/-- An RSA private key, known by its public half. -/
structure PrivateKey where
  pub : Key
  deriving DecidableEq, Repr

/-- Model of `metadata.KeyFromPublicKey(key.Public())`. -/
def KeyFromPublicKey (k : PrivateKey) : Key := k.pub

/-- Per-role entry of Root (`metadata.Role`). -/
structure Role where
  KeyIDs : List String
  Threshold : Int
  deriving DecidableEq, Repr

/-- Signed payload of Root (`metadata.RootType`): version, expiry, the key
store and the role map. -/
structure RootType where
  Version : Int
  Expires : Int
  Keys : List (String × Key)
  Roles : List (String × Role)
  deriving DecidableEq, Repr

/-- Descriptor of one target file (`metadata.TargetFiles`). -/
structure TargetFiles where
  Path : String
  Length : Int
  Hashes : List (String × String)
  deriving DecidableEq, Repr

/-- Signed payload of Targets (`metadata.TargetsType`). -/
structure TargetsType where
  Version : Int
  Expires : Int
  Targets : List (String × TargetFiles)
  deriving DecidableEq, Repr

/-- Entry of a Snapshot or Timestamp meta map (`metadata.MetaFiles`), reduced
to the version it pins. -/
structure MetaFiles where
  Version : Int
  deriving DecidableEq, Repr

/-- Model of `metadata.MetaFile(version)` of go-tuf: a version below 1 is
replaced by 1. -/
def MetaFile (version : Int) : MetaFiles := { Version := if version < 1 then 1 else version }

/-- Signed payload of Snapshot (`metadata.SnapshotType`). -/
structure SnapshotType where
  Version : Int
  Expires : Int
  Meta : List (String × MetaFiles)
  deriving DecidableEq, Repr

/-- Signed payload of Timestamp (`metadata.TimestampType`). -/
structure TimestampType where
  Version : Int
  Expires : Int
  Meta : List (String × MetaFiles)
  deriving DecidableEq, Repr

/-- The canonical bytes of a signed payload, kept as the payload itself with
its type tag. -/
inductive Payload where
  | root (s : RootType)
  | targets (s : TargetsType)
  | snapshot (s : SnapshotType)
  | timestamp (s : TimestampType)
  deriving DecidableEq, Repr

/-- Signature bytes: either the result of signing `over` with the private
half of `key`, or bytes that no key verifies. -/
inductive SigBytes where
  | made (key : Key) (over : Payload)
  | raw (n : Nat)
  deriving DecidableEq, Repr

/-- One entry of a signature list (`metadata.Signature`). -/
structure Signature where
  KeyID : String
  Signature : SigBytes
  deriving DecidableEq, Repr

/-- A role document (`metadata.Metadata[T]`): signed payload and signatures. -/
structure Metadata (T : Type) where
  Signed : T
  Signatures : List Signature
  deriving DecidableEq, Repr

/-- The four payload types (`metadata.Roles`), with their canonical form. -/
class RolePayload (T : Type) where
  payload : T → Payload

instance : RolePayload RootType := ⟨Payload.root⟩
instance : RolePayload TargetsType := ⟨Payload.targets⟩
instance : RolePayload SnapshotType := ⟨Payload.snapshot⟩
instance : RolePayload TimestampType := ⟨Payload.timestamp⟩

/-! ## Go maps as association lists -/

/-- Model of the map read `m[k]` with its presence flag. -/
def mapGet {β : Type} (m : List (String × β)) (k : String) : Option β :=
  match m with
  | [] => none
  | (k', v) :: rest => if k' = k then some v else mapGet rest k

/-- Model of the map write `m[k] = v`. -/
def mapSet {β : Type} (m : List (String × β)) (k : String) (v : β) : List (String × β) :=
  match m with
  | [] => [(k, v)]
  | (k', v') :: rest => if k' = k then (k, v) :: rest else (k', v') :: mapSet rest k v

/-- Model of `delete(m, k)`. -/
def mapDelete {β : Type} (m : List (String × β)) (k : String) : List (String × β) :=
  m.filter (fun e => decide (e.1 ≠ k))

/-! ## Library operations on role documents -/

/-- Model of `Metadata.ClearSignatures`. -/
def ClearSignatures {T : Type} (m : Metadata T) : Metadata T :=
  { m with Signatures := [] }

/-- The signature `Metadata.Sign` produces for a signer. -/
def signatureOf {T : Type} [RolePayload T] (m : Metadata T) (signer : PrivateKey) : Signature :=
  { KeyID := (KeyFromPublicKey signer).ID
    Signature := SigBytes.made signer.pub (RolePayload.payload m.Signed) }

/-- Model of `Metadata.Sign`: a signature over the canonical bytes of
`Signed` is appended to `Signatures`. -/
def Sign {T : Type} [RolePayload T] (m : Metadata T) (signer : PrivateKey) : Metadata T :=
  { m with Signatures := m.Signatures ++ [signatureOf m signer] }

/-- The signature `VerifyDelegate` picks for a key id: the last one in the
list carrying that id. -/
def sigFor (sigs : List Signature) (keyID : String) : Option Signature :=
  sigs.foldl (fun acc s => if s.KeyID = keyID then some s else acc) none

/-- Model of `verifier.VerifySignature`: the bytes verify exactly when they
were made by this key over this payload. -/
def verifySignature (key : Key) (sig : Option Signature) (payload : Payload) : Bool :=
  match sig with
  | none => false
  | some s => decide (s.Signature = SigBytes.made key payload)

/-- The loop of `VerifyDelegate` over the role's key ids: the set of key ids
with a verified signature, or an error when a key id has no key. -/
def signingKeys (keys : List (String × Key)) (sigs : List Signature) (payload : Payload) :
    List String → List String → Except Err (List String)
  | [], acc => .ok acc
  | keyID :: rest, acc =>
    match mapGet keys keyID with
    | none => .error Err.value
    | some key =>
      if verifySignature key (sigFor sigs keyID) payload ∧ keyID ∉ acc then
        signingKeys keys sigs payload rest (acc ++ [keyID])
      else signingKeys keys sigs payload rest acc

/-- Model of `Metadata[RootType].VerifyDelegate(delegatedRole, d)`: the
delegate check of document `d` under the key ids and threshold that `root`
records for `delegatedRole`. -/
def VerifyDelegate {T : Type} [RolePayload T] (root : Metadata RootType)
    (delegatedRole : String) (d : Metadata T) : Except Err Unit :=
  match mapGet root.Signed.Roles delegatedRole with
  | none => .error Err.value
  | some role =>
    if role.KeyIDs.length = 0 then .error Err.value
    else
      match signingKeys root.Signed.Keys d.Signatures (RolePayload.payload d.Signed)
          role.KeyIDs [] with
      | .error e => .error e
      | .ok verified =>
        if (verified.length : Int) < role.Threshold then .error Err.unsigned else .ok ()

/-- Model of `RootType.AddKey(key, role)`. -/
def AddKey (signed : RootType) (key : Key) (role : String) : Except Err RootType :=
  match mapGet signed.Roles role with
  | none => .error Err.value
  | some r =>
    let r' : Role := if key.ID ∈ r.KeyIDs then r else { r with KeyIDs := r.KeyIDs ++ [key.ID] }
    .ok { signed with Roles := mapSet signed.Roles role r', Keys := mapSet signed.Keys key.ID key }

/-- Model of `RootType.RevokeKey(keyID, role)`. -/
def RevokeKey (signed : RootType) (keyID : String) (role : String) : Except Err RootType :=
  match mapGet signed.Roles role with
  | none => .error Err.value
  | some r =>
    if keyID ∉ r.KeyIDs then .error Err.value
    else
      let roles' := mapSet signed.Roles role { r with KeyIDs := r.KeyIDs.filter (fun k => decide (k ≠ keyID)) }
      if roles'.any (fun e => decide (keyID ∈ e.2.KeyIDs)) then .ok { signed with Roles := roles' }
      else .ok { signed with Roles := roles', Keys := mapDelete signed.Keys keyID }

/-- Model of `Signed.IsExpired(referenceTime)` of go-tuf,
`referenceTime.After(signed.Expires)`: at the instant of expiry the document
is not expired yet. -/
def IsExpired (expires referenceTime : Int) : Bool := decide (expires < referenceTime)

/-! ## Constants (`const.go`) -/

def Root : String := "root"
def Targets : String := "targets"
def Snapshot : String := "snapshot"
def Timestamp : String := "timestamp"
def ChangeThresholdActionAdd : String := "add"
def ChangeThresholdActionReduce : String := "reduce"

/-- Embedding of `getRoles`. -/
def getRoles : List String := [Root, Targets, Snapshot, Timestamp]

/-! ## The metadata directory, the key files and the console -/

/-- What a file of the metadata directory decodes to: a document of one of
the four role types, or something no loader accepts. -/
inductive Content where
  | root (m : Metadata RootType)
  | targets (m : Metadata TargetsType)
  | snapshot (m : Metadata SnapshotType)
  | timestamp (m : Metadata TimestampType)
  | other
  deriving DecidableEq, Repr

/-- The regular files found under the metadata directory, in walk order:
full path and content. -/
abbrev FS := List (String × Content)

/-- What a key file holds. -/
inductive KeyFile where
  | missing
  | garbage
  | priv (k : PrivateKey)
  | pub (k : Key)
  deriving DecidableEq, Repr

/-- Inputs of an operation that are not part of the metadata directory. -/
structure Env where
  /-- the wall clock, in days -/
  now : Int
  /-- whether walking the metadata directory fails -/
  walkFails : Bool
  /-- whether `IsDirWritable` succeeds on the metadata directory -/
  dirWritable : Bool
  /-- whether writing the file with this full path fails -/
  writeFails : String → Bool
  /-- whether a failed write of the file with this full path leaves the file
  behind, created or truncated -/
  writeLeavesFile : String → Bool
  /-- the key files, by path -/
  keyFiles : String → KeyFile
  /-- the outcomes of the successive calls of `cli.AskConfirmation` -/
  answers : List Bool
  /-- the outcome of scanning the repository directory for target files -/
  scan : Except Err (List (String × TargetFiles))
  /-- whether `MakeNewDir` fails on the output directory -/
  mkdirFails : Bool

/-- Model of `datetime.ExpireIn(days)`. -/
def ExpireIn (now : Int) (days : Nat) : Int := now + days

/-- Model of `filepath.Clean` for paths without `.` and `..` elements and
without doubled separators: trailing separators are dropped. -/
def Clean (p : List Char) : List Char :=
  match (p.reverse.dropWhile (fun c => c == PathSeparator)).reverse with
  | [] => if p = [] then ['.'] else [PathSeparator]
  | q => q

/-- Model of `filepath.Join(dir, name)` for a file name without separators. -/
def Join (dir name : String) : String :=
  if name.data = [] then String.mk (Clean dir.data)
  else String.mk (Clean dir.data ++ [PathSeparator] ++ name.data)

/-- The path elements from the first one equal to `root` on. -/
def fromRoot (root : List Char) : List (List Char) → Option (List (List Char))
  | [] => none
  | p :: ps => if p = root then some (p :: ps) else fromRoot root ps

/-- Embedding of `filesystem.GetAllFilepathsInDir` on the result of the
directory walk (the full paths of the regular files visited): pairs of local
path and full path; a file none of whose path elements equals the local root
is left out. -/
def GetAllFilepathsInDir (path : String) (walked : Except Err (List String)) :
    Except Err (List (String × String)) :=
  match walked with
  | .error _ => .error Err.walk
  | .ok fulls =>
    let root := lastPathElem (Clean path.data)
    .ok (fulls.filterMap (fun full =>
      match fromRoot root (Split PathSeparator full.data) with
      | none => none
      | some parts => some (String.mk (List.intercalate [PathSeparator] parts), full)))

/-- The listing of the metadata directory. -/
def listDir (env : Env) (fs : FS) (path : String) : Except Err (List (String × String)) :=
  GetAllFilepathsInDir path (if env.walkFails then .error Err.walk else .ok (fs.map (fun e => e.1)))

/-- Model of `Metadata[RootType].FromFile`. -/
def FromFileRoot (fs : FS) (path : String) : Except Err (Metadata RootType) :=
  match mapGet fs path with
  | none => .error Err.io
  | some (Content.root m) => .ok m
  | some _ => .error Err.decode

/-- Model of `Metadata[TargetsType].FromFile`. -/
def FromFileTargets (fs : FS) (path : String) : Except Err (Metadata TargetsType) :=
  match mapGet fs path with
  | none => .error Err.io
  | some (Content.targets m) => .ok m
  | some _ => .error Err.decode

/-- Model of `Metadata[SnapshotType].FromFile`. -/
def FromFileSnapshot (fs : FS) (path : String) : Except Err (Metadata SnapshotType) :=
  match mapGet fs path with
  | none => .error Err.io
  | some (Content.snapshot m) => .ok m
  | some _ => .error Err.decode

/-- Model of `Metadata[TimestampType].FromFile`. -/
def FromFileTimestamp (fs : FS) (path : String) : Except Err (Metadata TimestampType) :=
  match mapGet fs path with
  | none => .error Err.io
  | some (Content.timestamp m) => .ok m
  | some _ => .error Err.decode

/-- Model of `Metadata.ToFile(path, true)` of go-tuf, which ends in
`os.WriteFile`: the file at `path` is created or replaced; a write that fails
either leaves the directory as before or leaves the file created or
truncated, with content that is no metadata document. -/
def ToFile (env : Env) (fs : FS) (path : String) (c : Content) : Except Err Unit × FS :=
  if env.writeFails path then
    (.error Err.write, if env.writeLeavesFile path then mapSet fs path Content.other else fs)
  else (.ok (), mapSet fs path c)

/-- Embedding of `filesystem.Remove` (`os.RemoveAll`): the file at `path`
and every file below `path` is removed. -/
def Remove (fs : FS) (path : String) : FS :=
  fs.filter (fun e => !(e.1 == path || startsWith (path.data ++ [PathSeparator]) e.1.data))

/-- Embedding of `filesystem.IsDirWritable`: the probe file it creates is
removed again, so the directory is left as it was. -/
def IsDirWritable (env : Env) : Except Err Bool :=
  if env.dirWritable then .ok true else .error Err.notWritable

/-- Model of `filesystem.ReadBytesFromFile` followed by
`cryptography.ParseRsaPrivateKeyFromPemStr`. -/
def readPrivateKey (env : Env) (path : String) : Except Err PrivateKey :=
  match env.keyFiles path with
  | KeyFile.missing => .error Err.io
  | KeyFile.priv k => .ok k
  | _ => .error Err.decode

/-- Model of `cryptography.ParseRsaPublicKeyFromPemStr` on a file already read. -/
def parsePublicKey (f : KeyFile) : Except Err Key :=
  match f with
  | KeyFile.pub k => .ok k
  | _ => .error Err.decode

/-- One call of `cli.AskConfirmation(3)`: the next recorded outcome, `false`
when the input is exhausted. -/
def AskConfirmation (answers : List Bool) : Bool × List Bool :=
  match answers with
  | [] => (false, [])
  | a :: rest => (a, rest)

/-- The element `l[len(l)-1]`; indexing an empty slice panics. -/
def lastElem (l : List String) : Except Err String :=
  match l.getLast? with
  | none => .error Err.panic
  | some x => .ok x

/-- Model of `fmt.Sprintf("%d.%s.json", version, name)`. -/
def versionedName (version : Int) (name : String) : String :=
  toString version ++ "." ++ name ++ ".json"

/-- Model of `fmt.Sprintf("%s.json", name)`. -/
def plainName (name : String) : String := name ++ ".json"

/-- The duplicate-signature loop: whether some key id occurs more than once
in the signature list (`sigCount[sig.KeyID] > 1`). -/
def dupSignature : List Signature → List String → Bool
  | [], _ => false
  | s :: rest, seen => if s.KeyID ∈ seen then true else dupSignature rest (s.KeyID :: seen)

/-- Replaces the error of a failed step by the error the caller returns. -/
def orFail {α : Type} (r : Except Err α) (e : Err) : Except Err α :=
  match r with
  | .ok a => .ok a
  | .error _ => .error e

/-- The write loop of `updateMetadata`: each file in turn, its path recorded
in `succeededWrites` after a successful write; when a write fails the
recorded paths are removed. -/
def writeAll (env : Env) : List (String × Content) → List String → FS → Except Err Unit × FS
  | [], _, fs => (.ok (), fs)
  | (path, c) :: rest, succeededWrites, fs =>
    match ToFile env fs path c with
    | (.error _, fs') => (.error Err.write, succeededWrites.foldl Remove fs')
    | (.ok _, fs') => writeAll env rest (succeededWrites ++ [path]) fs'

/-! ## Loading the latest documents -/

/-- The latest documents of the four roles (`roles` after the loading
phase) and the sorted list of Root file paths. -/
structure Loaded where
  rootFilepaths : List String
  root : Metadata RootType
  targets : Metadata TargetsType
  snapshot : Metadata SnapshotType
  timestamp : Metadata TimestampType
  targetsPath : String
  snapshotPath : String
  timestampPath : String
  deriving DecidableEq, Repr

/-- The latest Root: last of the Root file paths, loaded. -/
def loadRoot (env : Env) (fs : FS) (metadataDir : String) :
    Except Err (List String × Metadata RootType) := do
  let rootFilepaths ← GetRoleMetadataFilepathsFromDir (listDir env fs metadataDir) Root
  let path ← lastElem rootFilepaths
  let root ← FromFileRoot fs path
  pure (rootFilepaths, root)

/-- The loading phase of `updateMetadata` and `verifyMetadata`: Root, then
Targets, Snapshot and Timestamp, each from the last path of its sorted list. -/
def loadRoles (env : Env) (fs : FS) (metadataDir : String) : Except Err Loaded := do
  let (rootFilepaths, root) ← loadRoot env fs metadataDir
  let targetsPaths ← GetRoleMetadataFilepathsFromDir (listDir env fs metadataDir) Targets
  let targetsPath ← lastElem targetsPaths
  let targets ← FromFileTargets fs targetsPath
  let snapshotPaths ← GetRoleMetadataFilepathsFromDir (listDir env fs metadataDir) Snapshot
  let snapshotPath ← lastElem snapshotPaths
  let snapshot ← FromFileSnapshot fs snapshotPath
  let timestampPaths ← GetRoleMetadataFilepathsFromDir (listDir env fs metadataDir) Timestamp
  let timestampPath ← lastElem timestampPaths
  let timestamp ← FromFileTimestamp fs timestampPath
  pure { rootFilepaths := rootFilepaths, root := root, targets := targets, snapshot := snapshot,
         timestamp := timestamp, targetsPath := targetsPath, snapshotPath := snapshotPath,
         timestampPath := timestampPath }

/-! ## `updateMetadata` (`update_metadata.go`) -/

structure configUpdate where
  repositoryDir : String
  metadataDir : String
  targetsPrivkeyFilepath : String
  snapshotPrivkeyFilepath : String
  timestampPrivkeyFilepath : String
  expireIn : Nat
  askConfirmation : Bool

/-- The documents `roles` holds for Targets, Snapshot and Timestamp. -/
structure NewRoles where
  targets : Metadata TargetsType
  snapshot : Metadata SnapshotType
  timestamp : Metadata TimestampType
  deriving DecidableEq, Repr

/-- Step "Verify older version before proceeding to write the newer version":
the delegate check of each loaded document under the loaded Root, in the
order of `getRoles`. -/
def verifyPrevious (l : Loaded) : Except Err Unit := do
  orFail (VerifyDelegate l.root Root l.root) Err.inadequatePrior
  orFail (VerifyDelegate l.root Targets l.targets) Err.inadequatePrior
  orFail (VerifyDelegate l.root Snapshot l.snapshot) Err.inadequatePrior
  orFail (VerifyDelegate l.root Timestamp l.timestamp) Err.inadequatePrior

/-- Embedding of `metahelper.GenerateNewTargetsFromDir` on the outcome of
the scan: a fresh Targets document (version 1, no signature). -/
def GenerateNewTargetsFromDir (env : Env) (expires : Int) : Except Err (Metadata TargetsType) :=
  match env.scan with
  | .error _ => .error Err.scan
  | .ok ts => .ok { Signed := { Version := 1, Expires := expires, Targets := ts }, Signatures := [] }

/-- Step "Clear old signatures, update roles info, bump version": the loop over
Targets, Snapshot, Timestamp. -/
def bumpRoles (config : configUpdate) (env : Env) (l : Loaded)
    (newTargets : Metadata TargetsType) : NewRoles :=
  let targets : Metadata TargetsType :=
    { newTargets with
      Signed := { newTargets.Signed with
        Version := wrapInt64 (l.targets.Signed.Version + 1)
        Expires := ExpireIn env.now config.expireIn } }
  let snapshot0 := ClearSignatures l.snapshot
  let snapshot : Metadata SnapshotType :=
    { snapshot0 with
      Signed := { snapshot0.Signed with
        Meta := mapSet snapshot0.Signed.Meta (Targets ++ ".json") (MetaFile targets.Signed.Version)
        Version := wrapInt64 (snapshot0.Signed.Version + 1)
        Expires := ExpireIn env.now config.expireIn } }
  let timestamp0 := ClearSignatures l.timestamp
  let timestamp : Metadata TimestampType :=
    { timestamp0 with
      Signed := { timestamp0.Signed with
        Meta := mapSet timestamp0.Signed.Meta (Snapshot ++ ".json") (MetaFile snapshot.Signed.Version)
        Version := wrapInt64 (timestamp0.Signed.Version + 1)
        Expires := ExpireIn env.now config.expireIn } }
  { targets := targets, snapshot := snapshot, timestamp := timestamp }

/-- Step "Load keys for signing": an empty path is skipped. -/
def loadUpdateKey (env : Env) (path : String) : Except Err (Option PrivateKey) :=
  if path.length = 0 then .ok none
  else
    match readPrivateKey env path with
    | .error e => .error e
    | .ok k => .ok (some k)

/-- Step "Check if keys are valid for roles", for one role. -/
def checkUpdateKey (root : Metadata RootType) (name : String) (key : Option PrivateKey) :
    Except Err Unit :=
  match key with
  | none => .ok ()
  | some k =>
    match mapGet root.Signed.Roles name with
    | none => .error Err.panic
    | some r =>
      if (KeyFromPublicKey k).ID ∈ r.KeyIDs then .ok () else .error Err.invalidKeyForRole

/-- Step "Signing", for one role: skipped without a key. -/
def signWith {T : Type} [RolePayload T] (m : Metadata T) (key : Option PrivateKey) : Metadata T :=
  match key with
  | none => m
  | some k => Sign (ClearSignatures m) k

/-- Step "Verify newer version and prompt reminder for omitted keys", for one
role: a failed delegate check asks for confirmation when
`askConfirmation` is set. Returns the remaining console input. -/
def verifyNewRole {T : Type} [RolePayload T] (config : configUpdate) (root : Metadata RootType)
    (name : String) (m : Metadata T) (answers : List Bool) : Except Err (List Bool) :=
  match VerifyDelegate root name m with
  | .ok _ => .ok answers
  | .error _ =>
    if config.askConfirmation then
      match AskConfirmation answers with
      | (true, rest) => .ok rest
      | (false, _) => .error Err.notConfirmed
    else .ok answers

/-- Step "Show changes and ask user confirmation to continue the update
operation". Returns the remaining console input. -/
def confirmChanges (config : configUpdate) (answers : List Bool) : Except Err (List Bool) :=
  if config.askConfirmation then
    match AskConfirmation answers with
    | (true, rest) => .ok rest
    | (false, _) => .error Err.notConfirmed
  else .ok answers

/-- The part of `updateMetadata` between the confirmation of the changes
and the write loop: bump, key loading, key check, signing, duplicate check,
verification of the new documents, writability probe. -/
def updateSign (config : configUpdate) (env : Env) (l : Loaded)
    (newTargets : Metadata TargetsType) (answers : List Bool) : Except Err NewRoles := do
  let r := bumpRoles config env l newTargets
  let targetsKey ← loadUpdateKey env config.targetsPrivkeyFilepath
  let snapshotKey ← loadUpdateKey env config.snapshotPrivkeyFilepath
  let timestampKey ← loadUpdateKey env config.timestampPrivkeyFilepath
  checkUpdateKey l.root Targets targetsKey
  checkUpdateKey l.root Snapshot snapshotKey
  checkUpdateKey l.root Timestamp timestampKey
  let r : NewRoles :=
    { targets := signWith r.targets targetsKey
      snapshot := signWith r.snapshot snapshotKey
      timestamp := signWith r.timestamp timestampKey }
  if dupSignature r.targets.Signatures [] then throw Err.duplicateSignature
  let answers ← verifyNewRole config l.root Targets r.targets answers
  let answers ← verifyNewRole config l.root Snapshot r.snapshot answers
  let _ ← verifyNewRole config l.root Timestamp r.timestamp answers
  let _ ← IsDirWritable env
  pure r

/-- Everything `updateMetadata` does before its write loop: the documents
to be written, or the error returned. -/
def updatePlan (config : configUpdate) (env : Env) (fs : FS) : Except Err NewRoles := do
  let l ← loadRoles env fs config.metadataDir
  verifyPrevious l
  let newTargets ← GenerateNewTargetsFromDir env (ExpireIn env.now 7)
  let answers ← confirmChanges config env.answers
  updateSign config env l newTargets answers

/-- The files the write loop of `updateMetadata` writes, in order. -/
def updateWrites (config : configUpdate) (r : NewRoles) : List (String × Content) :=
  [ (Join config.metadataDir (versionedName r.targets.Signed.Version Targets), Content.targets r.targets),
    (Join config.metadataDir (versionedName r.snapshot.Signed.Version Snapshot), Content.snapshot r.snapshot),
    (Join config.metadataDir (plainName Timestamp), Content.timestamp r.timestamp) ]

/-- Embedding of `updateMetadata`: the returned error (or success) and the
metadata directory afterwards. -/
def updateMetadata (config : configUpdate) (env : Env) (fs : FS) : Except Err Unit × FS :=
  match updatePlan config env fs with
  | .error e => (.error e, fs)
  | .ok r => writeAll env (updateWrites config r) [] fs

/-! ## `signMetadata` (`sign_metadata.go`) -/

structure configSign where
  metadataDir : String
  role : String
  privkeyFilepath : String
  forced : Bool

/-- Step "Load roles metadata from file": the document of `role`, `other` when
`role` is none of the four role names (no case of the switch runs). -/
def loadRoleDoc (fs : FS) (role : String) (paths : List String) : Except Err Content :=
  if role = Targets then do
    let m ← FromFileTargets fs (← lastElem paths)
    pure (Content.targets m)
  else if role = Snapshot then do
    let m ← FromFileSnapshot fs (← lastElem paths)
    pure (Content.snapshot m)
  else if role = Timestamp then do
    let m ← FromFileTimestamp fs (← lastElem paths)
    pure (Content.timestamp m)
  else if role = Root then do
    let m ← FromFileRoot fs (← lastElem paths)
    pure (Content.root m)
  else pure Content.other

/-- Step "Sign": the document with the new signature appended. -/
def signContent (c : Content) (signer : PrivateKey) : Content :=
  match c with
  | Content.root m => Content.root (Sign m signer)
  | Content.targets m => Content.targets (Sign m signer)
  | Content.snapshot m => Content.snapshot (Sign m signer)
  | Content.timestamp m => Content.timestamp (Sign m signer)
  | Content.other => Content.other

/-- The signature list of a document. -/
def Content.signatures (c : Content) : List Signature :=
  match c with
  | Content.root m => m.Signatures
  | Content.targets m => m.Signatures
  | Content.snapshot m => m.Signatures
  | Content.timestamp m => m.Signatures
  | Content.other => []

/-- The signed payload of a document. -/
def Content.payload (c : Content) : Option Payload :=
  match c with
  | Content.root m => some (Payload.root m.Signed)
  | Content.targets m => some (Payload.targets m.Signed)
  | Content.snapshot m => some (Payload.snapshot m.Signed)
  | Content.timestamp m => some (Payload.timestamp m.Signed)
  | Content.other => none

/-- The document `roles.Root()` refers to after the loading phase of
`signMetadata`: for the role `root` the document loaded for signing has
replaced the Root loaded first. -/
def currentRoot (root : Metadata RootType) (doc : Content) : Metadata RootType :=
  match doc with
  | Content.root m => m
  | _ => root

/-- The delegate check of the signed document under `roles.Root()`. -/
def verifyContent (root : Metadata RootType) (c : Content) : Except Err Unit :=
  match c with
  | Content.root m => VerifyDelegate root Root m
  | Content.targets m => VerifyDelegate root Targets m
  | Content.snapshot m => VerifyDelegate root Snapshot m
  | Content.timestamp m => VerifyDelegate root Timestamp m
  | Content.other => .ok ()

/-- The file name the write switch of `signMetadata` builds. -/
def signFilename (role : String) (c : Content) : Option String :=
  match c with
  | Content.root m => some (versionedName m.Signed.Version role)
  | Content.targets m => some (versionedName m.Signed.Version role)
  | Content.snapshot m => some (versionedName m.Signed.Version role)
  | Content.timestamp _ => some (plainName role)
  | Content.other => none

/-- Step "Verify signature and ask for confirmation", first part: unless
`forced`, the id of the signing key must be among the key ids `roles.Root()`
records for the role. Reading the entry of a role that Root does not have,
or the key id of a signature that was never made, panics. -/
def checkRecognized (config : configSign) (root : Metadata RootType) (signed : Content)
    (signer : PrivateKey) : Except Err Unit :=
  if config.forced then .ok ()
  else
    match mapGet root.Signed.Roles config.role, signed with
    | none, _ => .error Err.panic
    | some _, Content.other => .error Err.panic
    | some r, _ =>
      if (KeyFromPublicKey signer).ID ∈ r.KeyIDs then .ok () else .error Err.unrecognizedKey

/-- The tail of `signMetadata` after the key check: delegate check of the
signed document, confirmation when it fails, and the file to write (`none`
when the operation returns `nil` without writing). -/
def signOutput (config : configSign) (env : Env) (root : Metadata RootType) (signed : Content) :
    Option (String × Content) :=
  let confirmed :=
    match verifyContent root signed with
    | .ok _ => true
    | .error _ => (AskConfirmation env.answers).1
  if confirmed then
    match signFilename config.role signed with
    | none => none
    | some filename => some (Join config.metadataDir filename, signed)
  else none

/-- Everything `signMetadata` does before its write: the file to write
(`none` when the operation returns `nil` without writing), or the error
returned. -/
def signPlan (config : configSign) (env : Env) (fs : FS) :
    Except Err (Option (String × Content)) := do
  let signer ← readPrivateKey env config.privkeyFilepath
  let (_, root) ← loadRoot env fs config.metadataDir
  let roleMetadataFilepaths ←
    GetRoleMetadataFilepathsFromDir (listDir env fs config.metadataDir) config.role
  let doc ← loadRoleDoc fs config.role roleMetadataFilepaths
  let signed := signContent doc signer
  if dupSignature signed.signatures [] then throw Err.duplicateSignature
  checkRecognized config (currentRoot root signed) signed signer
  pure (signOutput config env (currentRoot root signed) signed)

/-- Embedding of `signMetadata`. -/
def signMetadata (config : configSign) (env : Env) (fs : FS) : Except Err Unit × FS :=
  match signPlan config env fs with
  | .error e => (.error e, fs)
  | .ok none => (.ok (), fs)
  | .ok (some (path, c)) => ToFile env fs path c

/-! ## `changeThreshold` (`change_threshold.go`) -/

structure configChangeThreshold where
  metadataDir : String
  action : String
  role : String
  rootPrivkeyFilepath : String
  rolePrivkeyFilepath : String

/-- Step "Load role private key for `add` operation, load role private OR public
key for `reduce` operation": the public key `k` used below; `none` stands
for the nil private key left behind when parsing failed and the action is
neither `add` nor `reduce`. -/
def loadRoleKey (config : configChangeThreshold) (env : Env) : Except Err (Option Key) :=
  match env.keyFiles config.rolePrivkeyFilepath with
  | KeyFile.missing => .error Err.io
  | KeyFile.priv k => .ok (some k.pub)
  | f =>
    if config.action = ChangeThresholdActionAdd then .error Err.decode
    else if config.action = ChangeThresholdActionReduce then
      match parsePublicKey f with
      | .error e => .error e
      | .ok k => .ok (some k)
    else .ok none

/-- The switch on `config.action`: the Root payload after the threshold and
key change. -/
def applyThresholdAction (config : configChangeThreshold) (signed : RootType) (k : Key) :
    Except Err RootType :=
  if config.action = ChangeThresholdActionAdd then
    match mapGet signed.Roles config.role with
    | none => .error Err.panic
    | some r =>
      let r1 : Role := { r with Threshold := wrapInt64 (r.Threshold + 1) }
      let signed1 : RootType := { signed with Roles := mapSet signed.Roles config.role r1 }
      if k.ID ∈ r1.KeyIDs then .error Err.duplicateKey
      else orFail (AddKey signed1 k config.role) Err.value
  else if config.action = ChangeThresholdActionReduce then
    match mapGet signed.Roles config.role with
    | none => .error Err.panic
    | some r =>
      let r1 : Role := { r with Threshold := wrapInt64 (r.Threshold - 1) }
      let signed1 : RootType := { signed with Roles := mapSet signed.Roles config.role r1 }
      if r1.Threshold = 0 then .error Err.thresholdUnderflow
      else orFail (RevokeKey signed1 k.ID config.role) Err.revoke
  else .ok signed

/-- Step "Increase root metadata file version", clear the signatures, sign with
the root key and check that the signing key is a root key of the new Root. -/
def reissueRoot (root : Metadata RootType) (signed : RootType) (rootPrivkey : PrivateKey) :
    Except Err (Metadata RootType) :=
  let root1 : Metadata RootType :=
    ClearSignatures { root with Signed := { signed with Version := wrapInt64 (signed.Version + 1) } }
  let root2 := Sign root1 rootPrivkey
  match mapGet root2.Signed.Roles Root with
  | none => .error Err.panic
  | some rr =>
    if (signatureOf root1 rootPrivkey).KeyID ∈ rr.KeyIDs then .ok root2
    else .error Err.unrecognizedKey

/-- Everything `changeThreshold` does before its write: the new Root, or the
error returned. -/
def changeThresholdPlan (config : configChangeThreshold) (env : Env) (fs : FS) :
    Except Err (Metadata RootType) := do
  let rootPrivkey ← readPrivateKey env config.rootPrivkeyFilepath
  let roleKey ← loadRoleKey config env
  let (_, root) ← loadRoot env fs config.metadataDir
  orFail (VerifyDelegate root Root root) Err.inadequatePrior
  let k ← match roleKey with
    | none => throw Err.panic
    | some k => pure k
  let signed ← applyThresholdAction config root.Signed k
  let newRoot ← reissueRoot root signed rootPrivkey
  let _ ← IsDirWritable env
  pure newRoot

/-- Embedding of `changeThreshold`. -/
def changeThreshold (config : configChangeThreshold) (env : Env) (fs : FS) :
    Except Err Unit × FS :=
  match changeThresholdPlan config env fs with
  | .error e => (.error e, fs)
  | .ok newRoot =>
    ToFile env fs (Join config.metadataDir (versionedName newRoot.Signed.Version Root))
      (Content.root newRoot)

/-! ## `verifyMetadata` (`verify_metadata.go`) -/

structure configVerify where
  repositoryDir : String
  metadataDir : String

/-- One row of the report of `verifyMetadata`. -/
structure verResult where
  filepath : String
  threshold : Nat
  keyIDs : List String
  expirationDate : Int
  valid : Bool
  errorMessages : List Err
  deriving DecidableEq, Repr

/-- The zero value of `verResult`, read from the map for a missing name. -/
def verResult.zero : verResult :=
  { filepath := "", threshold := 0, keyIDs := [], expirationDate := 0, valid := false,
    errorMessages := [] }

/-- Step "Load attributes", for one role: path and expiry of the loaded document,
threshold (converted to `uint8`) and key ids from the latest Root. -/
def loadAttribute (l : Loaded) (name : String) (filepath : String) (expires : Int) :
    Except Err verResult :=
  match mapGet l.root.Signed.Roles name with
  | none => .error Err.panic
  | some r =>
    .ok { filepath := filepath, threshold := (r.Threshold % 256).toNat, keyIDs := r.KeyIDs,
          expirationDate := expires, valid := true, errorMessages := [] }

/-- Step "Verify", for one role: the delegate check under the latest Root, then
the expiry check against the clock; each failure is appended to the row. -/
def checkRole {T : Type} [RolePayload T] (now : Int) (root : Metadata RootType) (name : String)
    (m : Metadata T) (expires : Int) (entry : verResult) : verResult :=
  let entry1 :=
    match VerifyDelegate root name m with
    | .ok _ => entry
    | .error e => { entry with errorMessages := entry.errorMessages ++ [e], valid := false }
  if IsExpired expires now then
    { entry1 with errorMessages := entry1.errorMessages ++ [Err.expired], valid := false }
  else entry1

/-- The report: rows in the order the checks run (Root, Timestamp, Snapshot,
Targets). -/
def verifyReport (env : Env) (l : Loaded) : Except Err (List (String × verResult)) := do
  let lastRoot ← lastElem l.rootFilepaths
  let rootEntry ← loadAttribute l Root lastRoot l.root.Signed.Expires
  let targetsEntry ← loadAttribute l Targets l.targetsPath l.targets.Signed.Expires
  let snapshotEntry ← loadAttribute l Snapshot l.snapshotPath l.snapshot.Signed.Expires
  let timestampEntry ← loadAttribute l Timestamp l.timestampPath l.timestamp.Signed.Expires
  pure
    [ (Root, checkRole env.now l.root Root l.root l.root.Signed.Expires rootEntry),
      (Timestamp, checkRole env.now l.root Timestamp l.timestamp l.timestamp.Signed.Expires
        timestampEntry),
      (Snapshot, checkRole env.now l.root Snapshot l.snapshot l.snapshot.Signed.Expires
        snapshotEntry),
      (Targets, checkRole env.now l.root Targets l.targets l.targets.Signed.Expires
        targetsEntry) ]

/-- Model of the `trustedmetadata` workflow of go-tuf on the loaded
documents: `New` (Root verifies itself), `UpdateTimestamp`, `UpdateSnapshot`
and `UpdateTargets` (delegate checks under Root, expiry, and the version
each meta entry pins). -/
def trustedWorkflow (now : Int) (l : Loaded) : Except Err Unit := do
  VerifyDelegate l.root Root l.root
  if IsExpired l.root.Signed.Expires now then throw Err.expired
  VerifyDelegate l.root Timestamp l.timestamp
  if IsExpired l.timestamp.Signed.Expires now then throw Err.expired
  VerifyDelegate l.root Snapshot l.snapshot
  if IsExpired l.snapshot.Signed.Expires now then throw Err.expired
  match mapGet l.timestamp.Signed.Meta (Snapshot ++ ".json") with
  | none => throw Err.panic
  | some snapshotMeta =>
    if l.snapshot.Signed.Version ≠ snapshotMeta.Version then throw Err.badVersion
  match mapGet l.snapshot.Signed.Meta (Targets ++ ".json") with
  | none => throw Err.value
  | some metaInfo =>
    VerifyDelegate l.root Targets l.targets
    if l.targets.Signed.Version ≠ metaInfo.Version then throw Err.badVersion
    if IsExpired l.targets.Signed.Expires now then throw Err.expired

/-- Step "Begin root metadata file key continuity test": each further Root file
is loaded and delegate-checked under the Root loaded before it. -/
def continuityLoop (fs : FS) : Metadata RootType → List String → Except Err Unit
  | _, [] => .ok ()
  | previousRoot, filepath :: rest =>
    match FromFileRoot fs filepath with
    | .error e => .error e
    | .ok root =>
      match VerifyDelegate previousRoot Root root with
      | .error e => .error e
      | .ok _ => continuityLoop fs root rest

/-- The continuity test on the sorted Root file paths: indexing
`rootFilepaths[0]` panics on an empty list. -/
def keyContinuity (fs : FS) (rootFilepaths : List String) : Except Err Unit :=
  match rootFilepaths with
  | [] => .error Err.panic
  | first :: rest =>
    match FromFileRoot fs first with
    | .error e => .error e
    | .ok previousRoot => continuityLoop fs previousRoot rest

/-- Embedding of `verifyMetadata`; it writes nothing. -/
def verifyMetadata (config : configVerify) (env : Env) (fs : FS) : Except Err Unit := do
  let l ← loadRoles env fs config.metadataDir
  let report ← verifyReport env l
  let _ ← GenerateNewTargetsFromDir env (ExpireIn env.now 1000)
  if report.any (fun row => decide (row.2.errorMessages.length > 0)) then throw Err.reported
  trustedWorkflow env.now l
  keyContinuity fs l.rootFilepaths

/-! ## `changeRootKey` (`change_root_key.go`) -/

def ChangeRootKeyActionAdd : String := "add"
def ChangeRootKeyActionRemove : String := "remove"

structure configChangeRootKey where
  metadataDir : String
  action : String
  privkeyFilepath : String
  replacementPrivkeyFilepath : String
  inputPrivkeyFilepath : String
  expireIn : Nat
  threshold : Nat

/-- Step "Load info of key to be removed": the file is read and parsed with
`tryParseAsPrivateThenPublic`, first as a private key, then as a public key;
the result is the public key `k`. -/
def tryParseAsPrivateThenPublic (env : Env) (path : String) : Except Err Key :=
  match env.keyFiles path with
  | KeyFile.missing => .error Err.io
  | KeyFile.priv k => .ok k.pub
  | f => parsePublicKey f

/-- The switch on `config.action` of `changeRootKey`: the Root payload after
the key change, and the new private key of the `add` action. -/
def applyRootKeyAction (config : configChangeRootKey) (env : Env) (signed : RootType) :
    Except Err (RootType × Option PrivateKey) :=
  if config.action = ChangeRootKeyActionAdd then
    match readPrivateKey env config.inputPrivkeyFilepath with
    | .error e => .error e
    | .ok newPrivkey =>
      match mapGet signed.Roles Root with
      | none => .error Err.panic
      | some rr =>
        if (KeyFromPublicKey newPrivkey).ID ∈ rr.KeyIDs then .error Err.duplicateKey
        else
          match AddKey signed (KeyFromPublicKey newPrivkey) Root with
          | .error _ => .error Err.value
          | .ok signed1 => .ok (signed1, some newPrivkey)
  else if config.action = ChangeRootKeyActionRemove then
    match tryParseAsPrivateThenPublic env config.inputPrivkeyFilepath with
    | .error e => .error e
    | .ok k =>
      match RevokeKey signed k.ID Root with
      | .error _ => .error Err.revoke
      | .ok signed1 => .ok (signed1, none)
  else .ok (signed, none)

/-- Step "Increase root metadata file version, change expiration date and
threshold", clear the signatures, sign with the root key and, for `add`, with
the new key, and check that each signing key is a root key of the new Root. -/
def reissueRootKey (config : configChangeRootKey) (env : Env) (root : Metadata RootType)
    (signed : RootType) (rootPrivkey : PrivateKey) (newPrivkey : Option PrivateKey) :
    Except Err (Metadata RootType) :=
  match mapGet signed.Roles Root with
  | none => .error Err.panic
  | some rr =>
    let signed1 : RootType :=
      { signed with
        Version := wrapInt64 (signed.Version + 1)
        Expires := ExpireIn env.now config.expireIn
        Roles := mapSet signed.Roles Root { rr with Threshold := config.threshold } }
    let root1 : Metadata RootType := ClearSignatures { root with Signed := signed1 }
    let root2 := Sign root1 rootPrivkey
    match newPrivkey with
    | none =>
      if (signatureOf root1 rootPrivkey).KeyID ∈ rr.KeyIDs then .ok root2
      else .error Err.unrecognizedKey
    | some k =>
      let root3 := Sign root2 k
      if (signatureOf root1 rootPrivkey).KeyID ∈ rr.KeyIDs then
        if (signatureOf root2 k).KeyID ∈ rr.KeyIDs then .ok root3
        else .error Err.unrecognizedKey
      else .error Err.unrecognizedKey

/-- Everything `changeRootKey` does before its write: the new Root, or the
error returned. -/
def changeRootKeyPlan (config : configChangeRootKey) (env : Env) (fs : FS) :
    Except Err (Metadata RootType) := do
  let (_, root) ← loadRoot env fs config.metadataDir
  orFail (VerifyDelegate root Root root) Err.inadequatePrior
  let rootPrivkey ← readPrivateKey env config.privkeyFilepath
  let (signed, newPrivkey) ← applyRootKeyAction config env root.Signed
  let newRoot ← reissueRootKey config env root signed rootPrivkey newPrivkey
  let _ ← IsDirWritable env
  pure newRoot

/-- Embedding of `changeRootKey`. -/
def changeRootKey (config : configChangeRootKey) (env : Env) (fs : FS) :
    Except Err Unit × FS :=
  match changeRootKeyPlan config env fs with
  | .error e => (.error e, fs)
  | .ok newRoot =>
    ToFile env fs (Join config.metadataDir (versionedName newRoot.Signed.Version Root))
      (Content.root newRoot)

/-! ## `initRepo` (`initialization.go`) -/

structure configInit where
  repositoryDir : String
  outputDir : String
  rootPrivkeyFilepathsRaw : String
  targetsPrivkeyFilepathsRaw : String
  snapshotPrivkeyFilepathsRaw : String
  timestampPrivkeyFilepathsRaw : String
  rolesPrivkeyFilepaths : List (String × List String)
  rootThreshhold : Nat
  targetsThreshold : Nat
  snapshotThreshold : Nat
  timestampThreshold : Nat
  expireIn : Nat

/-- Model of `metadata.Root(expires)`: version 1, no key, the four roles with
no key id and threshold 1. -/
def metadata.Root (expires : Int) : Metadata RootType :=
  { Signed :=
      { Version := 1
        Expires := expires
        Keys := []
        Roles := [("root", ⟨[], 1⟩), ("snapshot", ⟨[], 1⟩), ("targets", ⟨[], 1⟩),
                  ("timestamp", ⟨[], 1⟩)] }
    Signatures := [] }

/-- Model of `metadata.Targets(expires)`. -/
def metadata.Targets (expires : Int) : Metadata TargetsType :=
  { Signed := { Version := 1, Expires := expires, Targets := [] }, Signatures := [] }

/-- Model of `metadata.Snapshot(expires)`. -/
def metadata.Snapshot (expires : Int) : Metadata SnapshotType :=
  { Signed := { Version := 1, Expires := expires, Meta := [("targets.json", MetaFile 1)] }
    Signatures := [] }

/-- Model of `metadata.Timestamp(expires)`. -/
def metadata.Timestamp (expires : Int) : Metadata TimestampType :=
  { Signed := { Version := 1, Expires := expires, Meta := [("snapshot.json", MetaFile 1)] }
    Signatures := [] }

/-- The inner loop of `readRolesPrivkeysFromFilepaths`: the keys of one role. -/
def readPrivkeys (env : Env) : List String → Except Err (List PrivateKey)
  | [] => .ok []
  | path :: rest =>
    match readPrivateKey env path with
    | .error e => .error e
    | .ok k =>
      match readPrivkeys env rest with
      | .error e => .error e
      | .ok ks => .ok (k :: ks)

/-- Embedding of `readRolesPrivkeysFromFilepaths`; the roles are visited in
the order of the list. -/
def readRolesPrivkeysFromFilepaths (env : Env) :
    List (String × List String) → Except Err (List (String × List PrivateKey))
  | [] => .ok []
  | (role, paths) :: rest =>
    match readPrivkeys env paths with
    | .error e => .error e
    | .ok ks =>
      match readRolesPrivkeysFromFilepaths env rest with
      | .error e => .error e
      | .ok m => .ok ((role, ks) :: m)

/-- The map read `m[name]` of a map of slices: the nil slice for a name
without an entry. -/
def sliceOf {β : Type} (m : List (String × List β)) (name : String) : List β :=
  (mapGet m name).getD []

/-- Step "Record public keys info in root metadata file", for one role. -/
def addRoleKeys (signed : RootType) (name : String) : List PrivateKey → Except Err RootType
  | [] => .ok signed
  | key :: rest =>
    match AddKey signed (KeyFromPublicKey key) name with
    | .error _ => .error Err.value
    | .ok signed1 => addRoleKeys signed1 name rest

/-- Step "Record public keys info in root metadata file", over the roles. -/
def addRolesKeys (rolesKeys : List (String × List PrivateKey)) (signed : RootType) :
    List String → Except Err RootType
  | [] => .ok signed
  | name :: rest =>
    match addRoleKeys signed name (sliceOf rolesKeys name) with
    | .error e => .error e
    | .ok signed1 => addRolesKeys rolesKeys signed1 rest

/-- The assignment `Roles[name].Threshold = int(threshold)`. -/
def setThreshold (signed : RootType) (name : String) (threshold : Nat) : Except Err RootType :=
  match mapGet signed.Roles name with
  | none => .error Err.panic
  | some r =>
    .ok { signed with Roles := mapSet signed.Roles name { r with Threshold := threshold } }

/-- The map `thresholds` of `initRepo` and of the init command. -/
def initThresholds (config : configInit) : List (String × Nat) :=
  [ (Root, config.rootThreshhold), (Targets, config.targetsThreshold),
    (Snapshot, config.snapshotThreshold), (Timestamp, config.timestampThreshold) ]

/-- Step "Set roles signature threshold". -/
def setThresholds (signed : RootType) : List (String × Nat) → Except Err RootType
  | [] => .ok signed
  | (name, threshold) :: rest =>
    match setThreshold signed name threshold with
    | .error e => .error e
    | .ok signed1 => setThresholds signed1 rest

/-- Step "Sign metadata files for each respective role", for one document. -/
def signAll {T : Type} [RolePayload T] (m : Metadata T) (keys : List PrivateKey) : Metadata T :=
  keys.foldl Sign m

/-- The four documents `initRepo` writes. -/
structure InitRoles where
  root : Metadata RootType
  targets : Metadata TargetsType
  snapshot : Metadata SnapshotType
  timestamp : Metadata TimestampType
  deriving DecidableEq, Repr

/-- The part of `initRepo` between the output directory probe and the write
loop: fresh documents, target scan, key reading, key recording, thresholds,
signing. -/
def initRoles (config : configInit) (env : Env) : Except Err InitRoles := do
  let expires := ExpireIn env.now config.expireIn
  let targets0 := metadata.Targets expires
  let scanned ← orFail env.scan Err.scan
  let targets : Metadata TargetsType :=
    { targets0 with
      Signed := { targets0.Signed with
        Targets := scanned.foldl (fun m e => mapSet m e.1 e.2) targets0.Signed.Targets } }
  let rolesKeys ← readRolesPrivkeysFromFilepaths env
    [ (Root, sliceOf config.rolesPrivkeyFilepaths Root),
      (Targets, sliceOf config.rolesPrivkeyFilepaths Targets),
      (Snapshot, sliceOf config.rolesPrivkeyFilepaths Snapshot),
      (Timestamp, sliceOf config.rolesPrivkeyFilepaths Timestamp) ]
  let signed ← addRolesKeys rolesKeys (metadata.Root expires).Signed getRoles
  let signed ← setThresholds signed (initThresholds config)
  pure
    { root := signAll { metadata.Root expires with Signed := signed } (sliceOf rolesKeys Root)
      targets := signAll targets (sliceOf rolesKeys Targets)
      snapshot := signAll (metadata.Snapshot expires) (sliceOf rolesKeys Snapshot)
      timestamp := signAll (metadata.Timestamp expires) (sliceOf rolesKeys Timestamp) }

/-- The files the write loop of `initRepo` writes, in order. -/
def initWrites (config : configInit) (r : InitRoles) : List (String × Content) :=
  [ (Join config.outputDir (versionedName r.targets.Signed.Version Targets), Content.targets r.targets),
    (Join config.outputDir (versionedName r.snapshot.Signed.Version Snapshot), Content.snapshot r.snapshot),
    (Join config.outputDir (plainName Timestamp), Content.timestamp r.timestamp),
    (Join config.outputDir (versionedName r.root.Signed.Version Root), Content.root r.root) ]

/-- The write loop of `initRepo`. Each `case` declares a `filename` of its
own, so the `filename` the loop records after a successful write is still
the empty string it was initialised with: `succeededWrites` receives
`filepath.Join(outputDir, "")`, and these are the paths removed when a later
write fails. -/
def initWriteLoop (env : Env) (outputDir : String) :
    List (String × Content) → List String → FS → Except Err Unit × FS
  | [], _, fs => (.ok (), fs)
  | (path, c) :: rest, succeededWrites, fs =>
    match ToFile env fs path c with
    | (.error _, fs') => (.error Err.write, succeededWrites.foldl Remove fs')
    | (.ok _, fs') => initWriteLoop env outputDir rest (succeededWrites ++ [Join outputDir ""]) fs'

/-- Step "output dir for metadata files is not writable or does not exist":
the directories `MakeNewDir` creates, or the error returned. -/
def ensureOutputDir (config : configInit) (env : Env) : Except Err (List String) :=
  match IsDirWritable env with
  | .ok _ => .ok []
  | .error _ => if env.mkdirFails then .error Err.notWritable else .ok [config.outputDir]

/-- Embedding of `initRepo`: the returned error (or success), the files
afterwards, and the directories created. -/
def initRepo (config : configInit) (env : Env) (fs : FS) : Except Err Unit × FS × List String :=
  match ensureOutputDir config env with
  | .error e => (.error e, fs, [])
  | .ok dirs =>
    match initRoles config env with
    | .error e => (.error e, fs, dirs)
    | .ok r =>
      match initWriteLoop env config.outputDir (initWrites config r) [] fs with
      | (res, fs') => (res, fs', dirs)

/-! ## The commands (`repository.go`)

What a command prints to `cmd.OutOrStdout()` and what it leaves on disk. -/

def InitFailed : String := "----------INIT FAILED----------"
def InitSucceeded : String := "----------INIT SUCCEEDED----------"
def UpdateFailed : String := "----------UPDATE FAILED----------"
def UpdateSucceeded : String := "----------UPDATE SUCCEEDED----------"
def ChangeRootKeyFailed : String := "----------CHANGE ROOT KEY FAILED----------"
def ChangeRootKeySucceeded : String := "----------CHANGE ROOT KEY SUCCEEDED----------"

/-- Stand-in for the text of an error (`%v`): its kind. -/
def errorText (e : Err) : String :=
  match e with
  | .walk => "walk"
  | .noFile => "no file"
  | .io => "io"
  | .decode => "decode"
  | .value => "value"
  | .unsigned => "unsigned"
  | .inadequatePrior => "inadequate signatures"
  | .scan => "scan"
  | .duplicateSignature => "duplicate signature"
  | .unrecognizedKey => "unrecognized key"
  | .duplicateKey => "key was already added"
  | .thresholdUnderflow => "threshold cannot be lower than 1"
  | .revoke => "fail to revoke key"
  | .invalidKeyForRole => "invalid key for role"
  | .notConfirmed => "not confirmed"
  | .notWritable => "not writable"
  | .write => "write"
  | .expired => "expired"
  | .badVersion => "bad version"
  | .reported => "reported"
  | .undefinedName => "undefined semaphore name"
  | .contentMismatch => "content mismatch"
  | .panic => "panic"

/-- The lines a command prints after its operation returned: the issue and
the failure banner, or the success line and the success banner. A panic
ends the process before anything is printed. -/
def report (r : Except Err Unit) (failed succeeded okLine : String) : String :=
  match r with
  | .error Err.panic => ""
  | .error e => "Encountered some issue: " ++ errorText e ++ "\n" ++ failed ++ "\n"
  | .ok _ => okLine ++ succeeded ++ "\n"

/-- The map `keyFilepaths` of the init command. -/
def initKeyFilepaths (config : configInit) : List (String × String) :=
  [ (Root, config.rootPrivkeyFilepathsRaw), (Targets, config.targetsPrivkeyFilepathsRaw),
    (Snapshot, config.snapshotPrivkeyFilepathsRaw),
    (Timestamp, config.timestampPrivkeyFilepathsRaw) ]

/-- The loop of the init command over `getRoles()`: the key paths of each
role are split at `;` and counted against the threshold. The result is the
map `rolesPrivkeyFilepaths`, or what is printed before the command returns. -/
def initPreflight (thresholds : List (String × Nat)) (keyFilepaths : List (String × String)) :
    List String → List (String × List String) → Except String (List (String × List String))
  | [], rolesPrivkeyFilepaths => .ok rolesPrivkeyFilepaths
  | name :: rest, rolesPrivkeyFilepaths =>
    let paths := (Split ';' ((mapGet keyFilepaths name).getD "").data).map String.mk
    let threshold := (mapGet thresholds name).getD 0
    if threshold = 0 then
      .error ("Threshold must be greater than 0 for role: " ++ name ++ "\n")
    else if threshold ≠ paths.length then
      .error ("Too few/many private key(s) provided for role: " ++ name ++ "\n\twant: " ++
        toString threshold ++ ", have: " ++ toString paths.length ++ "\n" ++ InitFailed ++ "\n")
    else initPreflight thresholds keyFilepaths rest (mapSet rolesPrivkeyFilepaths name paths)

/-- Embedding of the `Run` function of the init command: the output, the
files afterwards and the directories created. -/
def cmdInit (config : configInit) (env : Env) (fs : FS) : String × FS × List String :=
  match initPreflight (initThresholds config) (initKeyFilepaths config) getRoles [] with
  | .error out => (out, fs, [])
  | .ok rolesPrivkeyFilepaths =>
    match initRepo { config with rolesPrivkeyFilepaths := rolesPrivkeyFilepaths } env fs with
    | (res, fs', dirs) =>
      (report res InitFailed InitSucceeded
        ("Metadata files written to: " ++ config.outputDir ++ "\n"), fs', dirs)

/-- The check of the update command on the three key paths: what is printed
when the command returns without calling `updateMetadata`. -/
def updatePreflight (config : configUpdate) : Option String :=
  if config.timestampPrivkeyFilepath.length > 0 then
    if config.snapshotPrivkeyFilepath.length = 0 ∨ config.targetsPrivkeyFilepath.length = 0 then
      some ("Snapshot and targets private keys must be provided\n" ++ UpdateFailed ++ "\n")
    else none
  else if config.snapshotPrivkeyFilepath.length > 0 ∧ config.targetsPrivkeyFilepath.length = 0 then
    some ("Targets private key must be provided\n" ++ UpdateFailed ++ "\n")
  else none

/-- Embedding of the `Run` function of the update command. -/
def cmdUpdate (config : configUpdate) (env : Env) (fs : FS) : String × FS :=
  match updatePreflight config with
  | some out => (out, fs)
  | none =>
    match updateMetadata config env fs with
    | (res, fs') =>
      (report res UpdateFailed UpdateSucceeded
        ("Metadata files updated in dir: " ++ config.metadataDir ++ "\n"), fs')

/-- The checks of the change-root-key command on action and threshold: what
is printed when the command returns without calling `changeRootKey`. -/
def changeRootKeyPreflight (config : configChangeRootKey) : Option String :=
  if config.action ≠ ChangeRootKeyActionAdd ∧ config.action ≠ ChangeRootKeyActionRemove then
    some ("Tips: only " ++ String.singleton (Char.ofNat 34) ++ ChangeRootKeyActionAdd ++
      String.singleton (Char.ofNat 34) ++ " or " ++ String.singleton (Char.ofNat 34) ++
      ChangeRootKeyActionRemove ++ String.singleton (Char.ofNat 34) ++
      " is accepted for action" ++ ChangeRootKeyFailed ++ "\n")
  else if config.threshold < 1 then
    some ("Threshold must be greater than 0\n" ++ ChangeRootKeyFailed ++ "\n")
  else none

/-- Embedding of the `Run` function of the change-root-key command. -/
def cmdChangeRootKey (config : configChangeRootKey) (env : Env) (fs : FS) : String × FS :=
  match changeRootKeyPreflight config with
  | some out => (out, fs)
  | none =>
    match changeRootKey config env fs with
    | (res, fs') => (report res ChangeRootKeyFailed ChangeRootKeySucceeded "", fs')

/-! ## `CompareNewOldTargets` (`metahelper.go`) -/

/-- Model of `strings.ToLower` on the letters `A` to `Z`; no other character
has one of the letters of `y`, `yes`, `n`, `no` as its lower case. -/
def ToLower (s : String) : String :=
  String.mk (s.data.map (fun c => if 'A' ≤ c ∧ c ≤ 'Z' then Char.ofNat (c.toNat + 32) else c))

/-- Embedding of `askConfirmation`. The console is the list of the lines
still to be read: `none` is a line `fmt.Scanln` fails on, and reading past
the end of the input fails too. Returns the answer and the lines left. -/
def cli.askConfirmation (retries : Int) :
    Int → List (Option String) → Bool × List (Option String)
  | _, [] => (false, [])
  | _, none :: rest => (false, rest)
  | retryCount, some response :: rest =>
    if ToLower response = "y" ∨ ToLower response = "yes" then (true, rest)
    else if ToLower response = "n" ∨ ToLower response = "no" then (false, rest)
    else
      if wrapInt64 (retryCount + 1) = retries then (false, rest)
      else cli.askConfirmation retries (wrapInt64 (retryCount + 1)) rest

/-- Embedding of `cli.AskConfirmation` on the lines of the console. -/
def cli.AskConfirmation (retries : Int) (responses : List (Option String)) :
    Bool × List (Option String) :=
  cli.askConfirmation retries 0 responses

/-! ## File semaphores (`filesemaphore.go`) -/

/-- The semaphore files: content by path. -/
abbrev SemaphoreFS := List (String × String)

structure SemaphoreFileDesc where
  Filepath : String
  Content : String
  deriving DecidableEq, Repr

structure Semaphore where
  SemaphoreDir : String
  SemaphoreMap : List (String × SemaphoreFileDesc)

/-- Embedding of `Semaphore.getSemaphoreDesc`. -/
def Semaphore.getSemaphoreDesc (s : Semaphore) (name : String) : Except Err SemaphoreFileDesc :=
  match mapGet s.SemaphoreMap name with
  | none => .error Err.undefinedName
  | some semaphoreDesc => .ok semaphoreDesc

/-- Embedding of `Semaphore.Exists`. -/
def Semaphore.Exists (s : Semaphore) (fs : SemaphoreFS) (name : String) : Except Err Bool :=
  match s.getSemaphoreDesc name with
  | .error e => .error e
  | .ok semaphoreDesc =>
    match mapGet fs semaphoreDesc.Filepath with
    | none => .ok false
    | some bytes =>
      if bytes ≠ semaphoreDesc.Content then .error Err.contentMismatch else .ok true

/-- Embedding of `Semaphore.Write`. `os.OpenFile` with `O_CREATE|O_EXCL`
fails when the file exists and creates an empty file otherwise; the flags
name no access mode, so whether the handle accepts `WriteString` is the
host's matter (`writable`). -/
def Semaphore.Write (s : Semaphore) (writable : Bool) (fs : SemaphoreFS) (name : String) :
    Except Err Unit × SemaphoreFS :=
  match s.getSemaphoreDesc name with
  | .error e => (.error e, fs)
  | .ok semaphoreDesc =>
    match mapGet fs semaphoreDesc.Filepath with
    | some _ => (.error Err.write, fs)
    | none =>
      if writable then (.ok (), mapSet fs semaphoreDesc.Filepath semaphoreDesc.Content)
      else (.error Err.write, mapSet fs semaphoreDesc.Filepath "")

/-- Embedding of `Semaphore.Release`. -/
def Semaphore.Release (s : Semaphore) (fs : SemaphoreFS) (name : String) :
    Except Err Unit × SemaphoreFS :=
  match s.getSemaphoreDesc name with
  | .error e => (.error e, fs)
  | .ok semaphoreDesc =>
    match mapGet fs semaphoreDesc.Filepath with
    | none => (.error Err.io, fs)
    | some bytes =>
      if bytes ≠ semaphoreDesc.Content then (.error Err.contentMismatch, fs)
      else (.ok (), mapDelete fs semaphoreDesc.Filepath)

/-! ## The other commands (`repository.go`) -/

def KeygenFailed : String := "----------KEYGEN FAILED----------"
def KeygenSucceeded : String := "----------KEYGEN SUCCEEDED----------"
def SignFailed : String := "----------SIGN FAILED----------"
def SignSucceeded : String := "----------SIGN SUCCEEDED----------"
def ChangeThresholdFailed : String := "----------CHANGE THRESHOLD FAILED----------"
def ChangeThresholdSucceeded : String := "----------CHANGE THRESHOLD SUCCEEDED----------"
def VerifyFailed : String := "----------VERIFY FAILED----------"
def VerifySucceeded : String := "----------VERIFY SUCCEEDED----------"

/-- The fourteen banners. -/
def banners : List String :=
  [ KeygenFailed, KeygenSucceeded, InitFailed, InitSucceeded, UpdateFailed, UpdateSucceeded,
    SignFailed, SignSucceeded, ChangeThresholdFailed, ChangeThresholdSucceeded, VerifyFailed,
    VerifySucceeded, ChangeRootKeyFailed, ChangeRootKeySucceeded ]

/-- The last line of an output: the text after the last line break that is
not the final character. -/
def lastLine (out : String) : String :=
  match (Split '\n' out.data).reverse with
  | [] => ""
  | [] :: line :: _ => String.mk line
  | line :: _ => String.mk line

/-- The check of the sign command on the role: what is written to the
command's output when it returns without calling `signMetadata` (the hint
itself goes to the standard output). -/
def signPreflight (config : configSign) : Option String :=
  if config.role ∉ [Targets, Snapshot, Timestamp, Root] then some (SignFailed ++ "\n") else none

/-- Embedding of the `Run` function of the sign command. -/
def cmdSign (config : configSign) (env : Env) (fs : FS) : String × FS :=
  match signPreflight config with
  | some out => (out, fs)
  | none =>
    match signMetadata config env fs with
    | (res, fs') =>
      (report res SignFailed SignSucceeded
        ("Metadata file for role " ++ config.role ++ " updated in dir: " ++ config.metadataDir ++
          "\n"), fs')

/-- The checks of the change-threshold command on action and role: what is
printed when the command returns without calling `changeThreshold`. -/
def changeThresholdPreflight (config : configChangeThreshold) : Option String :=
  if config.action ≠ ChangeThresholdActionAdd ∧ config.action ≠ ChangeThresholdActionReduce then
    some ("Tips: only " ++ String.singleton (Char.ofNat 34) ++ ChangeThresholdActionAdd ++
      String.singleton (Char.ofNat 34) ++ " or " ++ String.singleton (Char.ofNat 34) ++
      ChangeThresholdActionReduce ++ String.singleton (Char.ofNat 34) ++
      " is accepted for action" ++ ChangeThresholdFailed ++ "\n")
  else if config.role = Root then
    some ("Please use change-root-key command" ++ ChangeThresholdFailed ++ "\n")
  else none

/-- Embedding of the `Run` function of the change-threshold command;
`signRole` is the role flag of the sign command, which the second line
prints. -/
def cmdChangeThreshold (config : configChangeThreshold) (signRole : String) (env : Env)
    (fs : FS) : String × FS :=
  let head := "Running change-threshold command...\n" ++
    "Changing signature threshold of role: " ++ signRole ++ "...\n"
  match changeThresholdPreflight config with
  | some out => (head ++ out, fs)
  | none =>
    match changeThreshold config env fs with
    | (res, fs') => (head ++ report res ChangeThresholdFailed ChangeThresholdSucceeded "", fs')

/-- Embedding of the `Run` function of the verify command. -/
def cmdVerify (config : configVerify) (env : Env) (fs : FS) : String :=
  "Running verify command...\n" ++
    report (verifyMetadata config env fs) VerifyFailed VerifySucceeded ""

/-! ## A worked scenario

A metadata directory `out/metadata` after initialisation with one key per
role, used to evaluate the operations on concrete inputs. -/

def keyRoot : PrivateKey := ⟨⟨"K-root"⟩⟩
def keyRootTwo : PrivateKey := ⟨⟨"K-root-2"⟩⟩
def keyTargets : PrivateKey := ⟨⟨"K-targets"⟩⟩
def keySnapshot : PrivateKey := ⟨⟨"K-snapshot"⟩⟩
def keyTimestamp : PrivateKey := ⟨⟨"K-timestamp"⟩⟩

def scenarioRootSigned : RootType :=
  { Version := 1
    Expires := 365
    Keys := [("K-root", ⟨"K-root"⟩), ("K-targets", ⟨"K-targets"⟩),
             ("K-snapshot", ⟨"K-snapshot"⟩), ("K-timestamp", ⟨"K-timestamp"⟩)]
    Roles := [("root", ⟨["K-root"], 1⟩), ("targets", ⟨["K-targets"], 1⟩),
              ("snapshot", ⟨["K-snapshot"], 1⟩), ("timestamp", ⟨["K-timestamp"], 1⟩)] }

def scenarioRoot : Metadata RootType := Sign ⟨scenarioRootSigned, []⟩ keyRoot
def scenarioTargets : Metadata TargetsType := Sign ⟨⟨1, 365, []⟩, []⟩ keyTargets
def scenarioSnapshot : Metadata SnapshotType :=
  Sign ⟨⟨1, 365, [("targets.json", ⟨1⟩)]⟩, []⟩ keySnapshot
def scenarioTimestamp : Metadata TimestampType :=
  Sign ⟨⟨1, 365, [("snapshot.json", ⟨1⟩)]⟩, []⟩ keyTimestamp

def scenarioFS : FS :=
  [ ("out/metadata/1.root.json", Content.root scenarioRoot),
    ("out/metadata/1.snapshot.json", Content.snapshot scenarioSnapshot),
    ("out/metadata/1.targets.json", Content.targets scenarioTargets),
    ("out/metadata/timestamp.json", Content.timestamp scenarioTimestamp) ]

def scenarioKeyFiles (path : String) : KeyFile :=
  if path = "keys/root" then KeyFile.priv keyRoot
  else if path = "keys/root2" then KeyFile.priv keyRootTwo
  else if path = "keys/targets" then KeyFile.priv keyTargets
  else if path = "keys/snapshot" then KeyFile.priv keySnapshot
  else if path = "keys/timestamp" then KeyFile.priv keyTimestamp
  else if path = "keys/targets.pub" then KeyFile.pub keyTargets.pub
  else KeyFile.missing

def scenarioEnv : Env :=
  { now := 0
    walkFails := false
    dirWritable := true
    writeFails := fun _ => false
    writeLeavesFile := fun _ => false
    keyFiles := scenarioKeyFiles
    answers := []
    scan := .ok []
    mkdirFails := false }

def scenarioUpdate : configUpdate :=
  { repositoryDir := "repo"
    metadataDir := "out/metadata"
    targetsPrivkeyFilepath := "keys/targets"
    snapshotPrivkeyFilepath := "keys/snapshot"
    timestampPrivkeyFilepath := "keys/timestamp"
    expireIn := 365
    askConfirmation := false }

def scenarioLoaded : Loaded :=
  { rootFilepaths := ["out/metadata/1.root.json"]
    root := scenarioRoot
    targets := scenarioTargets
    snapshot := scenarioSnapshot
    timestamp := scenarioTimestamp
    targetsPath := "out/metadata/1.targets.json"
    snapshotPath := "out/metadata/1.snapshot.json"
    timestampPath := "out/metadata/timestamp.json" }

def scenarioSignDup : configSign :=
  { metadataDir := "out/metadata", role := "targets", privkeyFilepath := "keys/targets",
    forced := false }

def scenarioSignWrongKey : configSign :=
  { metadataDir := "out/metadata", role := "targets", privkeyFilepath := "keys/snapshot",
    forced := false }

def scenarioSignForced : configSign :=
  { metadataDir := "out/metadata", role := "targets", privkeyFilepath := "keys/snapshot",
    forced := true }

def scenarioAdd : configChangeThreshold :=
  { metadataDir := "out/metadata", action := "add", role := "targets",
    rootPrivkeyFilepath := "keys/root", rolePrivkeyFilepath := "keys/snapshot" }

def scenarioReduce : configChangeThreshold :=
  { metadataDir := "out/metadata", action := "reduce", role := "targets",
    rootPrivkeyFilepath := "keys/root", rolePrivkeyFilepath := "keys/snapshot" }

/-- A Root whose Targets role has two keys and threshold 2. -/
def twoKeyRoot : Metadata RootType :=
  Sign ⟨{ scenarioRootSigned with
          Roles := [("root", ⟨["K-root"], 1⟩), ("targets", ⟨["K-targets", "K-snapshot"], 2⟩),
                    ("snapshot", ⟨["K-snapshot"], 1⟩), ("timestamp", ⟨["K-timestamp"], 1⟩)] },
        []⟩ keyRoot

def twoKeyFS : FS :=
  [ ("out/metadata/1.root.json", Content.root twoKeyRoot),
    ("out/metadata/1.snapshot.json", Content.snapshot scenarioSnapshot),
    ("out/metadata/1.targets.json", Content.targets scenarioTargets),
    ("out/metadata/timestamp.json", Content.timestamp scenarioTimestamp) ]

def scenarioAddWrongRootKey : configChangeThreshold :=
  { metadataDir := "out/metadata", action := "add", role := "targets",
    rootPrivkeyFilepath := "keys/root2", rolePrivkeyFilepath := "keys/snapshot" }

/-- The first Root of the scenario with its signature list emptied. -/
def unsignedRoot : Metadata RootType := ⟨scenarioRootSigned, []⟩

/-- A second Root version, signed by the root key. -/
def scenarioRootTwo : Metadata RootType :=
  Sign ⟨{ scenarioRootSigned with Version := 2 }, []⟩ keyRoot

/-- The scenario directory with two Root versions, the first one unsigned. -/
def unsignedFirstRootFS : FS :=
  [ ("out/metadata/1.root.json", Content.root unsignedRoot),
    ("out/metadata/1.snapshot.json", Content.snapshot scenarioSnapshot),
    ("out/metadata/1.targets.json", Content.targets scenarioTargets),
    ("out/metadata/2.root.json", Content.root scenarioRootTwo),
    ("out/metadata/timestamp.json", Content.timestamp scenarioTimestamp) ]

def scenarioVerify : configVerify :=
  { repositoryDir := "repo", metadataDir := "out/metadata" }

def scenarioRootKeyAdd : configChangeRootKey :=
  { metadataDir := "out/metadata"
    action := "add"
    privkeyFilepath := "keys/root"
    replacementPrivkeyFilepath := ""
    inputPrivkeyFilepath := "keys/root2"
    expireIn := 365
    threshold := 2 }

/-- The same addition with a requested threshold of 5. -/
def scenarioRootKeyAddFive : configChangeRootKey :=
  { scenarioRootKeyAdd with threshold := 5 }

/-- Removal of the only root key, signed by that key. -/
def scenarioRootKeyRemove : configChangeRootKey :=
  { scenarioRootKeyAdd with action := "remove", inputPrivkeyFilepath := "keys/root", threshold := 1 }

/-- A second Root version with two root keys and threshold 2, signed by both. -/
def twoRootKeysRoot : Metadata RootType :=
  Sign (Sign ⟨{ scenarioRootSigned with
                Version := 2
                Keys := scenarioRootSigned.Keys ++ [("K-root-2", ⟨"K-root-2"⟩)]
                Roles := [("root", ⟨["K-root", "K-root-2"], 2⟩), ("targets", ⟨["K-targets"], 1⟩),
                          ("snapshot", ⟨["K-snapshot"], 1⟩), ("timestamp", ⟨["K-timestamp"], 1⟩)] },
              []⟩ keyRoot) keyRootTwo

/-- The scenario directory after the second root key was added. -/
def twoRootKeysFS : FS :=
  scenarioFS ++ [("out/metadata/2.root.json", Content.root twoRootKeysRoot)]

/-- Removal of the second root key, signed by that same key. -/
def scenarioRootKeyRemoveSigner : configChangeRootKey :=
  { scenarioRootKeyAdd with
    action := "remove", privkeyFilepath := "keys/root2", inputPrivkeyFilepath := "keys/root2",
    threshold := 1 }

/-- The scenario directory with the signature list of the latest Snapshot
emptied. -/
def unsignedSnapshotFS : FS :=
  [ ("out/metadata/1.root.json", Content.root scenarioRoot),
    ("out/metadata/1.snapshot.json", Content.snapshot (ClearSignatures scenarioSnapshot)),
    ("out/metadata/1.targets.json", Content.targets scenarioTargets),
    ("out/metadata/timestamp.json", Content.timestamp scenarioTimestamp) ]

/-- An update that supplies the snapshot key as the targets key. -/
def scenarioUpdateWrongKey : configUpdate :=
  { scenarioUpdate with targetsPrivkeyFilepath := "keys/snapshot" }

/-- An update that supplies no key at all. -/
def scenarioUpdateNoKeys : configUpdate :=
  { scenarioUpdate with
    targetsPrivkeyFilepath := "", snapshotPrivkeyFilepath := "", timestampPrivkeyFilepath := "" }

/-- An initialisation with one key per role and thresholds 1, as the init
command receives it. -/
def scenarioInit : configInit :=
  { repositoryDir := "repo"
    outputDir := "out/metadata"
    rootPrivkeyFilepathsRaw := "keys/root"
    targetsPrivkeyFilepathsRaw := "keys/targets"
    snapshotPrivkeyFilepathsRaw := "keys/snapshot"
    timestampPrivkeyFilepathsRaw := "keys/timestamp"
    rolesPrivkeyFilepaths := []
    rootThreshhold := 1
    targetsThreshold := 1
    snapshotThreshold := 1
    timestampThreshold := 1
    expireIn := 365 }

/-- The same initialisation with a root threshold of 0. -/
def scenarioInitZero : configInit := { scenarioInit with rootThreshhold := 0 }

/-- The same initialisation with two root keys and a root threshold of 2. -/
def scenarioInitTwo : configInit :=
  { scenarioInit with rootPrivkeyFilepathsRaw := "keys/root;keys/root2", rootThreshhold := 2 }

/-- The configuration `initRepo` receives from the init command in the
worked scenario: the key paths split per role. -/
def scenarioInitRepo : configInit :=
  { scenarioInit with
    rolesPrivkeyFilepaths :=
      [ ("root", ["keys/root"]), ("targets", ["keys/targets"]), ("snapshot", ["keys/snapshot"]),
        ("timestamp", ["keys/timestamp"]) ] }

/-- The scenario environment in which writing `1.snapshot.json` fails. -/
def failFirstSnapshotEnv : Env :=
  { scenarioEnv with writeFails := fun path => decide (path = "out/metadata/1.snapshot.json") }

/-- An output directory that holds a file of the operator, next to a file
in another directory. -/
def notesFS : FS :=
  [ ("out/metadata/notes.txt", Content.other), ("elsewhere/readme.txt", Content.other) ]

/-- The documents the update of the worked scenario is about to write. -/
def scenarioNewRoles : NewRoles :=
  { targets := Sign ⟨⟨2, 365, []⟩, []⟩ keyTargets
    snapshot := Sign ⟨⟨2, 365, [("targets.json", ⟨2⟩)]⟩, []⟩ keySnapshot
    timestamp := Sign ⟨⟨2, 365, [("snapshot.json", ⟨2⟩)]⟩, []⟩ keyTimestamp }

/-- The scenario environment at the instant the documents expire. -/
def lateEnv : Env := { scenarioEnv with now := 365 }

/-- The scenario environment a day later: every document has expired. -/
def expiredEnv : Env := { scenarioEnv with now := 366 }

/-- The directory of `twoKeyFS` with the signature list of the latest
Targets emptied: Targets needs two signatures and has none. -/
def shortOfThresholdFS : FS :=
  [ ("out/metadata/1.root.json", Content.root twoKeyRoot),
    ("out/metadata/1.snapshot.json", Content.snapshot scenarioSnapshot),
    ("out/metadata/1.targets.json", Content.targets (ClearSignatures scenarioTargets)),
    ("out/metadata/timestamp.json", Content.timestamp scenarioTimestamp) ]

/-- Signing Targets with the first of its two keys. -/
def scenarioSignFirst : configSign :=
  { metadataDir := "out/metadata", role := "targets", privkeyFilepath := "keys/targets",
    forced := false }

/-- The scenario environment with an operator who answers no. -/
def decliningEnv : Env := { scenarioEnv with answers := [false] }

/-- The scenario environment with an operator who answers yes. -/
def confirmingEnv : Env := { scenarioEnv with answers := [true] }

/-- The update of the scenario with confirmation requested. -/
def scenarioUpdateAsk : configUpdate := { scenarioUpdate with askConfirmation := true }

/-- An addition of a root key that is signed by the key being added. -/
def scenarioRootKeyAddSelf : configChangeRootKey :=
  { scenarioRootKeyAdd with privkeyFilepath := "keys/root2" }

/-- A threshold change for a role name that is none of the four roles. -/
def scenarioAddUnknownRole : configChangeThreshold := { scenarioAdd with role := "foo" }

/-- The semaphore of the package test: three names with a file each. -/
def scenarioSemaphore : Semaphore :=
  { SemaphoreDir := "sem"
    SemaphoreMap :=
      [ ("first", ⟨"sem/first_file", "first_semaphore"⟩),
        ("second", ⟨"sem/second_file", "second_semaphore"⟩),
        ("third", ⟨"sem/third_file", "third_semaphore"⟩) ] }

/-- The semaphore files after `first` and `second` were written. -/
def twoSemaphoresFS : SemaphoreFS :=
  [ ("sem/first_file", "first_semaphore"), ("sem/second_file", "second_semaphore") ]

/-- The Root of the worked scenario at the largest `int64` version. -/
def maxVersionRoot : Metadata RootType :=
  Sign ⟨{ scenarioRootSigned with Version := 9223372036854775807 }, []⟩ keyRoot

/-- The worked scenario with its Root at the largest `int64` version. -/
def maxVersionRootFS : FS :=
  [ ("out/metadata/9223372036854775807.root.json", Content.root maxVersionRoot),
    ("out/metadata/1.snapshot.json", Content.snapshot scenarioSnapshot),
    ("out/metadata/1.targets.json", Content.targets scenarioTargets),
    ("out/metadata/timestamp.json", Content.timestamp scenarioTimestamp) ]

/-- The environment of the worked scenario in which the write of the file
`path` fails after the file is created. -/
def leavingFileEnv (path : String) : Env :=
  { scenarioEnv with
    writeFails := fun p => p == path
    writeLeavesFile := fun p => p == path }

/-- The Root of the worked scenario with the largest `int` threshold for
the Targets role. -/
def maxThresholdRoot : Metadata RootType :=
  Sign ⟨{ scenarioRootSigned with
          Roles := [("root", ⟨["K-root"], 1⟩),
                    ("targets", ⟨["K-targets"], 9223372036854775807⟩),
                    ("snapshot", ⟨["K-snapshot"], 1⟩), ("timestamp", ⟨["K-timestamp"], 1⟩)] },
        []⟩ keyRoot

/-- The worked scenario with `maxThresholdRoot` as its Root. -/
def maxThresholdFS : FS :=
  [ ("out/metadata/1.root.json", Content.root maxThresholdRoot),
    ("out/metadata/1.snapshot.json", Content.snapshot scenarioSnapshot),
    ("out/metadata/1.targets.json", Content.targets scenarioTargets),
    ("out/metadata/timestamp.json", Content.timestamp scenarioTimestamp) ]

/-- The worked scenario with a latest Targets of version -1, stored as
`-1.targets.json` and pinned at that version by the Snapshot. -/
def negativeTargetsFS : FS :=
  [ ("out/metadata/1.root.json", Content.root scenarioRoot),
    ("out/metadata/1.snapshot.json",
      Content.snapshot (Sign ⟨⟨1, 365, [("targets.json", ⟨-1⟩)]⟩, []⟩ keySnapshot)),
    ("out/metadata/-1.targets.json", Content.targets (Sign ⟨⟨-1, 365, []⟩, []⟩ keyTargets)),
    ("out/metadata/timestamp.json", Content.timestamp scenarioTimestamp) ]

/-- The worked scenario with a latest Targets at the largest `int64`
version. -/
def maxVersionTargetsFS : FS :=
  [ ("out/metadata/1.root.json", Content.root scenarioRoot),
    ("out/metadata/1.snapshot.json", Content.snapshot scenarioSnapshot),
    ("out/metadata/9223372036854775807.targets.json",
      Content.targets (Sign ⟨⟨9223372036854775807, 365, []⟩, []⟩ keyTargets)),
    ("out/metadata/timestamp.json", Content.timestamp scenarioTimestamp) ]

/-- The worked scenario with its Targets of version 1 stored under the
name `2.targets.json`. -/
def misnamedTargetsFS : FS :=
  [ ("out/metadata/1.root.json", Content.root scenarioRoot),
    ("out/metadata/1.snapshot.json", Content.snapshot scenarioSnapshot),
    ("out/metadata/2.targets.json", Content.targets scenarioTargets),
    ("out/metadata/timestamp.json", Content.timestamp scenarioTimestamp) ]

/-- Signing the document of `role` with the targets key, forced. -/
def scenarioSignRole (role : String) : configSign :=
  { scenarioSignForced with role := role, privkeyFilepath := "keys/targets" }

/-! ## Predicates used by the properties -/

/-- One hop of the Root chain: both files load as Root documents and the
later one passes the delegate check under the earlier one. -/
def continuityHop (fs : FS) (p q : String) : Prop :=
  ∃ prev cur, FromFileRoot fs p = .ok prev ∧ FromFileRoot fs q = .ok cur ∧
    VerifyDelegate prev Root cur = .ok ()


/-- A value representable in `int64`. -/
def isInt64 (x : Int) : Prop := -(2 : Int) ^ 63 ≤ x ∧ x < (2 : Int) ^ 63

instance instDecidableIsInt64 (x : Int) : Decidable (isInt64 x) := by
  unfold isInt64
  infer_instance

/-- Ascending order of the parsed version fields of two paths. -/
def verLe (a b : String) : Prop := ∃ i j, verOf a = some i ∧ verOf b = some j ∧ i ≤ j

/-- The root role entry of the Root document stored at `path`, if any. -/
def rootRoleAt (fs : FS) (path : String) : Option Role :=
  match mapGet fs path with
  | some (Content.root m) => mapGet m.Signed.Roles Root
  | _ => none

/-- The condition under which the verification of a role records a failure:
the delegate check under the latest Root fails, or the expiry is strictly
before the clock. -/
def roleFails {T : Type} [RolePayload T] (now : Int) (root : Metadata RootType) (name : String)
    (m : Metadata T) (expires : Int) : Prop :=
  VerifyDelegate root name m ≠ .ok () ∨ expires < now

/-- A response that means yes: `y` or `yes`, ignoring case. -/
def isYes (response : String) : Prop := ToLower response = "y" ∨ ToLower response = "yes"

/-- A response that means no: `n` or `no`, ignoring case. -/
def isNo (response : String) : Prop := ToLower response = "n" ∨ ToLower response = "no"

instance instDecidableIsYes (response : String) : Decidable (isYes response) := by
  unfold isYes
  infer_instance

instance instDecidableIsNo (response : String) : Decidable (isNo response) := by
  unfold isNo
  infer_instance

/-- The version of the Root document in the file `path`, if the file holds
one. -/
def rootVersionAt (fs : FS) (path : String) : Option Int :=
  match mapGet fs path with
  | some (Content.root m) => some m.Signed.Version
  | _ => none

/-- The entry of the role `name` in the Root document stored at `path`, if
any. -/
def roleAt (fs : FS) (path name : String) : Option Role :=
  match mapGet fs path with
  | some (Content.root m) => mapGet m.Signed.Roles name
  | _ => none

/-- The version of the Targets document in the file `path`, if the file
holds one. -/
def targetsVersionAt (fs : FS) (path : String) : Option Int :=
  match mapGet fs path with
  | some (Content.targets m) => some m.Signed.Version
  | _ => none

/-- The version the Snapshot document in the file `path` pins the file
`name` to, if any. -/
def snapshotPinAt (fs : FS) (path name : String) : Option Int :=
  match mapGet fs path with
  | some (Content.snapshot m) => (mapGet m.Signed.Meta name).map (fun f => f.Version)
  | _ => none

/-! # Properties -/

/-! ## Selection and ordering of a role's files -/

theorem lessVer_true {x y : String} (h : lessVer x y = some true) :
    ∃ i j, verOf x = some i ∧ verOf y = some j ∧ i < j := by
  unfold lessVer at h
  cases hx : verOf x with
  | none => simp [hx] at h
  | some i =>
    cases hy : verOf y with
    | none => simp [hx, hy] at h
    | some j =>
      simp [hx, hy] at h
      exact ⟨i, j, rfl, rfl, h⟩

theorem lessVer_false {x y : String} (h : lessVer x y = some false) :
    ∃ i j, verOf x = some i ∧ verOf y = some j ∧ j ≤ i := by
  unfold lessVer at h
  cases hx : verOf x with
  | none => simp [hx] at h
  | some i =>
    cases hy : verOf y with
    | none => simp [hx, hy] at h
    | some j =>
      simp [hx, hy] at h
      exact ⟨i, j, rfl, rfl, h⟩

theorem verLe_trans {a b c : String} (h1 : verLe a b) (h2 : verLe b c) : verLe a c := by
  obtain ⟨i, j, hi, hj, hij⟩ := h1
  obtain ⟨j', k, hj', hk, hjk⟩ := h2
  rw [hj] at hj'
  cases hj'
  exact ⟨i, k, hi, hk, le_trans hij hjk⟩

theorem insertByVer_spec (x : String) :
    ∀ (l r : List String), insertByVer x l = some r → l.Pairwise verLe →
      r.Perm (x :: l) ∧ r.Pairwise verLe := by
  intro l
  induction l with
  | nil =>
    intro r h _
    simp [insertByVer] at h
    subst h
    exact ⟨List.Perm.refl _, List.pairwise_singleton _ _⟩
  | cons y ys ih =>
    intro r h hp
    rw [insertByVer] at h
    cases hl : lessVer x y with
    | none => simp [hl] at h
    | some b =>
      cases b with
      | true =>
        simp [hl] at h
        subst h
        refine ⟨List.Perm.refl _, ?_⟩
        obtain ⟨i, j, hi, hj, hij⟩ := lessVer_true hl
        have hxy : verLe x y := ⟨i, j, hi, hj, le_of_lt hij⟩
        rw [List.pairwise_cons]
        refine ⟨?_, hp⟩
        intro z hz
        rcases List.mem_cons.mp hz with rfl | hz'
        · exact hxy
        · exact verLe_trans hxy ((List.pairwise_cons.mp hp).1 z hz')
      | false =>
        simp [hl] at h
        cases hr : insertByVer x ys with
        | none => simp [hr] at h
        | some r' =>
          simp [hr] at h
          subst h
          obtain ⟨hperm, hpw⟩ := ih r' hr (List.pairwise_cons.mp hp).2
          refine ⟨?_, ?_⟩
          · exact (List.Perm.cons y hperm).trans (List.Perm.swap x y ys)
          · rw [List.pairwise_cons]
            refine ⟨?_, hpw⟩
            intro z hz
            have hz' : z ∈ x :: ys := hperm.subset hz
            rcases List.mem_cons.mp hz' with rfl | hz''
            · obtain ⟨i, j, hi, hj, hij⟩ := lessVer_false hl
              exact ⟨j, i, hj, hi, hij⟩
            · exact (List.pairwise_cons.mp hp).1 z hz''

theorem foldlM_insertByVer_spec :
    ∀ (paths acc r : List String),
      List.foldlM (fun acc x => insertByVer x acc) acc paths = some r → acc.Pairwise verLe →
      r.Perm (acc ++ paths) ∧ r.Pairwise verLe := by
  intro paths
  induction paths with
  | nil =>
    intro acc r h hp
    simp [List.foldlM] at h
    subst h
    simp [hp]
  | cons x xs ih =>
    intro acc r h hp
    simp only [List.foldlM_cons] at h
    cases hi : insertByVer x acc with
    | none => simp [hi] at h
    | some acc' =>
      simp [hi] at h
      obtain ⟨hperm, hpw⟩ := insertByVer_spec x acc acc' hi hp
      obtain ⟨hperm2, hpw2⟩ := ih acc' r h hpw
      refine ⟨?_, hpw2⟩
      refine hperm2.trans ?_
      have : (acc' ++ xs).Perm ((x :: acc) ++ xs) := List.Perm.append_right xs hperm
      exact this.trans List.perm_middle.symm

theorem sortSlice_spec (paths r : List String) (h : sortSlice paths = some r) :
    r.Perm paths ∧ r.Pairwise verLe := by
  have := foldlM_insertByVer_spec paths [] r h List.Pairwise.nil
  simpa using this

/-- C3: on success the returned list is a permutation of the files selected
for the role, in ascending order of the integer parsed from the version
field of each file name, and every entry with a version is at most the
version of the last element. -/
theorem GetRoleMetadataFilepathsFromDir_sorted (listing : List (String × String))
    (roleName : String) (paths : List String)
    (h : GetRoleMetadataFilepathsFromDir (.ok listing) roleName = .ok paths) :
    paths.Perm (selectRole listing roleName) ∧
    paths.Pairwise (fun a b => ∃ i j, verOf a = some i ∧ verOf b = some j ∧ i ≤ j) ∧
    (∀ last, paths.getLast? = some last →
      ∀ p ∈ paths, ∀ i, verOf p = some i → ∃ j, verOf last = some j ∧ i ≤ j) := by
  unfold GetRoleMetadataFilepathsFromDir at h
  simp only at h
  split at h
  · cases h
  · cases hs : sortSlice (selectRole listing roleName) with
    | none => simp [hs] at h
    | some sorted =>
      simp only [hs] at h
      cases h
      obtain ⟨hperm, hpw⟩ := sortSlice_spec _ _ hs
      refine ⟨hperm, hpw, ?_⟩
      intro last hlast p hp i hi
      rw [List.getLast?_eq_some_iff] at hlast
      obtain ⟨ys, rfl⟩ := hlast
      rw [List.pairwise_append] at hpw
      rcases List.mem_append.mp hp with hp' | hp'
      · obtain ⟨i', j, hi', hj, hij⟩ := hpw.2.2 p hp' last (List.mem_singleton.mpr rfl)
        rw [hi] at hi'
        cases hi'
        exact ⟨j, hj, hij⟩
      · rw [List.mem_singleton] at hp'
        subst hp'
        exact ⟨i, hi, le_refl i⟩

/-- Witness for C3: `10.root.json` is listed after `9.root.json`. -/
theorem GetRoleMetadataFilepathsFromDir_sorted_witness :
    GetRoleMetadataFilepathsFromDir
        (.ok [("m/10.root.json", "d/m/10.root.json"), ("m/9.root.json", "d/m/9.root.json"),
              ("m/1.targets.json", "d/m/1.targets.json")]) "root"
      = .ok ["d/m/9.root.json", "d/m/10.root.json"] ∧
    (∀ last, ["d/m/9.root.json", "d/m/10.root.json"].getLast? = some last →
      ∀ p ∈ ["d/m/9.root.json", "d/m/10.root.json"], ∀ i, verOf p = some i →
        ∃ j, verOf last = some j ∧ i ≤ j) :=
  ⟨by decide,
   (GetRoleMetadataFilepathsFromDir_sorted
      [("m/10.root.json", "d/m/10.root.json"), ("m/9.root.json", "d/m/9.root.json"),
       ("m/1.targets.json", "d/m/1.targets.json")] "root"
      ["d/m/9.root.json", "d/m/10.root.json"] (by decide)).2.2⟩

/-! ## Auxiliary facts: machine integers, maps, paths -/

theorem wrapInt64_of_isInt64 {x : Int} (h : isInt64 x) : wrapInt64 x = x := by
  unfold wrapInt64
  unfold isInt64 at h
  omega

theorem mapGet_mapSet_same {β : Type} (m : List (String × β)) (k : String) (v : β) :
    mapGet (mapSet m k v) k = some v := by
  induction m with
  | nil => simp [mapSet, mapGet]
  | cons e rest ih =>
    obtain ⟨k', v'⟩ := e
    by_cases hk : k' = k
    · simp [mapSet, mapGet, hk]
    · simp [mapSet, mapGet, hk, ih]

theorem mapGet_mapSet_other {β : Type} (m : List (String × β)) (k k2 : String) (v : β)
    (hne : k ≠ k2) : mapGet (mapSet m k v) k2 = mapGet m k2 := by
  induction m with
  | nil => simp [mapSet, mapGet, hne]
  | cons e rest ih =>
    obtain ⟨k', v'⟩ := e
    by_cases hk : k' = k
    · subst hk
      simp [mapSet, mapGet, hne]
    · simp only [mapSet, hk, if_false, mapGet, ih]

/-- A directory that holds a document at a path that held no file before is
not the result of leaving a file without a document somewhere. -/
theorem mapSet_other_absurd {fs fs' : FS} {p : String} (q : String)
    (h : fs' = mapSet fs p Content.other) (h1 : mapGet fs q = none)
    (h2 : mapGet fs' q ≠ none) (h3 : mapGet fs' q ≠ some Content.other) : False := by
  subst h
  by_cases hq : q = p
  · subst hq
    rw [mapGet_mapSet_same] at h3
    exact h3 rfl
  · rw [mapGet_mapSet_other _ _ _ _ (Ne.symm hq), h1] at h2
    exact h2 rfl

theorem append_ne_of_rev_take {a b s1 s2 : List Char} (k : Nat)
    (h1 : k ≤ s1.length) (h2 : k ≤ s2.length)
    (hne : s1.reverse.take k ≠ s2.reverse.take k) : a ++ s1 ≠ b ++ s2 := by
  intro h
  apply hne
  have := congrArg (fun l => l.reverse.take k) h
  simp only [List.reverse_append] at this
  rw [List.take_append_of_le_length (by simpa using h1),
      List.take_append_of_le_length (by simpa using h2)] at this
  exact this

theorem versionedName_data (v : Int) (name : String) :
    (versionedName v name).data = (toString v).data ++ ('.' :: name.data ++ ".json".data) := by
  unfold versionedName
  simp [String.data_append]

theorem Join_data (dir name : String) (h : name.data ≠ []) :
    (Join dir name).data = Clean dir.data ++ (PathSeparator :: name.data) := by
  unfold Join
  simp [h]

theorem Join_versioned_data (dir : String) (v : Int) (name : String) :
    (Join dir (versionedName v name)).data =
      (Clean dir.data ++ PathSeparator :: (toString v).data) ++ ('.' :: name.data ++ ".json".data) := by
  rw [Join_data, versionedName_data]
  · simp
  · rw [versionedName_data]; simp

/-! ## Auxiliary facts: the stages of `updateMetadata` -/

theorem updateSign_ok {config : configUpdate} {env : Env} {l : Loaded}
    {newTargets : Metadata TargetsType} {answers : List Bool} {r : NewRoles}
    (h : updateSign config env l newTargets answers = .ok r) :
    ∃ tk sk mk,
      loadUpdateKey env config.targetsPrivkeyFilepath = .ok tk ∧
      loadUpdateKey env config.snapshotPrivkeyFilepath = .ok sk ∧
      loadUpdateKey env config.timestampPrivkeyFilepath = .ok mk ∧
      checkUpdateKey l.root Targets tk = .ok () ∧
      checkUpdateKey l.root Snapshot sk = .ok () ∧
      checkUpdateKey l.root Timestamp mk = .ok () ∧
      env.dirWritable = true ∧
      r = { targets := signWith (bumpRoles config env l newTargets).targets tk
            snapshot := signWith (bumpRoles config env l newTargets).snapshot sk
            timestamp := signWith (bumpRoles config env l newTargets).timestamp mk } := by
  unfold updateSign at h
  simp only [bind, Except.bind, pure, Except.pure] at h
  cases h1 : loadUpdateKey env config.targetsPrivkeyFilepath with
  | error e => simp [h1] at h
  | ok tk =>
  cases h2 : loadUpdateKey env config.snapshotPrivkeyFilepath with
  | error e => simp [h1, h2] at h
  | ok sk =>
  cases h3 : loadUpdateKey env config.timestampPrivkeyFilepath with
  | error e => simp [h1, h2, h3] at h
  | ok mk =>
  cases h4 : checkUpdateKey l.root Targets tk with
  | error e => simp [h1, h2, h3, h4] at h
  | ok u4 =>
  cases h5 : checkUpdateKey l.root Snapshot sk with
  | error e => simp [h1, h2, h3, h4, h5] at h
  | ok u5 =>
  cases h6 : checkUpdateKey l.root Timestamp mk with
  | error e => simp [h1, h2, h3, h4, h5, h6] at h
  | ok u6 =>
  simp only [h1, h2, h3, h4, h5, h6] at h
  split at h
  · cases h
  · split at h
    · cases h
    · split at h
      · cases h
      · split at h
        · cases h
        · split at h
          · cases h
          · rename_i hw
            refine ⟨tk, sk, mk, rfl, rfl, rfl, h4, h5, h6, ?_, ?_⟩
            · unfold IsDirWritable at hw
              split at hw
              · assumption
              · cases hw
            · cases h
              rfl

theorem updatePlan_ok {config : configUpdate} {env : Env} {fs : FS} {r : NewRoles}
    (h : updatePlan config env fs = .ok r) :
    ∃ l newTargets answers,
      loadRoles env fs config.metadataDir = .ok l ∧
      verifyPrevious l = .ok () ∧
      GenerateNewTargetsFromDir env (ExpireIn env.now 7) = .ok newTargets ∧
      updateSign config env l newTargets answers = .ok r := by
  unfold updatePlan at h
  simp only [bind, Except.bind, pure, Except.pure] at h
  cases hl : loadRoles env fs config.metadataDir with
  | error e => simp [hl] at h
  | ok l =>
  cases hv : verifyPrevious l with
  | error e => simp [hl, hv] at h
  | ok u =>
  cases hg : GenerateNewTargetsFromDir env (ExpireIn env.now 7) with
  | error e => simp [hl, hv, hg] at h
  | ok newTargets =>
  cases hc : confirmChanges config env.answers with
  | error e => simp [hl, hv, hg, hc] at h
  | ok answers =>
  simp only [hl, hv, hg, hc] at h
  exact ⟨l, newTargets, answers, rfl, hv, rfl, h⟩


theorem Join_versioned_ne (dir : String) (n v : Int) (a b : String) (k : Nat)
    (h1 : k ≤ ('.' :: a.data ++ ".json".data).length)
    (h2 : k ≤ ('.' :: b.data ++ ".json".data).length)
    (hne : ('.' :: a.data ++ ".json".data).reverse.take k
            ≠ ('.' :: b.data ++ ".json".data).reverse.take k) :
    Join dir (versionedName n a) ≠ Join dir (versionedName v b) := by
  intro h
  have h' := congrArg String.data h
  rw [Join_versioned_data, Join_versioned_data] at h'
  exact append_ne_of_rev_take k h1 h2 hne h'

theorem Join_versioned_ne_plain (dir : String) (n : Int) (a b : String) (k : Nat)
    (hb : (plainName b).data ≠ [])
    (h1 : k ≤ ('.' :: a.data ++ ".json".data).length)
    (h2 : k ≤ (plainName b).data.length)
    (hne : ('.' :: a.data ++ ".json".data).reverse.take k ≠ (plainName b).data.reverse.take k) :
    Join dir (versionedName n a) ≠ Join dir (plainName b) := by
  intro h
  have h' := congrArg String.data h
  rw [Join_versioned_data, Join_data _ _ hb] at h'
  have h'' : (Clean dir.data ++ PathSeparator :: (toString n).data) ++ ('.' :: a.data ++ ".json".data)
      = (Clean dir.data ++ [PathSeparator]) ++ (plainName b).data := by
    rw [h']; simp
  exact append_ne_of_rev_take k h1 h2 hne h''

theorem targets_ne_snapshot (dir : String) (n v : Int) :
    Join dir (versionedName n Targets) ≠ Join dir (versionedName v Snapshot) :=
  Join_versioned_ne dir n v Targets Snapshot 6 (by decide) (by decide) (by decide)

theorem targets_ne_timestamp (dir : String) (n : Int) :
    Join dir (versionedName n Targets) ≠ Join dir (plainName Timestamp) :=
  Join_versioned_ne_plain dir n Targets Timestamp 6 (by decide) (by decide) (by decide) (by decide)

theorem snapshot_ne_timestamp (dir : String) (n : Int) :
    Join dir (versionedName n Snapshot) ≠ Join dir (plainName Timestamp) :=
  Join_versioned_ne_plain dir n Snapshot Timestamp 6 (by decide) (by decide) (by decide) (by decide)

theorem root_ne_targets (dir : String) (n v : Int) :
    Join dir (versionedName n Root) ≠ Join dir (versionedName v Targets) :=
  Join_versioned_ne dir n v Root Targets 6 (by decide) (by decide) (by decide)

theorem root_ne_snapshot (dir : String) (n v : Int) :
    Join dir (versionedName n Root) ≠ Join dir (versionedName v Snapshot) :=
  Join_versioned_ne dir n v Root Snapshot 8 (by decide) (by decide) (by decide)

theorem root_ne_timestamp (dir : String) (n : Int) :
    Join dir (versionedName n Root) ≠ Join dir (plainName Timestamp) :=
  Join_versioned_ne_plain dir n Root Timestamp 6 (by decide) (by decide) (by decide) (by decide)

theorem writeAll_ok (env : Env) :
    ∀ (ws : List (String × Content)) (succ : List String) (fs fs' : FS),
      writeAll env ws succ fs = (.ok (), fs') →
      fs' = ws.foldl (fun f w => mapSet f w.1 w.2) fs := by
  intro ws
  induction ws with
  | nil =>
    intro succ fs fs' h
    simp [writeAll] at h
    simp [h]
  | cons w rest ih =>
    intro succ fs fs' h
    obtain ⟨path, c⟩ := w
    simp only [writeAll, ToFile] at h
    by_cases hf : env.writeFails path = true
    · simp [hf] at h
    · simp only [hf] at h
      simp only [List.foldl_cons]
      exact ih _ _ _ h

theorem signWith_Signed {T : Type} [RolePayload T] (m : Metadata T) (key : Option PrivateKey) :
    (signWith m key).Signed = m.Signed := by
  cases key <;> rfl

theorem getRole_last_max {walk : Except Err (List (String × String))} {roleName : String}
    {paths : List String} {last : String}
    (h : GetRoleMetadataFilepathsFromDir walk roleName = .ok paths)
    (hlast : lastElem paths = .ok last) : ∀ p ∈ paths, p = last ∨ verLe p last := by
  unfold GetRoleMetadataFilepathsFromDir at h
  cases walk with
  | error e => simp at h
  | ok listing =>
    simp only at h
    split at h
    · cases h
    · cases hs : sortSlice (selectRole listing roleName) with
      | none => simp [hs] at h
      | some sorted =>
        simp only [hs] at h
        cases h
        obtain ⟨_, hpw⟩ := sortSlice_spec _ _ hs
        intro p hp
        unfold lastElem at hlast
        cases hg : paths.getLast? with
        | none => simp [hg] at hlast
        | some x =>
          simp only [hg] at hlast
          cases hlast
          rw [List.getLast?_eq_some_iff] at hg
          obtain ⟨ys, rfl⟩ := hg
          rw [List.pairwise_append] at hpw
          rcases List.mem_append.mp hp with hp' | hp'
          · exact Or.inr (hpw.2.2 p hp' last (List.mem_singleton.mpr rfl))
          · exact Or.inl (List.mem_singleton.mp hp')

theorem loadRoles_ok {env : Env} {fs : FS} {dir : String} {l : Loaded}
    (h : loadRoles env fs dir = .ok l) :
    ∃ tp sp mp,
      loadRoot env fs dir = .ok (l.rootFilepaths, l.root) ∧
      GetRoleMetadataFilepathsFromDir (listDir env fs dir) Targets = .ok tp ∧
      lastElem tp = .ok l.targetsPath ∧
      FromFileTargets fs l.targetsPath = .ok l.targets ∧
      GetRoleMetadataFilepathsFromDir (listDir env fs dir) Snapshot = .ok sp ∧
      lastElem sp = .ok l.snapshotPath ∧
      FromFileSnapshot fs l.snapshotPath = .ok l.snapshot ∧
      GetRoleMetadataFilepathsFromDir (listDir env fs dir) Timestamp = .ok mp ∧
      lastElem mp = .ok l.timestampPath ∧
      FromFileTimestamp fs l.timestampPath = .ok l.timestamp := by
  unfold loadRoles at h
  simp only [bind, Except.bind, pure, Except.pure] at h
  cases h0 : loadRoot env fs dir with
  | error e => simp [h0] at h
  | ok rr =>
  obtain ⟨rfp, root⟩ := rr
  cases h1 : GetRoleMetadataFilepathsFromDir (listDir env fs dir) Targets with
  | error e => simp [h0, h1] at h
  | ok tp =>
  cases h2 : lastElem tp with
  | error e => simp [h0, h1, h2] at h
  | ok tpath =>
  cases h3 : FromFileTargets fs tpath with
  | error e => simp [h0, h1, h2, h3] at h
  | ok t =>
  cases h4 : GetRoleMetadataFilepathsFromDir (listDir env fs dir) Snapshot with
  | error e => simp [h0, h1, h2, h3, h4] at h
  | ok sp =>
  cases h5 : lastElem sp with
  | error e => simp [h0, h1, h2, h3, h4, h5] at h
  | ok spath =>
  cases h6 : FromFileSnapshot fs spath with
  | error e => simp [h0, h1, h2, h3, h4, h5, h6] at h
  | ok sn =>
  cases h7 : GetRoleMetadataFilepathsFromDir (listDir env fs dir) Timestamp with
  | error e => simp [h0, h1, h2, h3, h4, h5, h6, h7] at h
  | ok mp =>
  cases h8 : lastElem mp with
  | error e => simp [h0, h1, h2, h3, h4, h5, h6, h7, h8] at h
  | ok mpath =>
  cases h9 : FromFileTimestamp fs mpath with
  | error e => simp [h0, h1, h2, h3, h4, h5, h6, h7, h8, h9] at h
  | ok ts =>
  simp only [h0, h1, h2, h3, h4, h5, h6, h7, h8, h9] at h
  cases h
  exact ⟨tp, sp, mp, rfl, rfl, h2, h3, rfl, h5, h6, rfl, h8, h9⟩


/-! ## `updateMetadata`: cross references and versions -/

theorem updateMetadata_ok {config : configUpdate} {env : Env} {fs fs' : FS}
    (h : updateMetadata config env fs = (.ok (), fs')) :
    ∃ r : NewRoles,
      updatePlan config env fs = .ok r ∧
      fs' = mapSet (mapSet (mapSet fs
              (Join config.metadataDir (versionedName r.targets.Signed.Version Targets))
                (Content.targets r.targets))
              (Join config.metadataDir (versionedName r.snapshot.Signed.Version Snapshot))
                (Content.snapshot r.snapshot))
              (Join config.metadataDir (plainName Timestamp)) (Content.timestamp r.timestamp) := by
  unfold updateMetadata at h
  cases hp : updatePlan config env fs with
  | error e => simp [hp] at h
  | ok r =>
    simp only [hp] at h
    refine ⟨r, rfl, ?_⟩
    have := writeAll_ok env _ _ _ _ h
    simpa [updateWrites] using this

theorem updatePlan_shape {config : configUpdate} {env : Env} {fs : FS} {r : NewRoles}
    (h : updatePlan config env fs = .ok r) :
    ∃ l newTargets tk sk mk,
      loadRoles env fs config.metadataDir = .ok l ∧
      r = { targets := signWith (bumpRoles config env l newTargets).targets tk
            snapshot := signWith (bumpRoles config env l newTargets).snapshot sk
            timestamp := signWith (bumpRoles config env l newTargets).timestamp mk } := by
  obtain ⟨l, newTargets, answers, hl, _, _, hs⟩ := updatePlan_ok h
  obtain ⟨tk, sk, mk, _, _, _, _, _, _, _, hr⟩ := updateSign_ok hs
  exact ⟨l, newTargets, tk, sk, mk, hl, hr⟩

/-- C1, counterexample: from a directory whose latest Targets is
`-1.targets.json`, of version -1, `updateMetadata` succeeds and writes
`0.targets.json`, a Targets of version 0, and `2.snapshot.json`, a Snapshot
that pins `targets.json` to version 1. -/
theorem updateMetadata_pins_one_for_version_zero :
    (updateMetadata scenarioUpdate scenarioEnv negativeTargetsFS).1 = .ok () ∧
    (updateMetadata scenarioUpdate scenarioEnv negativeTargetsFS).2.map (fun e => e.1)
      = negativeTargetsFS.map (fun e => e.1)
          ++ ["out/metadata/0.targets.json", "out/metadata/2.snapshot.json"] ∧
    targetsVersionAt (updateMetadata scenarioUpdate scenarioEnv negativeTargetsFS).2
      "out/metadata/0.targets.json" = some 0 ∧
    snapshotPinAt (updateMetadata scenarioUpdate scenarioEnv negativeTargetsFS).2
      "out/metadata/2.snapshot.json" "targets.json" = some 1 := by
  decide

/-- C1, amended: when `updateMetadata` succeeds, the Snapshot it writes pins
`targets.json` to the version of the Targets it writes when that version is
at least 1 and to version 1 otherwise, and the Timestamp it writes pins
`snapshot.json` to the version of the Snapshot it writes when that version
is at least 1 and to version 1 otherwise. -/
theorem updateMetadata_cross_references (config : configUpdate) (env : Env) (fs fs' : FS)
    (h : updateMetadata config env fs = (.ok (), fs')) :
    ∃ r : NewRoles,
      updatePlan config env fs = .ok r ∧
      mapGet fs' (Join config.metadataDir (versionedName r.targets.Signed.Version Targets))
        = some (Content.targets r.targets) ∧
      mapGet fs' (Join config.metadataDir (versionedName r.snapshot.Signed.Version Snapshot))
        = some (Content.snapshot r.snapshot) ∧
      mapGet fs' (Join config.metadataDir (plainName Timestamp))
        = some (Content.timestamp r.timestamp) ∧
      mapGet r.snapshot.Signed.Meta "targets.json"
        = some { Version := if r.targets.Signed.Version < 1 then 1
                            else r.targets.Signed.Version } ∧
      mapGet r.timestamp.Signed.Meta "snapshot.json"
        = some { Version := if r.snapshot.Signed.Version < 1 then 1
                            else r.snapshot.Signed.Version } ∧
      (1 ≤ r.targets.Signed.Version →
        mapGet r.snapshot.Signed.Meta "targets.json"
          = some { Version := r.targets.Signed.Version }) ∧
      (1 ≤ r.snapshot.Signed.Version →
        mapGet r.timestamp.Signed.Meta "snapshot.json"
          = some { Version := r.snapshot.Signed.Version }) := by
  obtain ⟨r, hp, hfs⟩ := updateMetadata_ok h
  obtain ⟨l, newTargets, tk, sk, mk, _, hr⟩ := updatePlan_shape hp
  have h1 : mapGet r.snapshot.Signed.Meta "targets.json"
      = some { Version := if r.targets.Signed.Version < 1 then 1
                          else r.targets.Signed.Version } := by
    rw [hr]
    simp only [signWith_Signed]
    exact mapGet_mapSet_same _ _ _
  have h2 : mapGet r.timestamp.Signed.Meta "snapshot.json"
      = some { Version := if r.snapshot.Signed.Version < 1 then 1
                          else r.snapshot.Signed.Version } := by
    rw [hr]
    simp only [signWith_Signed]
    exact mapGet_mapSet_same _ _ _
  refine ⟨r, hp, ?_, ?_, ?_, h1, h2, ?_, ?_⟩
  · rw [hfs, mapGet_mapSet_other _ _ _ _ (targets_ne_timestamp _ _).symm,
      mapGet_mapSet_other _ _ _ _ (targets_ne_snapshot _ _ _).symm, mapGet_mapSet_same]
  · rw [hfs, mapGet_mapSet_other _ _ _ _ (snapshot_ne_timestamp _ _).symm, mapGet_mapSet_same]
  · rw [hfs, mapGet_mapSet_same]
  · intro hge
    rw [h1, if_neg (not_lt.mpr hge)]
  · intro hge
    rw [h2, if_neg (not_lt.mpr hge)]

/-- Witness for C1 (amended): the update of the worked scenario succeeds;
the Snapshot written pins `targets.json` to version 2, the version of the
Targets written, and the Timestamp written pins `snapshot.json` to version
2, the version of the Snapshot written. -/
theorem updateMetadata_cross_references_witness :
    (updateMetadata scenarioUpdate scenarioEnv scenarioFS).1 = .ok () ∧
    ∃ r : NewRoles,
      updatePlan scenarioUpdate scenarioEnv scenarioFS = .ok r ∧
      r.targets.Signed.Version = 2 ∧ r.snapshot.Signed.Version = 2 ∧
      mapGet r.snapshot.Signed.Meta "targets.json" = some { Version := 2 } ∧
      mapGet r.timestamp.Signed.Meta "snapshot.json" = some { Version := 2 } :=
  ⟨by decide,
   match updateMetadata_cross_references scenarioUpdate scenarioEnv scenarioFS
      (updateMetadata scenarioUpdate scenarioEnv scenarioFS).2 (by decide) with
   | ⟨r, hp, _, _, _, _, _, h1, h2⟩ => by
     have hr : r = scenarioNewRoles := by
       have : updatePlan scenarioUpdate scenarioEnv scenarioFS = .ok scenarioNewRoles := by
         decide
       rw [this] at hp
       cases hp
       rfl
     subst hr
     exact ⟨scenarioNewRoles, hp, by decide, by decide, h1 (by decide), h2 (by decide)⟩⟩


theorem lastElem_mem {l : List String} {x : String} (h : lastElem l = .ok x) : x ∈ l := by
  unfold lastElem at h
  cases hg : l.getLast? with
  | none => simp [hg] at h
  | some y =>
    simp only [hg] at h
    cases h
    exact List.mem_of_getLast?_eq_some hg

theorem latest_is_newest {α : Type} (load : String → Except Err α) (ver : α → Int)
    {walk : Except Err (List (String × String))} {roleName : String}
    {paths : List String} {last : String} {dlast : α}
    (hget : GetRoleMetadataFilepathsFromDir walk roleName = .ok paths)
    (hlast : lastElem paths = .ok last) (hload : load last = .ok dlast)
    (hpre : ∀ p ∈ paths, ∀ d, load p = .ok d → ∀ v, verOf p = some v → v = ver d) :
    ∀ p ∈ paths, ∀ d, load p = .ok d → ver d ≤ ver dlast := by
  intro p hp d hd
  rcases getRole_last_max hget hlast p hp with rfl | ⟨i, j, hi, hj, hij⟩
  · rw [hload] at hd
    cases hd
    exact le_refl _
  · have h1 := hpre p hp d hd i hi
    have h2 := hpre last (lastElem_mem hlast) dlast hload j hj
    omega

theorem bumpRoles_versions (config : configUpdate) (env : Env) (l : Loaded)
    (newTargets : Metadata TargetsType) :
    (bumpRoles config env l newTargets).targets.Signed.Version
      = wrapInt64 (l.targets.Signed.Version + 1) ∧
    (bumpRoles config env l newTargets).snapshot.Signed.Version
      = wrapInt64 (l.snapshot.Signed.Version + 1) ∧
    (bumpRoles config env l newTargets).timestamp.Signed.Version
      = wrapInt64 (l.timestamp.Signed.Version + 1) :=
  ⟨rfl, rfl, rfl⟩

/-- C2, counterexample: from a directory whose latest Targets is
`9223372036854775807.targets.json`, of version 9223372036854775807,
`updateMetadata` succeeds and writes `-9223372036854775808.targets.json`, a
Targets of version -9223372036854775808: the written version is not the
loaded version plus one and is not greater than the version on disk. -/
theorem updateMetadata_version_wraps :
    (updateMetadata scenarioUpdate scenarioEnv maxVersionTargetsFS).1 = .ok () ∧
    targetsVersionAt maxVersionTargetsFS "out/metadata/9223372036854775807.targets.json"
      = some 9223372036854775807 ∧
    (updateMetadata scenarioUpdate scenarioEnv maxVersionTargetsFS).2.map (fun e => e.1)
      = maxVersionTargetsFS.map (fun e => e.1)
          ++ ["out/metadata/-9223372036854775808.targets.json",
              "out/metadata/2.snapshot.json"] ∧
    targetsVersionAt (updateMetadata scenarioUpdate scenarioEnv maxVersionTargetsFS).2
      "out/metadata/-9223372036854775808.targets.json" = some (-9223372036854775808) := by
  decide

/-- C2, amended: a successful `updateMetadata` writes Targets, Snapshot and
Timestamp with the version of the loaded document of the role plus one
wrapped to the `int64` range (the loaded version plus one whenever that is
in the range), under the names `<version>.targets.json`,
`<version>.snapshot.json` and `timestamp.json`; no file `<n>.root.json` is
changed; and when the loaded version plus one is in the range and the
version field of each file name agrees with the version of its document, the
new version is greater than the version of every document of the role in the
directory. -/
theorem updateMetadata_versions (config : configUpdate) (env : Env) (fs fs' : FS) (l : Loaded)
    (h : updateMetadata config env fs = (.ok (), fs'))
    (hl : loadRoles env fs config.metadataDir = .ok l) :
    ∃ r : NewRoles,
      updatePlan config env fs = .ok r ∧
      r.targets.Signed.Version = wrapInt64 (l.targets.Signed.Version + 1) ∧
      r.snapshot.Signed.Version = wrapInt64 (l.snapshot.Signed.Version + 1) ∧
      r.timestamp.Signed.Version = wrapInt64 (l.timestamp.Signed.Version + 1) ∧
      (isInt64 (l.targets.Signed.Version + 1) →
        r.targets.Signed.Version = l.targets.Signed.Version + 1) ∧
      (isInt64 (l.snapshot.Signed.Version + 1) →
        r.snapshot.Signed.Version = l.snapshot.Signed.Version + 1) ∧
      (isInt64 (l.timestamp.Signed.Version + 1) →
        r.timestamp.Signed.Version = l.timestamp.Signed.Version + 1) ∧
      fs' = mapSet (mapSet (mapSet fs
              (Join config.metadataDir (versionedName r.targets.Signed.Version Targets))
                (Content.targets r.targets))
              (Join config.metadataDir (versionedName r.snapshot.Signed.Version Snapshot))
                (Content.snapshot r.snapshot))
              (Join config.metadataDir (plainName Timestamp)) (Content.timestamp r.timestamp) ∧
      (∀ n : Int, mapGet fs' (Join config.metadataDir (versionedName n Root))
          = mapGet fs (Join config.metadataDir (versionedName n Root))) ∧
      (isInt64 (l.targets.Signed.Version + 1) → ∀ paths,
        GetRoleMetadataFilepathsFromDir (listDir env fs config.metadataDir) Targets = .ok paths →
        (∀ p ∈ paths, ∀ d, FromFileTargets fs p = .ok d →
          ∀ v, verOf p = some v → v = d.Signed.Version) →
        ∀ p ∈ paths, ∀ d, FromFileTargets fs p = .ok d →
          d.Signed.Version < r.targets.Signed.Version) ∧
      (isInt64 (l.snapshot.Signed.Version + 1) → ∀ paths,
        GetRoleMetadataFilepathsFromDir (listDir env fs config.metadataDir) Snapshot = .ok paths →
        (∀ p ∈ paths, ∀ d, FromFileSnapshot fs p = .ok d →
          ∀ v, verOf p = some v → v = d.Signed.Version) →
        ∀ p ∈ paths, ∀ d, FromFileSnapshot fs p = .ok d →
          d.Signed.Version < r.snapshot.Signed.Version) ∧
      (isInt64 (l.timestamp.Signed.Version + 1) → ∀ paths,
        GetRoleMetadataFilepathsFromDir (listDir env fs config.metadataDir) Timestamp = .ok paths →
        (∀ p ∈ paths, ∀ d, FromFileTimestamp fs p = .ok d →
          ∀ v, verOf p = some v → v = d.Signed.Version) →
        ∀ p ∈ paths, ∀ d, FromFileTimestamp fs p = .ok d →
          d.Signed.Version < r.timestamp.Signed.Version) := by
  obtain ⟨r, hp, hfs⟩ := updateMetadata_ok h
  obtain ⟨l', newTargets, tk, sk, mk, hl', hr⟩ := updatePlan_shape hp
  rw [hl] at hl'
  cases hl'
  obtain ⟨hbT, hbS, hbM⟩ := bumpRoles_versions config env l newTargets
  have hwT : r.targets.Signed.Version = wrapInt64 (l.targets.Signed.Version + 1) := by
    rw [hr]; simp only [signWith_Signed]; rw [hbT]
  have hwS : r.snapshot.Signed.Version = wrapInt64 (l.snapshot.Signed.Version + 1) := by
    rw [hr]; simp only [signWith_Signed]; rw [hbS]
  have hwM : r.timestamp.Signed.Version = wrapInt64 (l.timestamp.Signed.Version + 1) := by
    rw [hr]; simp only [signWith_Signed]; rw [hbM]
  have hvT : isInt64 (l.targets.Signed.Version + 1) →
      r.targets.Signed.Version = l.targets.Signed.Version + 1 := by
    intro hT
    rw [hwT]
    exact wrapInt64_of_isInt64 hT
  have hvS : isInt64 (l.snapshot.Signed.Version + 1) →
      r.snapshot.Signed.Version = l.snapshot.Signed.Version + 1 := by
    intro hS
    rw [hwS]
    exact wrapInt64_of_isInt64 hS
  have hvM : isInt64 (l.timestamp.Signed.Version + 1) →
      r.timestamp.Signed.Version = l.timestamp.Signed.Version + 1 := by
    intro hM
    rw [hwM]
    exact wrapInt64_of_isInt64 hM
  obtain ⟨tp, sp, mp, _, htp, htl, htf, hsp, hsl, hsf, hmp, hml, hmf⟩ := loadRoles_ok hl
  refine ⟨r, hp, hwT, hwS, hwM, hvT, hvS, hvM, hfs, ?_, ?_, ?_, ?_⟩
  · intro n
    rw [hfs, mapGet_mapSet_other _ _ _ _ (root_ne_timestamp _ _).symm,
      mapGet_mapSet_other _ _ _ _ (root_ne_snapshot _ _ _).symm,
      mapGet_mapSet_other _ _ _ _ (root_ne_targets _ _ _).symm]
  · intro hT paths hget hpre p hp' d hd
    rw [htp] at hget
    cases hget
    have := latest_is_newest (FromFileTargets fs) (fun d => d.Signed.Version) htp htl htf hpre
      p hp' d hd
    have hv := hvT hT
    simp only at this
    omega
  · intro hS paths hget hpre p hp' d hd
    rw [hsp] at hget
    cases hget
    have := latest_is_newest (FromFileSnapshot fs) (fun d => d.Signed.Version) hsp hsl hsf hpre
      p hp' d hd
    have hv := hvS hS
    simp only at this
    omega
  · intro hM paths hget hpre p hp' d hd
    rw [hmp] at hget
    cases hget
    have := latest_is_newest (FromFileTimestamp fs) (fun d => d.Signed.Version) hmp hml hmf hpre
      p hp' d hd
    have hv := hvM hM
    simp only at this
    omega

/-- Witness for C2 (amended): in the worked scenario every role goes from
version 1 to version 2, and the new Targets version is greater than the
version of every Targets document in the directory. -/
theorem updateMetadata_versions_witness :
    updateMetadata scenarioUpdate scenarioEnv scenarioFS
      = (.ok (), (updateMetadata scenarioUpdate scenarioEnv scenarioFS).2) ∧
    loadRoles scenarioEnv scenarioFS scenarioUpdate.metadataDir = .ok scenarioLoaded ∧
    ∃ r : NewRoles,
      updatePlan scenarioUpdate scenarioEnv scenarioFS = .ok r ∧
      r.targets.Signed.Version = 2 ∧ r.snapshot.Signed.Version = 2 ∧
      r.timestamp.Signed.Version = 2 ∧
      ∀ p ∈ ["out/metadata/1.targets.json"], ∀ d, FromFileTargets scenarioFS p = .ok d →
        d.Signed.Version < r.targets.Signed.Version :=
  ⟨by decide, by decide,
   match updateMetadata_versions scenarioUpdate scenarioEnv scenarioFS
      (updateMetadata scenarioUpdate scenarioEnv scenarioFS).2 scenarioLoaded
      (by decide) (by decide) with
   | ⟨r, hp, _, _, _, h1, h2, h3, _, _, h4, _⟩ =>
     ⟨r, hp, h1 (by decide), h2 (by decide), h3 (by decide),
       h4 (by decide) ["out/metadata/1.targets.json"] (by decide) (by
         intro p hp d hd v hv
         simp only [List.mem_singleton] at hp
         subst hp
         have e1 : FromFileTargets scenarioFS "out/metadata/1.targets.json"
             = .ok scenarioTargets := by decide
         have e2 : verOf "out/metadata/1.targets.json" = some 1 := by decide
         rw [e1] at hd
         rw [e2] at hv
         cases hd
         cases hv
         decide)⟩⟩


/-! ## `verifyMetadata`: the chain of Root versions -/

theorem continuityLoop_chain (fs : FS) :
    ∀ (rest : List String) (first : String) (previousRoot : Metadata RootType),
      FromFileRoot fs first = .ok previousRoot →
      continuityLoop fs previousRoot rest = .ok () →
      List.Chain (continuityHop fs) first rest := by
  intro rest
  induction rest with
  | nil => intro first prev _ _; exact List.Chain.nil
  | cons q rest ih =>
    intro first prev hfirst h
    rw [continuityLoop] at h
    cases hq : FromFileRoot fs q with
    | error e => simp [hq] at h
    | ok root =>
      simp only [hq] at h
      cases hv : VerifyDelegate prev Root root with
      | error e => simp [hv] at h
      | ok u =>
        simp only [hv] at h
        exact List.Chain.cons ⟨prev, root, hfirst, hq, hv⟩ (ih q root hq h)

theorem keyContinuity_chain {fs : FS} {paths : List String}
    (h : keyContinuity fs paths = .ok ()) : List.Chain' (continuityHop fs) paths := by
  unfold keyContinuity at h
  cases paths with
  | nil => simp at h
  | cons first rest =>
    simp only at h
    cases hf : FromFileRoot fs first with
    | error e => simp [hf] at h
    | ok prev =>
      simp only [hf] at h
      exact continuityLoop_chain fs rest first prev hf h

theorem trustedWorkflow_root {now : Int} {l : Loaded} (h : trustedWorkflow now l = .ok ()) :
    VerifyDelegate l.root Root l.root = .ok () := by
  unfold trustedWorkflow at h
  simp only [bind, Except.bind] at h
  cases hv : VerifyDelegate l.root Root l.root with
  | error e => simp [hv] at h
  | ok u => rfl

theorem loadRoot_ok {env : Env} {fs : FS} {dir : String} {paths : List String}
    {root : Metadata RootType} (h : loadRoot env fs dir = .ok (paths, root)) :
    GetRoleMetadataFilepathsFromDir (listDir env fs dir) Root = .ok paths ∧
    ∃ last, paths.getLast? = some last ∧ FromFileRoot fs last = .ok root := by
  unfold loadRoot at h
  simp only [bind, Except.bind, pure, Except.pure] at h
  cases hg : GetRoleMetadataFilepathsFromDir (listDir env fs dir) Root with
  | error e => simp [hg] at h
  | ok ps =>
    simp only [hg] at h
    cases hlast : lastElem ps with
    | error e => simp [hlast] at h
    | ok last =>
      simp only [hlast] at h
      cases hf : FromFileRoot fs last with
      | error e => simp [hf] at h
      | ok r =>
        simp only [hf] at h
        cases h
        refine ⟨rfl, last, ?_, hf⟩
        unfold lastElem at hlast
        cases hgl : List.getLast? paths with
        | none => simp [hgl] at hlast
        | some x =>
          simp only [hgl] at hlast
          cases hlast
          rfl

theorem verifyMetadata_ok {config : configVerify} {env : Env} {fs : FS}
    (h : verifyMetadata config env fs = .ok ()) :
    ∃ l report,
      loadRoles env fs config.metadataDir = .ok l ∧
      verifyReport env l = .ok report ∧
      report.any (fun row => decide (row.2.errorMessages.length > 0)) = false ∧
      trustedWorkflow env.now l = .ok () ∧
      keyContinuity fs l.rootFilepaths = .ok () := by
  unfold verifyMetadata at h
  simp only [bind, Except.bind, pure, Except.pure] at h
  cases hl : loadRoles env fs config.metadataDir with
  | error e => simp [hl] at h
  | ok l =>
  cases hr : verifyReport env l with
  | error e => simp [hl, hr] at h
  | ok report =>
  cases hg : GenerateNewTargetsFromDir env (ExpireIn env.now 1000) with
  | error e => simp [hl, hr, hg] at h
  | ok nt =>
  simp only [hl, hr, hg] at h
  split at h
  · cases h
  · rename_i hany
    cases ht : trustedWorkflow env.now l with
    | error e => simp [ht] at h
    | ok u =>
      simp only [ht] at h
      refine ⟨l, report, rfl, hr, ?_, ht, h⟩
      simpa using hany

/-- C4 (amended): `verifyMetadata` succeeds only if the latest Root passes
the delegate check under its own root key set and threshold and, along the
version-ordered list of Root files, every Root after the first passes the
delegate check under the root key set and threshold of the Root before it. -/
theorem verifyMetadata_root_chain (config : configVerify) (env : Env) (fs : FS)
    (h : verifyMetadata config env fs = .ok ()) :
    ∃ l : Loaded,
      loadRoles env fs config.metadataDir = .ok l ∧
      GetRoleMetadataFilepathsFromDir (listDir env fs config.metadataDir) Root
        = .ok l.rootFilepaths ∧
      (∃ last, l.rootFilepaths.getLast? = some last ∧ FromFileRoot fs last = .ok l.root) ∧
      VerifyDelegate l.root Root l.root = .ok () ∧
      List.Chain' (continuityHop fs) l.rootFilepaths := by
  obtain ⟨l, report, hl, _, _, ht, hk⟩ := verifyMetadata_ok h
  obtain ⟨_, _, _, hroot, _⟩ := loadRoles_ok hl
  obtain ⟨hg, hlast⟩ := loadRoot_ok hroot
  exact ⟨l, hl, hg, hlast, trustedWorkflow_root ht, keyContinuity_chain hk⟩

/-- Witness for C4 (amended): verification of the worked scenario succeeds. -/
theorem verifyMetadata_root_chain_witness :
    verifyMetadata scenarioVerify scenarioEnv scenarioFS = .ok () ∧
    ∃ l : Loaded,
      loadRoles scenarioEnv scenarioFS scenarioVerify.metadataDir = .ok l ∧
      VerifyDelegate l.root Root l.root = .ok () ∧
      List.Chain' (continuityHop scenarioFS) l.rootFilepaths :=
  ⟨by decide,
   match verifyMetadata_root_chain scenarioVerify scenarioEnv scenarioFS (by decide) with
   | ⟨l, hl, _, _, hv, hc⟩ => ⟨l, hl, hv, hc⟩⟩

/-- C4 (counterexample): with two Root files of which the first carries no
signature, `verifyMetadata` succeeds although the first Root fails the
delegate check under its own root key set and threshold. -/
theorem verifyMetadata_first_root_unchecked :
    verifyMetadata scenarioVerify scenarioEnv unsignedFirstRootFS = .ok () ∧
    GetRoleMetadataFilepathsFromDir
        (listDir scenarioEnv unsignedFirstRootFS scenarioVerify.metadataDir) Root
      = .ok ["out/metadata/1.root.json", "out/metadata/2.root.json"] ∧
    FromFileRoot unsignedFirstRootFS "out/metadata/1.root.json" = .ok unsignedRoot ∧
    VerifyDelegate unsignedRoot Root unsignedRoot = .error Err.unsigned := by
  decide


/-! ## `signMetadata`: duplicate signatures, unrecognized keys, writing in place -/

theorem signPlan_eq {config : configSign} {env : Env} {fs : FS} {signer : PrivateKey}
    {rootFilepaths paths : List String} {root : Metadata RootType} {doc : Content}
    (hk : readPrivateKey env config.privkeyFilepath = .ok signer)
    (hr : loadRoot env fs config.metadataDir = .ok (rootFilepaths, root))
    (hp : GetRoleMetadataFilepathsFromDir (listDir env fs config.metadataDir) config.role
            = .ok paths)
    (hd : loadRoleDoc fs config.role paths = .ok doc) :
    signPlan config env fs =
      if dupSignature (signContent doc signer).signatures [] then .error Err.duplicateSignature
      else
        match checkRecognized config (currentRoot root (signContent doc signer))
            (signContent doc signer) signer with
        | .error e => .error e
        | .ok _ => .ok (signOutput config env (currentRoot root (signContent doc signer))
            (signContent doc signer)) := by
  unfold signPlan
  simp only [bind, Except.bind, pure, Except.pure, hk, hr, hp, hd]
  split
  · rfl
  · cases checkRecognized config (currentRoot root (signContent doc signer))
      (signContent doc signer) signer <;> rfl

theorem dupSignature_false_iff :
    ∀ (sigs : List Signature) (seen : List String),
      dupSignature sigs seen = false ↔
        (sigs.map (fun s => s.KeyID)).Nodup ∧ ∀ s ∈ sigs, s.KeyID ∉ seen := by
  intro sigs
  induction sigs with
  | nil => intro seen; simp [dupSignature]
  | cons s rest ih =>
    intro seen
    rw [dupSignature]
    by_cases hs : s.KeyID ∈ seen
    · simp [hs]
    · simp only [hs, if_false, ih, List.map_cons, List.nodup_cons, List.mem_cons, List.mem_map,
        forall_eq_or_imp]
      constructor
      · rintro ⟨hnd, hrest⟩
        refine ⟨⟨?_, hnd⟩, ?_, ?_⟩
        · rintro ⟨a, ha, hEq⟩
          exact (hrest a ha) (Or.inl hEq)
        · exact not_false
        · intro a ha hmem
          exact (hrest a ha) (Or.inr hmem)
      · rintro ⟨⟨hnot, hnd⟩, _, hrest⟩
        refine ⟨hnd, ?_⟩
        intro a ha hmem
        rcases hmem with hEq | hmem
        · exact hnot ⟨a, ha, hEq⟩
        · exact hrest a ha hmem

theorem signContent_signatures (doc : Content) (signer : PrivateKey) :
    (signContent doc signer).signatures = [] ∧ doc = Content.other ∨
    ∃ sig : Signature, sig.KeyID = (KeyFromPublicKey signer).ID ∧
      (signContent doc signer).signatures = doc.signatures ++ [sig] := by
  cases doc with
  | other => exact Or.inl ⟨rfl, rfl⟩
  | root m => exact Or.inr ⟨signatureOf m signer, rfl, rfl⟩
  | targets m => exact Or.inr ⟨signatureOf m signer, rfl, rfl⟩
  | snapshot m => exact Or.inr ⟨signatureOf m signer, rfl, rfl⟩
  | timestamp m => exact Or.inr ⟨signatureOf m signer, rfl, rfl⟩

theorem dupSignature_signContent (doc : Content) (signer : PrivateKey)
    (hn : (doc.signatures.map (fun s => s.KeyID)).Nodup) :
    dupSignature (signContent doc signer).signatures [] = true ↔
      (KeyFromPublicKey signer).ID ∈ doc.signatures.map (fun s => s.KeyID) := by
  rcases signContent_signatures doc signer with ⟨h1, h2⟩ | ⟨sig, hsig, h1⟩
  · subst h2
    rw [h1]
    simp [dupSignature, Content.signatures]
  · have := dupSignature_false_iff (signContent doc signer).signatures []
    rw [h1] at this ⊢
    constructor
    · intro hd
      by_contra hni
      have hf : dupSignature (doc.signatures ++ [sig]) [] = false := by
        rw [this]
        refine ⟨?_, by simp⟩
        rw [List.map_append, List.nodup_append]
        refine ⟨hn, by simp, ?_⟩
        intro a ha hb
        simp only [List.map_cons, List.map_nil, List.mem_singleton] at hb
        rw [hb, hsig] at ha
        exact hni ha
      rw [hf] at hd
      cases hd
    · intro hmem
      by_contra hd
      have hf : dupSignature (doc.signatures ++ [sig]) [] = false := by
        cases h : dupSignature (doc.signatures ++ [sig]) [] with
        | true => exact absurd h hd
        | false => rfl
      rw [this] at hf
      have hnd := hf.1
      rw [List.map_append, List.nodup_append] at hnd
      apply hnd.2.2 hmem
      simp [hsig]

theorem checkRecognized_not_dup {config : configSign} {root : Metadata RootType}
    {signed : Content} {signer : PrivateKey} :
    checkRecognized config root signed signer ≠ .error Err.duplicateSignature := by
  unfold checkRecognized
  split
  · simp
  · split
    · simp
    · simp
    · split <;> simp

/-- C5: for a loaded role document without repeated key ids in its
signature list, `signMetadata` returns the duplicate-signature error, with
the metadata directory unchanged, exactly when the id of the signing key is
already in that signature list. -/
theorem signMetadata_duplicate_signature (config : configSign) (env : Env) (fs : FS)
    (signer : PrivateKey) (rootFilepaths paths : List String) (root : Metadata RootType)
    (doc : Content)
    (hk : readPrivateKey env config.privkeyFilepath = .ok signer)
    (hr : loadRoot env fs config.metadataDir = .ok (rootFilepaths, root))
    (hp : GetRoleMetadataFilepathsFromDir (listDir env fs config.metadataDir) config.role
            = .ok paths)
    (hd : loadRoleDoc fs config.role paths = .ok doc)
    (hn : (doc.signatures.map (fun s => s.KeyID)).Nodup) :
    ((KeyFromPublicKey signer).ID ∈ doc.signatures.map (fun s => s.KeyID) →
      signMetadata config env fs = (.error Err.duplicateSignature, fs)) ∧
    ((signMetadata config env fs).1 = .error Err.duplicateSignature →
      (KeyFromPublicKey signer).ID ∈ doc.signatures.map (fun s => s.KeyID)) := by
  have hplan := signPlan_eq hk hr hp hd
  have hdup := dupSignature_signContent doc signer hn
  constructor
  · intro hmem
    unfold signMetadata
    rw [hplan, if_pos (hdup.mpr hmem)]
  · intro hres
    by_contra hni
    have hnd : ¬ dupSignature (signContent doc signer).signatures [] = true :=
      fun h => hni (hdup.mp h)
    unfold signMetadata at hres
    rw [hplan, if_neg hnd] at hres
    cases hc : checkRecognized config (currentRoot root (signContent doc signer))
        (signContent doc signer) signer with
    | error e =>
      simp only [hc] at hres
      cases hres
      exact checkRecognized_not_dup hc
    | ok u =>
      simp only [hc] at hres
      cases ho : signOutput config env (currentRoot root (signContent doc signer))
          (signContent doc signer) with
      | none => simp [ho] at hres
      | some pc =>
        obtain ⟨path, c⟩ := pc
        simp only [ho, ToFile] at hres
        split at hres <;> simp at hres

/-- Witness for C5: signing the Targets of the worked scenario again with
the targets key is rejected. -/
theorem signMetadata_duplicate_signature_witness :
    signMetadata scenarioSignDup scenarioEnv scenarioFS
      = (.error Err.duplicateSignature, scenarioFS) :=
  (signMetadata_duplicate_signature scenarioSignDup scenarioEnv scenarioFS keyTargets
    ["out/metadata/1.root.json"] ["out/metadata/1.targets.json"] scenarioRoot
    (Content.targets scenarioTargets) (by decide) (by decide) (by decide) (by decide)
    (by decide)).1 (by decide)


theorem loadRoleDoc_root {fs : FS} {role : String} {paths : List String}
    {m : Metadata RootType} (h : loadRoleDoc fs role paths = .ok (Content.root m)) :
    role = Root ∧ ∃ last, lastElem paths = .ok last ∧ FromFileRoot fs last = .ok m := by
  unfold loadRoleDoc at h
  simp only [bind, Except.bind, pure, Except.pure] at h
  split at h
  · cases hl : lastElem paths with
    | error e => simp [hl] at h
    | ok last =>
      simp only [hl] at h
      cases hf : FromFileTargets fs last <;> simp [hf] at h
  · split at h
    · cases hl : lastElem paths with
      | error e => simp [hl] at h
      | ok last =>
        simp only [hl] at h
        cases hf : FromFileSnapshot fs last <;> simp [hf] at h
    · split at h
      · cases hl : lastElem paths with
        | error e => simp [hl] at h
        | ok last =>
          simp only [hl] at h
          cases hf : FromFileTimestamp fs last <;> simp [hf] at h
      · split at h
        · rename_i hroot
          cases hl : lastElem paths with
          | error e => simp [hl] at h
          | ok last =>
            simp only [hl] at h
            cases hf : FromFileRoot fs last with
            | error e => simp [hf] at h
            | ok m' =>
              simp only [hf] at h
              cases h
              exact ⟨hroot, last, rfl, hf⟩
        · cases h

theorem loadRoleDoc_other {fs : FS} {role : String} {paths : List String}
    (h : loadRoleDoc fs role paths = .ok Content.other) :
    role ≠ Targets ∧ role ≠ Snapshot ∧ role ≠ Timestamp ∧ role ≠ Root := by
  unfold loadRoleDoc at h
  simp only [bind, Except.bind, pure, Except.pure] at h
  split at h
  · cases hl : lastElem paths with
    | error e => simp [hl] at h
    | ok last =>
      simp only [hl] at h
      cases hf : FromFileTargets fs last <;> simp [hf] at h
  · split at h
    · cases hl : lastElem paths with
      | error e => simp [hl] at h
      | ok last =>
        simp only [hl] at h
        cases hf : FromFileSnapshot fs last <;> simp [hf] at h
    · split at h
      · cases hl : lastElem paths with
        | error e => simp [hl] at h
        | ok last =>
          simp only [hl] at h
          cases hf : FromFileTimestamp fs last <;> simp [hf] at h
      · split at h
        · cases hl : lastElem paths with
          | error e => simp [hl] at h
          | ok last =>
            simp only [hl] at h
            cases hf : FromFileRoot fs last <;> simp [hf] at h
        · rename_i h1 h2 h3 h4
          exact ⟨h1, h2, h3, h4⟩

theorem lastElem_getLast {l : List String} {x : String} (h : lastElem l = .ok x) :
    l.getLast? = some x := by
  unfold lastElem at h
  cases hg : l.getLast? with
  | none => simp [hg] at h
  | some y =>
    simp only [hg] at h
    cases h
    rfl

theorem currentRoot_Signed {config : configSign} {env : Env} {fs : FS} (signer : PrivateKey)
    {rootFilepaths paths : List String} {root : Metadata RootType} {doc : Content}
    (hr : loadRoot env fs config.metadataDir = .ok (rootFilepaths, root))
    (hp : GetRoleMetadataFilepathsFromDir (listDir env fs config.metadataDir) config.role
            = .ok paths)
    (hd : loadRoleDoc fs config.role paths = .ok doc) :
    (currentRoot root (signContent doc signer)).Signed = root.Signed := by
  cases doc with
  | root m =>
    obtain ⟨hrole, last, hlast, hf⟩ := loadRoleDoc_root hd
    obtain ⟨hg, last', hlast', hf'⟩ := loadRoot_ok hr
    rw [hrole, hg] at hp
    cases hp
    rw [lastElem_getLast hlast] at hlast'
    cases hlast'
    rw [hf] at hf'
    cases hf'
    rfl
  | targets m => rfl
  | snapshot m => rfl
  | timestamp m => rfl
  | other => rfl

theorem signMetadata_of_plan_error {config : configSign} {env : Env} {fs : FS} {e : Err}
    (h : signPlan config env fs = .error e) : signMetadata config env fs = (.error e, fs) := by
  unfold signMetadata
  rw [h]

theorem signMetadata_of_plan_ok {config : configSign} {env : Env} {fs : FS}
    {out : Option (String × Content)} (h : signPlan config env fs = .ok out) :
    (signMetadata config env fs).1 = .ok () ∨ (signMetadata config env fs).1 = .error Err.write := by
  unfold signMetadata
  rw [h]
  cases out with
  | none => exact Or.inl rfl
  | some pc =>
    obtain ⟨path, c⟩ := pc
    simp only [ToFile]
    split
    · exact Or.inr rfl
    · exact Or.inl rfl

/-- C6: for a role of the latest Root and a signing key that passes the
duplicate-signature check, `signMetadata` without `forced` returns the
unrecognized-key error, with the metadata directory unchanged, exactly when
the id of the key is not among the key ids the latest Root records for the
role; with `forced` it never returns that error. -/
theorem signMetadata_unrecognized_key (config : configSign) (env : Env) (fs : FS)
    (signer : PrivateKey) (rootFilepaths paths : List String) (root : Metadata RootType)
    (doc : Content) (r : Role)
    (hk : readPrivateKey env config.privkeyFilepath = .ok signer)
    (hr : loadRoot env fs config.metadataDir = .ok (rootFilepaths, root))
    (hp : GetRoleMetadataFilepathsFromDir (listDir env fs config.metadataDir) config.role
            = .ok paths)
    (hd : loadRoleDoc fs config.role paths = .ok doc)
    (hnd : dupSignature (signContent doc signer).signatures [] = false)
    (hmem : config.role ∈ [Targets, Snapshot, Timestamp, Root])
    (hrole : mapGet root.Signed.Roles config.role = some r) :
    (config.forced = false →
      ((KeyFromPublicKey signer).ID ∉ r.KeyIDs →
        signMetadata config env fs = (.error Err.unrecognizedKey, fs)) ∧
      ((signMetadata config env fs).1 = .error Err.unrecognizedKey →
        (KeyFromPublicKey signer).ID ∉ r.KeyIDs)) ∧
    (config.forced = true → (signMetadata config env fs).1 ≠ .error Err.unrecognizedKey) := by
  have hplan := signPlan_eq hk hr hp hd
  rw [hnd] at hplan
  simp only [Bool.false_eq_true, if_false] at hplan
  have hsigned := currentRoot_Signed signer hr hp hd
  have hother : signContent doc signer ≠ Content.other := by
    intro h
    have hdo : doc = Content.other := by
      cases doc <;> simp [signContent] at h ⊢
    rw [hdo] at hd
    obtain ⟨h1, h2, h3, h4⟩ := loadRoleDoc_other hd
    simp only [List.mem_cons, List.mem_singleton, List.not_mem_nil, or_false] at hmem
    rcases hmem with h | h | h | h
    · exact h1 h
    · exact h2 h
    · exact h3 h
    · exact h4 h
  have hcheck : checkRecognized config (currentRoot root (signContent doc signer))
      (signContent doc signer) signer =
      if config.forced then .ok ()
      else if (KeyFromPublicKey signer).ID ∈ r.KeyIDs then .ok ()
      else .error Err.unrecognizedKey := by
    unfold checkRecognized
    rw [hsigned, hrole]
    cases hsc : signContent doc signer with
    | other => exact absurd hsc hother
    | root m => rfl
    | targets m => rfl
    | snapshot m => rfl
    | timestamp m => rfl
  rw [hcheck] at hplan
  refine ⟨?_, ?_⟩
  · intro hf
    rw [hf] at hplan
    simp only [Bool.false_eq_true, if_false] at hplan
    constructor
    · intro hni
      rw [if_neg hni] at hplan
      exact signMetadata_of_plan_error hplan
    · intro hres hin
      rw [if_pos hin] at hplan
      rcases signMetadata_of_plan_ok hplan with h | h <;> rw [h] at hres <;> cases hres
  · intro hf hres
    rw [hf] at hplan
    simp only [if_true] at hplan
    rcases signMetadata_of_plan_ok hplan with h | h <;> rw [h] at hres <;> cases hres


/-- Witness for C6: signing the Targets of the worked scenario with the
snapshot key, not forced, is rejected as unrecognized. -/
theorem signMetadata_unrecognized_key_witness :
    signMetadata scenarioSignWrongKey scenarioEnv scenarioFS
      = (.error Err.unrecognizedKey, scenarioFS) :=
  ((signMetadata_unrecognized_key scenarioSignWrongKey scenarioEnv scenarioFS keySnapshot
    ["out/metadata/1.root.json"] ["out/metadata/1.targets.json"] scenarioRoot
    (Content.targets scenarioTargets) ⟨["K-targets"], 1⟩ (by decide) (by decide) (by decide)
    (by decide) (by decide) (by decide) (by decide)).1 (by decide)).1 (by decide)

theorem mapSet_keys {β : Type} (m : List (String × β)) (k : String) (v v0 : β)
    (h : mapGet m k = some v0) : (mapSet m k v).map (fun e => e.1) = m.map (fun e => e.1) := by
  induction m with
  | nil => simp [mapGet] at h
  | cons e rest ih =>
    obtain ⟨k', v'⟩ := e
    by_cases hk : k' = k
    · simp [mapSet, hk]
    · simp only [mapGet, hk, if_false] at h
      simp [mapSet, hk, ih h]

theorem FromFileRoot_mapGet {fs : FS} {p : String} {m : Metadata RootType}
    (h : FromFileRoot fs p = .ok m) : mapGet fs p = some (Content.root m) := by
  unfold FromFileRoot at h
  split at h <;> simp at h
  rename_i heq
  rw [heq, h]

theorem FromFileTargets_mapGet {fs : FS} {p : String} {m : Metadata TargetsType}
    (h : FromFileTargets fs p = .ok m) : mapGet fs p = some (Content.targets m) := by
  unfold FromFileTargets at h
  split at h <;> simp at h
  rename_i heq
  rw [heq, h]

theorem FromFileSnapshot_mapGet {fs : FS} {p : String} {m : Metadata SnapshotType}
    (h : FromFileSnapshot fs p = .ok m) : mapGet fs p = some (Content.snapshot m) := by
  unfold FromFileSnapshot at h
  split at h <;> simp at h
  rename_i heq
  rw [heq, h]

theorem FromFileTimestamp_mapGet {fs : FS} {p : String} {m : Metadata TimestampType}
    (h : FromFileTimestamp fs p = .ok m) : mapGet fs p = some (Content.timestamp m) := by
  unfold FromFileTimestamp at h
  split at h <;> simp at h
  rename_i heq
  rw [heq, h]

theorem loadRoleDoc_mapGet {fs : FS} {role : String} {paths : List String} {doc : Content}
    {last : String} (h : loadRoleDoc fs role paths = .ok doc) (hlast : lastElem paths = .ok last)
    (hne : doc ≠ Content.other) : mapGet fs last = some doc := by
  unfold loadRoleDoc at h
  simp only [bind, Except.bind, pure, Except.pure, hlast] at h
  split at h
  · cases hf : FromFileTargets fs last with
    | error e => simp [hf] at h
    | ok m => simp only [hf] at h; cases h; exact FromFileTargets_mapGet hf
  · split at h
    · cases hf : FromFileSnapshot fs last with
      | error e => simp [hf] at h
      | ok m => simp only [hf] at h; cases h; exact FromFileSnapshot_mapGet hf
    · split at h
      · cases hf : FromFileTimestamp fs last with
        | error e => simp [hf] at h
        | ok m => simp only [hf] at h; cases h; exact FromFileTimestamp_mapGet hf
      · split at h
        · cases hf : FromFileRoot fs last with
          | error e => simp [hf] at h
          | ok m => simp only [hf] at h; cases h; exact FromFileRoot_mapGet hf
        · cases h
          exact absurd rfl hne

theorem signFilename_signContent (role : String) (doc : Content) (signer : PrivateKey) :
    signFilename role (signContent doc signer) = signFilename role doc := by
  cases doc <;> rfl

theorem signContent_payload (doc : Content) (signer : PrivateKey) :
    (signContent doc signer).payload = doc.payload := by
  cases doc <;> rfl

theorem signContent_appends (doc : Content) (signer : PrivateKey) (p : Payload)
    (h : doc.payload = some p) :
    (signContent doc signer).signatures =
      doc.signatures ++
        [{ KeyID := (KeyFromPublicKey signer).ID, Signature := SigBytes.made signer.pub p }] := by
  cases doc with
  | other => simp [Content.payload] at h
  | root m => simp only [Content.payload, Option.some.injEq] at h; subst h; rfl
  | targets m => simp only [Content.payload, Option.some.injEq] at h; subst h; rfl
  | snapshot m => simp only [Content.payload, Option.some.injEq] at h; subst h; rfl
  | timestamp m => simp only [Content.payload, Option.some.injEq] at h; subst h; rfl

theorem versionedName_eq (v : Int) (name : String) :
    versionedName v name = toString v ++ ("." ++ name ++ ".json") := by
  unfold versionedName
  rw [String.append_assoc, String.append_assoc, String.append_assoc]

/-- The kind of the document `loadRoleDoc` returns tells the role. -/
theorem loadRoleDoc_role {fs : FS} {role : String} {paths : List String} {doc : Content}
    (h : loadRoleDoc fs role paths = .ok doc) :
    (∀ m, doc = Content.root m → role = Root) ∧
    (∀ m, doc = Content.targets m → role = Targets) ∧
    (∀ m, doc = Content.snapshot m → role = Snapshot) ∧
    (∀ m, doc = Content.timestamp m → role = Timestamp) := by
  unfold loadRoleDoc at h
  simp only [bind, Except.bind, pure, Except.pure] at h
  split_ifs at h with h1 h2 h3 h4
  · cases hl : lastElem paths with
    | error e => simp [hl] at h
    | ok last =>
      cases hf : FromFileTargets fs last with
      | error e => simp [hl, hf] at h
      | ok m =>
        simp only [hl, hf, Except.ok.injEq] at h
        subst h
        exact ⟨fun _ hh => (by cases hh), fun _ _ => h1, fun _ hh => (by cases hh),
          fun _ hh => (by cases hh)⟩
  · cases hl : lastElem paths with
    | error e => simp [hl] at h
    | ok last =>
      cases hf : FromFileSnapshot fs last with
      | error e => simp [hl, hf] at h
      | ok m =>
        simp only [hl, hf, Except.ok.injEq] at h
        subst h
        exact ⟨fun _ hh => (by cases hh), fun _ hh => (by cases hh), fun _ _ => h2,
          fun _ hh => (by cases hh)⟩
  · cases hl : lastElem paths with
    | error e => simp [hl] at h
    | ok last =>
      cases hf : FromFileTimestamp fs last with
      | error e => simp [hl, hf] at h
      | ok m =>
        simp only [hl, hf, Except.ok.injEq] at h
        subst h
        exact ⟨fun _ hh => (by cases hh), fun _ hh => (by cases hh), fun _ hh => (by cases hh),
          fun _ _ => h3⟩
  · cases hl : lastElem paths with
    | error e => simp [hl] at h
    | ok last =>
      cases hf : FromFileRoot fs last with
      | error e => simp [hl, hf] at h
      | ok m =>
        simp only [hl, hf, Except.ok.injEq] at h
        subst h
        exact ⟨fun _ _ => h4, fun _ hh => (by cases hh), fun _ hh => (by cases hh),
          fun _ hh => (by cases hh)⟩
  · simp only [Except.ok.injEq] at h
    subst h
    exact ⟨fun _ hh => (by cases hh), fun _ hh => (by cases hh), fun _ hh => (by cases hh),
      fun _ hh => (by cases hh)⟩

/-- C7, counterexample: in a directory whose latest Targets file is
`2.targets.json` and holds the Targets of version 1, signing the Targets
writes `1.targets.json`, a file that did not exist before, and leaves
`2.targets.json` as it was. -/
theorem signMetadata_new_file_for_misnamed :
    (signMetadata scenarioSignForced scenarioEnv misnamedTargetsFS).1 = .ok () ∧
    mapGet misnamedTargetsFS "out/metadata/1.targets.json" = none ∧
    (signMetadata scenarioSignForced scenarioEnv misnamedTargetsFS).2
      = misnamedTargetsFS ++
          [("out/metadata/1.targets.json",
            Content.targets (Sign scenarioTargets keySnapshot))] := by
  decide

/-- C7, amended: when `signMetadata` succeeds and writes, the written
document has the signed payload of the loaded one, its signature list is the
loaded list followed by one signature made by the supplied key over that
payload, and it is written under the name built from the loaded version:
`<version>.root.json`, `<version>.targets.json`, `<version>.snapshot.json`,
or `timestamp.json` for Timestamp; no other file is changed, and when that
is the name of the loaded file, the set of files of the directory is
unchanged. -/
theorem signMetadata_writes_in_place (config : configSign) (env : Env) (fs fs' : FS)
    (signer : PrivateKey) (rootFilepaths paths : List String) (root : Metadata RootType)
    (doc : Content) (last path : String) (c : Content)
    (hk : readPrivateKey env config.privkeyFilepath = .ok signer)
    (hr : loadRoot env fs config.metadataDir = .ok (rootFilepaths, root))
    (hp : GetRoleMetadataFilepathsFromDir (listDir env fs config.metadataDir) config.role
            = .ok paths)
    (hd : loadRoleDoc fs config.role paths = .ok doc)
    (hlast : lastElem paths = .ok last)
    (hplan : signPlan config env fs = .ok (some (path, c)))
    (h : signMetadata config env fs = (.ok (), fs')) :
    (∃ p, doc.payload = some p ∧ c.payload = some p ∧
      c.signatures = doc.signatures ++
        [{ KeyID := (KeyFromPublicKey signer).ID, Signature := SigBytes.made signer.pub p }]) ∧
    ((∃ m, doc = Content.root m ∧ config.role = "root" ∧
        path = Join config.metadataDir (toString m.Signed.Version ++ ".root.json")) ∨
     (∃ m, doc = Content.targets m ∧ config.role = "targets" ∧
        path = Join config.metadataDir (toString m.Signed.Version ++ ".targets.json")) ∨
     (∃ m, doc = Content.snapshot m ∧ config.role = "snapshot" ∧
        path = Join config.metadataDir (toString m.Signed.Version ++ ".snapshot.json")) ∨
     (∃ m, doc = Content.timestamp m ∧ config.role = "timestamp" ∧
        path = Join config.metadataDir "timestamp.json")) ∧
    fs' = mapSet fs path c ∧
    (path = last → fs'.map (fun e => e.1) = fs.map (fun e => e.1)) := by
  have hplan' := signPlan_eq hk hr hp hd
  rw [hplan] at hplan'
  split at hplan'
  · cases hplan'
  · cases hc : checkRecognized config (currentRoot root (signContent doc signer))
        (signContent doc signer) signer with
    | error e => simp [hc] at hplan'
    | ok u =>
      simp only [hc, Except.ok.injEq] at hplan'
      unfold signOutput at hplan'
      simp only at hplan'
      split at hplan'
      · rw [signFilename_signContent] at hplan'
        cases hfn : signFilename config.role doc with
        | none => simp [hfn] at hplan'
        | some filename =>
          simp only [hfn, Option.some.injEq, Prod.mk.injEq] at hplan'
          obtain ⟨hpath, hcc⟩ := hplan'
          have hne : doc ≠ Content.other := by
            intro hdo
            rw [hdo] at hfn
            simp [signFilename] at hfn
          have hpay : ∃ p, doc.payload = some p := by
            cases doc with
            | other => exact absurd rfl hne
            | root m => exact ⟨_, rfl⟩
            | targets m => exact ⟨_, rfl⟩
            | snapshot m => exact ⟨_, rfl⟩
            | timestamp m => exact ⟨_, rfl⟩
          obtain ⟨p, hpl⟩ := hpay
          have hfs : fs' = mapSet fs path c := by
            unfold signMetadata at h
            rw [hplan] at h
            simp only [ToFile] at h
            split at h
            · simp at h
            · simp only [Prod.mk.injEq, true_and] at h
              exact h.symm
          obtain ⟨hkr, hkt, hks, hkm⟩ := loadRoleDoc_role hd
          refine ⟨⟨p, hpl, ?_, ?_⟩, ?_, hfs, ?_⟩
          · rw [hcc, signContent_payload, hpl]
          · rw [hcc]; exact signContent_appends doc signer p hpl
          · cases doc with
            | other => exact absurd rfl hne
            | root m =>
              have hrole := hkr m rfl
              simp only [signFilename, Option.some.injEq] at hfn
              rw [hrole, versionedName_eq] at hfn
              exact Or.inl ⟨m, rfl, hrole, (by rw [hpath, ← hfn]; rfl)⟩
            | targets m =>
              have hrole := hkt m rfl
              simp only [signFilename, Option.some.injEq] at hfn
              rw [hrole, versionedName_eq] at hfn
              exact Or.inr (Or.inl ⟨m, rfl, hrole, (by rw [hpath, ← hfn]; rfl)⟩)
            | snapshot m =>
              have hrole := hks m rfl
              simp only [signFilename, Option.some.injEq] at hfn
              rw [hrole, versionedName_eq] at hfn
              exact Or.inr (Or.inr (Or.inl ⟨m, rfl, hrole, (by rw [hpath, ← hfn]; rfl)⟩))
            | timestamp m =>
              have hrole := hkm m rfl
              simp only [signFilename, Option.some.injEq] at hfn
              rw [hrole] at hfn
              exact Or.inr (Or.inr (Or.inr ⟨m, rfl, hrole, (by rw [hpath, ← hfn]; rfl)⟩))
          · intro hpl'
            rw [hfs, hpl']
            exact mapSet_keys fs last c doc (loadRoleDoc_mapGet hd hlast hne)
      · cases hplan'

/-- Witness for C7 (amended): signing the Targets of the worked scenario
with the snapshot key, forced, rewrites `1.targets.json` with a second
signature; signing the Snapshot with the targets key rewrites
`1.snapshot.json`, signing the Timestamp rewrites `timestamp.json` and
signing the Root rewrites `1.root.json`; the set of files is unchanged in
each run. -/
theorem signMetadata_writes_in_place_witness :
    ((signMetadata scenarioSignForced scenarioEnv scenarioFS).1 = .ok () ∧
      (signMetadata scenarioSignForced scenarioEnv scenarioFS).2.map (fun e => e.1)
        = scenarioFS.map (fun e => e.1) ∧
      mapGet (signMetadata scenarioSignForced scenarioEnv scenarioFS).2
        "out/metadata/1.targets.json"
        = some (Content.targets (Sign scenarioTargets keySnapshot))) ∧
    (signMetadata (scenarioSignRole "snapshot") scenarioEnv scenarioFS).2.map (fun e => e.1)
      = scenarioFS.map (fun e => e.1) ∧
    (signMetadata (scenarioSignRole "timestamp") scenarioEnv scenarioFS).2.map (fun e => e.1)
      = scenarioFS.map (fun e => e.1) ∧
    (signMetadata (scenarioSignRole "root") scenarioEnv scenarioFS).2.map (fun e => e.1)
      = scenarioFS.map (fun e => e.1) :=
  ⟨⟨by decide,
    (signMetadata_writes_in_place scenarioSignForced scenarioEnv scenarioFS
      (signMetadata scenarioSignForced scenarioEnv scenarioFS).2 keySnapshot
      ["out/metadata/1.root.json"] ["out/metadata/1.targets.json"] scenarioRoot
      (Content.targets scenarioTargets) "out/metadata/1.targets.json"
      "out/metadata/1.targets.json" (Content.targets (Sign scenarioTargets keySnapshot))
      (by decide) (by decide) (by decide) (by decide) (by decide) (by decide)
      (by decide)).2.2.2 rfl,
    by decide⟩,
   (signMetadata_writes_in_place (scenarioSignRole "snapshot") scenarioEnv scenarioFS
      (signMetadata (scenarioSignRole "snapshot") scenarioEnv scenarioFS).2 keyTargets
      ["out/metadata/1.root.json"] ["out/metadata/1.snapshot.json"] scenarioRoot
      (Content.snapshot scenarioSnapshot) "out/metadata/1.snapshot.json"
      "out/metadata/1.snapshot.json" (Content.snapshot (Sign scenarioSnapshot keyTargets))
      (by decide) (by decide) (by decide) (by decide) (by decide) (by decide)
      (by decide)).2.2.2 rfl,
   (signMetadata_writes_in_place (scenarioSignRole "timestamp") scenarioEnv scenarioFS
      (signMetadata (scenarioSignRole "timestamp") scenarioEnv scenarioFS).2 keyTargets
      ["out/metadata/1.root.json"] ["out/metadata/timestamp.json"] scenarioRoot
      (Content.timestamp scenarioTimestamp) "out/metadata/timestamp.json"
      "out/metadata/timestamp.json" (Content.timestamp (Sign scenarioTimestamp keyTargets))
      (by decide) (by decide) (by decide) (by decide) (by decide) (by decide)
      (by decide)).2.2.2 rfl,
   (signMetadata_writes_in_place (scenarioSignRole "root") scenarioEnv scenarioFS
      (signMetadata (scenarioSignRole "root") scenarioEnv scenarioFS).2 keyTargets
      ["out/metadata/1.root.json"] ["out/metadata/1.root.json"] scenarioRoot
      (Content.root scenarioRoot) "out/metadata/1.root.json"
      "out/metadata/1.root.json" (Content.root (Sign scenarioRoot keyTargets))
      (by decide) (by decide) (by decide) (by decide) (by decide) (by decide)
      (by decide)).2.2.2 rfl⟩


/-! ## `changeThreshold`: add, reduce, and the re-issued Root -/

theorem changeThresholdPlan_eq {config : configChangeThreshold} {env : Env} {fs : FS}
    {rootPrivkey : PrivateKey} {k : Key} {rootFilepaths : List String}
    {root : Metadata RootType}
    (hk : readPrivateKey env config.rootPrivkeyFilepath = .ok rootPrivkey)
    (hrk : loadRoleKey config env = .ok (some k))
    (hr : loadRoot env fs config.metadataDir = .ok (rootFilepaths, root))
    (hv : VerifyDelegate root Root root = .ok ()) :
    changeThresholdPlan config env fs =
      match applyThresholdAction config root.Signed k with
      | .error e => .error e
      | .ok signed =>
        match reissueRoot root signed rootPrivkey with
        | .error e => .error e
        | .ok newRoot => if env.dirWritable then .ok newRoot else .error Err.notWritable := by
  unfold changeThresholdPlan
  simp only [bind, Except.bind, pure, Except.pure, hk, hrk, hr, hv, orFail, IsDirWritable]
  cases applyThresholdAction config root.Signed k with
  | error e => rfl
  | ok signed =>
    simp only
    cases reissueRoot root signed rootPrivkey with
    | error e => rfl
    | ok newRoot =>
      by_cases hw : env.dirWritable = true <;> simp [hw]

theorem changeThresholdPlan_ok {config : configChangeThreshold} {env : Env} {fs : FS}
    {newRoot : Metadata RootType} (h : changeThresholdPlan config env fs = .ok newRoot) :
    ∃ rootPrivkey k rootFilepaths root signed,
      readPrivateKey env config.rootPrivkeyFilepath = .ok rootPrivkey ∧
      loadRoleKey config env = .ok (some k) ∧
      loadRoot env fs config.metadataDir = .ok (rootFilepaths, root) ∧
      VerifyDelegate root Root root = .ok () ∧
      applyThresholdAction config root.Signed k = .ok signed ∧
      reissueRoot root signed rootPrivkey = .ok newRoot ∧
      env.dirWritable = true := by
  unfold changeThresholdPlan at h
  simp only [bind, Except.bind, pure, Except.pure] at h
  cases hk : readPrivateKey env config.rootPrivkeyFilepath with
  | error e => simp [hk] at h
  | ok rootPrivkey =>
  cases hrk : loadRoleKey config env with
  | error e => simp [hk, hrk] at h
  | ok roleKey =>
  cases hr : loadRoot env fs config.metadataDir with
  | error e => simp [hk, hrk, hr] at h
  | ok rr =>
  obtain ⟨rootFilepaths, root⟩ := rr
  cases hv : VerifyDelegate root Root root with
  | error e => simp [hk, hrk, hr, hv, orFail] at h
  | ok u =>
  cases roleKey with
  | none => simp [hk, hrk, hr, hv, orFail] at h
  | some k =>
  cases ha : applyThresholdAction config root.Signed k with
  | error e => simp [hk, hrk, hr, hv, orFail, ha] at h
  | ok signed =>
  cases hre : reissueRoot root signed rootPrivkey with
  | error e => simp [hk, hrk, hr, hv, orFail, ha, hre] at h
  | ok newRoot' =>
  by_cases hw : env.dirWritable = true
  · simp only [hk, hrk, hr, hv, orFail, ha, hre, IsDirWritable, hw, if_true,
      Except.ok.injEq] at h
    subst h
    exact ⟨rootPrivkey, k, rootFilepaths, root, signed, rfl, rfl, rfl, hv, ha, hre, hw⟩
  · simp [hk, hrk, hr, hv, orFail, ha, hre, IsDirWritable, hw] at h

/-- A failed `changeThreshold` leaves the directory as it was, unless the
failure is that of the write, which may leave a file at the path of the new
Root. -/
theorem changeThreshold_error_fs {config : configChangeThreshold} {env : Env} {fs fs' : FS}
    {e : Err} (h : changeThreshold config env fs = (.error e, fs')) :
    fs' = fs ∨
    ∃ newRoot, changeThresholdPlan config env fs = .ok newRoot ∧ e = Err.write ∧
      env.writeFails (Join config.metadataDir (versionedName newRoot.Signed.Version Root))
        = true ∧
      env.writeLeavesFile (Join config.metadataDir (versionedName newRoot.Signed.Version Root))
        = true ∧
      fs' = mapSet fs (Join config.metadataDir (versionedName newRoot.Signed.Version Root))
        Content.other := by
  unfold changeThreshold at h
  cases hp : changeThresholdPlan config env fs with
  | error e' =>
    simp only [hp, Prod.mk.injEq] at h
    exact Or.inl h.2.symm
  | ok newRoot =>
    simp only [hp, ToFile] at h
    split_ifs at h with hw hl
    · simp only [Prod.mk.injEq, Except.error.injEq] at h
      exact Or.inr ⟨newRoot, rfl, h.1.symm, hw, hl, h.2.symm⟩
    · simp only [Prod.mk.injEq] at h
      exact Or.inl h.2.symm
    · simp at h

theorem changeThreshold_ok {config : configChangeThreshold} {env : Env} {fs fs' : FS}
    (h : changeThreshold config env fs = (.ok (), fs')) :
    ∃ newRoot, changeThresholdPlan config env fs = .ok newRoot ∧
      fs' = mapSet fs (Join config.metadataDir (versionedName newRoot.Signed.Version Root))
        (Content.root newRoot) := by
  unfold changeThreshold at h
  cases hp : changeThresholdPlan config env fs with
  | error e' => simp [hp] at h
  | ok newRoot =>
    simp only [hp, ToFile] at h
    split at h
    · simp at h
    · simp only [Prod.mk.injEq, true_and] at h
      exact ⟨newRoot, rfl, h.symm⟩

theorem changeThreshold_of_plan_error {config : configChangeThreshold} {env : Env} {fs : FS}
    {e : Err} (h : changeThresholdPlan config env fs = .error e) :
    changeThreshold config env fs = (.error e, fs) := by
  unfold changeThreshold
  rw [h]

theorem reissueRoot_ok {root newRoot : Metadata RootType} {signed : RootType}
    {rootPrivkey : PrivateKey} (h : reissueRoot root signed rootPrivkey = .ok newRoot) :
    newRoot.Signed = { signed with Version := wrapInt64 (signed.Version + 1) } ∧
    newRoot.Signatures =
      [{ KeyID := (KeyFromPublicKey rootPrivkey).ID,
         Signature := SigBytes.made rootPrivkey.pub (Payload.root newRoot.Signed) }] ∧
    ∃ rr, mapGet signed.Roles Root = some rr ∧ (KeyFromPublicKey rootPrivkey).ID ∈ rr.KeyIDs := by
  unfold reissueRoot at h
  simp only at h
  split at h
  · cases h
  · rename_i rr hrr
    split at h
    · rename_i hmem
      simp only [Except.ok.injEq] at h
      subst h
      exact ⟨rfl, rfl, rr, hrr, hmem⟩
    · cases h

theorem applyThresholdAction_add {config : configChangeThreshold} {signed : RootType}
    {k : Key} {r : Role} (hact : config.action = ChangeThresholdActionAdd)
    (hrole : mapGet signed.Roles config.role = some r) :
    applyThresholdAction config signed k =
      if k.ID ∈ r.KeyIDs then .error Err.duplicateKey
      else .ok { signed with
        Roles := mapSet
          (mapSet signed.Roles config.role { r with Threshold := wrapInt64 (r.Threshold + 1) })
          config.role { KeyIDs := r.KeyIDs ++ [k.ID], Threshold := wrapInt64 (r.Threshold + 1) }
        Keys := mapSet signed.Keys k.ID k } := by
  unfold applyThresholdAction
  rw [if_pos hact, hrole]
  simp only
  by_cases hmem : k.ID ∈ r.KeyIDs
  · rw [if_pos hmem, if_pos hmem]
  · rw [if_neg hmem, if_neg hmem]
    unfold AddKey orFail
    simp only [mapGet_mapSet_same, if_neg hmem]

theorem applyThresholdAction_reduce {config : configChangeThreshold} {signed : RootType}
    {k : Key} {r : Role} (hact : config.action = ChangeThresholdActionReduce)
    (hrole : mapGet signed.Roles config.role = some r) :
    applyThresholdAction config signed k =
      if wrapInt64 (r.Threshold - 1) = 0 then .error Err.thresholdUnderflow
      else if k.ID ∉ r.KeyIDs then .error Err.revoke
      else .ok { signed with
        Roles := mapSet
          (mapSet signed.Roles config.role { r with Threshold := wrapInt64 (r.Threshold - 1) })
          config.role
          { KeyIDs := r.KeyIDs.filter (fun x => decide (x ≠ k.ID)),
            Threshold := wrapInt64 (r.Threshold - 1) }
        Keys :=
          if (mapSet
              (mapSet signed.Roles config.role { r with Threshold := wrapInt64 (r.Threshold - 1) })
              config.role
              { KeyIDs := r.KeyIDs.filter (fun x => decide (x ≠ k.ID)),
                Threshold := wrapInt64 (r.Threshold - 1) }).any
              (fun e => decide (k.ID ∈ e.2.KeyIDs))
          then signed.Keys else mapDelete signed.Keys k.ID } := by
  unfold applyThresholdAction
  have hne : ¬ config.action = ChangeThresholdActionAdd := by
    rw [hact]; decide
  rw [if_neg hne, if_pos hact, hrole]
  simp only
  by_cases hz : wrapInt64 (r.Threshold - 1) = 0
  · rw [if_pos hz, if_pos hz]
  · rw [if_neg hz, if_neg hz]
    unfold RevokeKey orFail
    simp only [mapGet_mapSet_same]
    by_cases hmem : k.ID ∈ r.KeyIDs
    · simp only [hmem, not_true_eq_false, if_false]
      split_ifs <;> rfl
    · simp only [hmem, not_false_eq_true, if_true]

theorem applyThresholdAction_Version {config : configChangeThreshold} {signed signed' : RootType}
    {k : Key} (h : applyThresholdAction config signed k = .ok signed') :
    signed'.Version = signed.Version := by
  by_cases hadd : config.action = ChangeThresholdActionAdd
  · cases hrole : mapGet signed.Roles config.role with
    | none => simp [applyThresholdAction, hadd, hrole] at h
    | some r =>
      rw [applyThresholdAction_add hadd hrole] at h
      split at h
      · cases h
      · cases h; rfl
  · by_cases hred : config.action = ChangeThresholdActionReduce
    · cases hrole : mapGet signed.Roles config.role with
      | none => simp [applyThresholdAction, hadd, hred, hrole] at h
      | some r =>
        rw [applyThresholdAction_reduce hred hrole] at h
        split at h
        · cases h
        · split at h
          · cases h
          · cases h; rfl
    · simp only [applyThresholdAction, hadd, hred, if_false, Except.ok.injEq] at h
      rw [h]


/-- C8, counterexample: from a latest Root whose Targets role has the
threshold 9223372036854775807, `changeThreshold` with action `add` and the
snapshot key succeeds and writes a Root whose Targets role has the threshold
-9223372036854775808, which is not the old threshold plus one. -/
theorem changeThreshold_add_threshold_wraps :
    (changeThreshold scenarioAdd scenarioEnv maxThresholdFS).1 = .ok () ∧
    roleAt maxThresholdFS "out/metadata/1.root.json" "targets"
      = some { KeyIDs := ["K-targets"], Threshold := 9223372036854775807 } ∧
    roleAt maxThresholdFS "out/metadata/2.root.json" "targets" = none ∧
    roleAt (changeThreshold scenarioAdd scenarioEnv maxThresholdFS).2
      "out/metadata/2.root.json" "targets"
      = some { KeyIDs := ["K-targets", "K-snapshot"], Threshold := -9223372036854775808 } := by
  decide

/-- C8, amended: `changeThreshold` with action `add`, from a latest Root
that passes its own delegate check, for a role of that Root and a role key
with id `K`: if `K` is among the role's key ids the operation returns the
duplicate-key error and the directory is unchanged; otherwise every
successful run writes a Root in which the role has the old key ids followed
by `K` and the old threshold plus one wrapped to the `int` range (the old
threshold plus one whenever that is in the range), and every other role has
the entry it had. -/
theorem changeThreshold_add (config : configChangeThreshold) (env : Env) (fs : FS)
    (rootPrivkey : PrivateKey) (k : Key) (rootFilepaths : List String)
    (root : Metadata RootType) (r : Role)
    (hact : config.action = ChangeThresholdActionAdd)
    (hk : readPrivateKey env config.rootPrivkeyFilepath = .ok rootPrivkey)
    (hrk : loadRoleKey config env = .ok (some k))
    (hr : loadRoot env fs config.metadataDir = .ok (rootFilepaths, root))
    (hv : VerifyDelegate root Root root = .ok ())
    (hrole : mapGet root.Signed.Roles config.role = some r) :
    (k.ID ∈ r.KeyIDs → changeThreshold config env fs = (.error Err.duplicateKey, fs)) ∧
    (k.ID ∉ r.KeyIDs →
      ∀ fs', changeThreshold config env fs = (.ok (), fs') →
        ∃ newRoot : Metadata RootType,
          fs' = mapSet fs (Join config.metadataDir (versionedName newRoot.Signed.Version Root))
            (Content.root newRoot) ∧
          mapGet newRoot.Signed.Roles config.role
            = some { KeyIDs := r.KeyIDs ++ [k.ID],
                     Threshold := wrapInt64 (r.Threshold + 1) } ∧
          (isInt64 (r.Threshold + 1) →
            mapGet newRoot.Signed.Roles config.role
              = some { KeyIDs := r.KeyIDs ++ [k.ID], Threshold := r.Threshold + 1 }) ∧
          ∀ other, other ≠ config.role →
            mapGet newRoot.Signed.Roles other = mapGet root.Signed.Roles other) := by
  have hplan := changeThresholdPlan_eq hk hrk hr hv
  rw [applyThresholdAction_add hact hrole] at hplan
  constructor
  · intro hmem
    rw [if_pos hmem] at hplan
    exact changeThreshold_of_plan_error hplan
  · intro hni fs' h
    rw [if_neg hni] at hplan
    obtain ⟨newRoot, hp, hfs⟩ := changeThreshold_ok h
    rw [hplan] at hp
    simp only at hp
    split at hp
    · cases hp
    · rename_i newRoot' hre
      obtain ⟨hsigned, _, _⟩ := reissueRoot_ok hre
      split at hp
      · simp only [Except.ok.injEq] at hp
        subst hp
        refine ⟨newRoot', hfs, ?_, ?_, ?_⟩
        · rw [hsigned]
          simp only
          rw [mapGet_mapSet_same]
        · intro hT
          rw [hsigned]
          simp only
          rw [mapGet_mapSet_same, wrapInt64_of_isInt64 hT]
        · intro other hne
          rw [hsigned]
          simp only
          rw [mapGet_mapSet_other _ _ _ _ (Ne.symm hne), mapGet_mapSet_other _ _ _ _ (Ne.symm hne)]
      · cases hp

/-- Witness for C8 (amended): adding the snapshot key to the Targets role of
the worked scenario writes `2.root.json` with threshold 2 and both key ids. -/
theorem changeThreshold_add_witness :
    (changeThreshold scenarioAdd scenarioEnv scenarioFS).1 = .ok () ∧
    ∃ newRoot : Metadata RootType,
      (changeThreshold scenarioAdd scenarioEnv scenarioFS).2
        = mapSet scenarioFS (Join "out/metadata" (versionedName newRoot.Signed.Version Root))
            (Content.root newRoot) ∧
      mapGet newRoot.Signed.Roles "targets"
        = some { KeyIDs := ["K-targets", "K-snapshot"], Threshold := 2 } :=
  ⟨by decide,
   match (changeThreshold_add scenarioAdd scenarioEnv scenarioFS keyRoot keySnapshot.pub
      ["out/metadata/1.root.json"] scenarioRoot ⟨["K-targets"], 1⟩ (by decide) (by decide)
      (by decide) (by decide) (by decide) (by decide)).2 (by decide)
      (changeThreshold scenarioAdd scenarioEnv scenarioFS).2 (by decide) with
   | ⟨newRoot, h1, _, h2, _⟩ => ⟨newRoot, h1, h2 (by decide)⟩⟩

/-- C9: `changeThreshold` with action `reduce`, from a latest Root that
passes its own delegate check, for a role of that Root and a key with id
`K`: when the threshold would become 0 the operation returns the underflow
error, and when `K` is not among the role's key ids it returns an error, the
directory being unchanged in both cases; every successful run writes a Root
in which the role has the old threshold minus one and the old key ids
without `K`; and from a threshold of at least 1 the written threshold is at
least 1. -/
theorem changeThreshold_reduce (config : configChangeThreshold) (env : Env) (fs : FS)
    (rootPrivkey : PrivateKey) (k : Key) (rootFilepaths : List String)
    (root : Metadata RootType) (r : Role)
    (hact : config.action = ChangeThresholdActionReduce)
    (hk : readPrivateKey env config.rootPrivkeyFilepath = .ok rootPrivkey)
    (hrk : loadRoleKey config env = .ok (some k))
    (hr : loadRoot env fs config.metadataDir = .ok (rootFilepaths, root))
    (hv : VerifyDelegate root Root root = .ok ())
    (hrole : mapGet root.Signed.Roles config.role = some r)
    (hint : isInt64 r.Threshold) :
    (r.Threshold - 1 = 0 → changeThreshold config env fs = (.error Err.thresholdUnderflow, fs)) ∧
    (k.ID ∉ r.KeyIDs →
      changeThreshold config env fs = (.error Err.thresholdUnderflow, fs) ∨
      changeThreshold config env fs = (.error Err.revoke, fs)) ∧
    (∀ fs', changeThreshold config env fs = (.ok (), fs') →
      r.Threshold - 1 ≠ 0 ∧ k.ID ∈ r.KeyIDs ∧
      ∃ newRoot : Metadata RootType,
        fs' = mapSet fs (Join config.metadataDir (versionedName newRoot.Signed.Version Root))
          (Content.root newRoot) ∧
        (isInt64 (r.Threshold - 1) →
          mapGet newRoot.Signed.Roles config.role
            = some { KeyIDs := r.KeyIDs.filter (fun x => decide (x ≠ k.ID)),
                     Threshold := r.Threshold - 1 }) ∧
        (1 ≤ r.Threshold →
          ∃ r', mapGet newRoot.Signed.Roles config.role = some r' ∧ 1 ≤ r'.Threshold)) := by
  have hplan := changeThresholdPlan_eq hk hrk hr hv
  rw [applyThresholdAction_reduce hact hrole] at hplan
  refine ⟨?_, ?_, ?_⟩
  · intro hz
    have hw : wrapInt64 (r.Threshold - 1) = 0 := by rw [hz]; rfl
    rw [if_pos hw] at hplan
    exact changeThreshold_of_plan_error hplan
  · intro hni
    by_cases hw : wrapInt64 (r.Threshold - 1) = 0
    · rw [if_pos hw] at hplan
      exact Or.inl (changeThreshold_of_plan_error hplan)
    · rw [if_neg hw, if_pos hni] at hplan
      exact Or.inr (changeThreshold_of_plan_error hplan)
  · intro fs' h
    obtain ⟨newRoot, hp, hfs⟩ := changeThreshold_ok h
    rw [hplan] at hp
    by_cases hw : wrapInt64 (r.Threshold - 1) = 0
    · rw [if_pos hw] at hp
      cases hp
    · rw [if_neg hw] at hp
      by_cases hmem : k.ID ∈ r.KeyIDs
      · rw [if_neg (not_not.mpr hmem)] at hp
        simp only at hp
        split at hp
        · cases hp
        · rename_i newRoot' hre
          obtain ⟨hsigned, _, _⟩ := reissueRoot_ok hre
          split at hp
          · simp only [Except.ok.injEq] at hp
            subst hp
            have hnz : r.Threshold - 1 ≠ 0 := by
              intro hz
              apply hw
              rw [hz]; rfl
            refine ⟨hnz, hmem, newRoot', hfs, ?_, ?_⟩
            · intro hT
              rw [hsigned]
              simp only
              rw [mapGet_mapSet_same, wrapInt64_of_isInt64 hT]
            · intro hone
              have hT : isInt64 (r.Threshold - 1) := by
                unfold isInt64 at hint ⊢
                omega
              refine ⟨{ KeyIDs := r.KeyIDs.filter (fun x => decide (x ≠ k.ID)),
                        Threshold := wrapInt64 (r.Threshold - 1) }, ?_, ?_⟩
              · rw [hsigned]
                simp only
                rw [mapGet_mapSet_same]
              · simp only
                rw [wrapInt64_of_isInt64 hT]
                omega
          · cases hp
      · rw [if_pos hmem] at hp
        cases hp

/-- Witness for C9: in the scenario whose Targets role has two keys and
threshold 2, reducing by the snapshot key writes a Root with threshold 1. -/
theorem changeThreshold_reduce_witness :
    (changeThreshold scenarioReduce scenarioEnv twoKeyFS).1 = .ok () ∧
    ∃ newRoot : Metadata RootType,
      (changeThreshold scenarioReduce scenarioEnv twoKeyFS).2
        = mapSet twoKeyFS (Join "out/metadata" (versionedName newRoot.Signed.Version Root))
            (Content.root newRoot) ∧
      mapGet newRoot.Signed.Roles "targets" = some { KeyIDs := ["K-targets"], Threshold := 1 } :=
  ⟨by decide,
   match (changeThreshold_reduce scenarioReduce scenarioEnv twoKeyFS keyRoot keySnapshot.pub
      ["out/metadata/1.root.json"] twoKeyRoot ⟨["K-targets", "K-snapshot"], 2⟩ (by decide)
      (by decide) (by decide) (by decide) (by decide) (by decide) (by decide)).2.2
      (changeThreshold scenarioReduce scenarioEnv twoKeyFS).2 (by decide) with
   | ⟨_, _, newRoot, h1, h2, _⟩ => ⟨newRoot, h1, h2 (by decide)⟩⟩


/-- C10, counterexample: from a latest Root of version 9223372036854775807
a successful `changeThreshold` writes `-9223372036854775808.root.json`, a
Root of version -9223372036854775808, which is not the old version plus
one; and in the worked scenario a write of `2.root.json` that fails after
creating the file makes `changeThreshold` return the write error with that
file, which did not exist before, left in the directory. -/
theorem changeThreshold_version_wraps_and_failed_write_leaves_file :
    ((changeThreshold scenarioAdd scenarioEnv maxVersionRootFS).1 = .ok () ∧
      rootVersionAt maxVersionRootFS "out/metadata/9223372036854775807.root.json"
        = some 9223372036854775807 ∧
      (changeThreshold scenarioAdd scenarioEnv maxVersionRootFS).2
        = maxVersionRootFS ++
          [("out/metadata/-9223372036854775808.root.json",
            Content.root
              (Sign ⟨{ scenarioRootSigned with
                        Version := -9223372036854775808
                        Roles := [("root", ⟨["K-root"], 1⟩),
                                  ("targets", ⟨["K-targets", "K-snapshot"], 2⟩),
                                  ("snapshot", ⟨["K-snapshot"], 1⟩),
                                  ("timestamp", ⟨["K-timestamp"], 1⟩)] }, []⟩ keyRoot))]) ∧
    (changeThreshold scenarioAdd (leavingFileEnv "out/metadata/2.root.json") scenarioFS
        = (.error Err.write, scenarioFS ++ [("out/metadata/2.root.json", Content.other)]) ∧
      mapGet scenarioFS "out/metadata/2.root.json" = none) := by
  decide

/-- C10, amended: a successful `changeThreshold` changes the directory by
writing one file, `<version>.root.json` of the new Root, whose version is
the loaded version plus one wrapped to the `int64` range (the loaded version
plus one whenever that is in the range) and whose signature list is the
single signature made by the root key, the id of that key being among the
root key ids of the new Root; when the id of the root key is not among them
the operation returns the unrecognized-key error and the directory is
unchanged; and whenever `changeThreshold` returns an error the directory is
unchanged, or the error is that of the write and the one change is that the
path of the new Root holds a file without a document. -/
theorem changeThreshold_writes_one_root (config : configChangeThreshold) (env : Env) (fs : FS) :
    (∀ fs', changeThreshold config env fs = (.ok (), fs') →
      ∃ (rootPrivkey : PrivateKey) (rootFilepaths : List String)
        (root newRoot : Metadata RootType) (rr : Role),
        readPrivateKey env config.rootPrivkeyFilepath = .ok rootPrivkey ∧
        loadRoot env fs config.metadataDir = .ok (rootFilepaths, root) ∧
        fs' = mapSet fs (Join config.metadataDir (versionedName newRoot.Signed.Version Root))
          (Content.root newRoot) ∧
        newRoot.Signed.Version = wrapInt64 (root.Signed.Version + 1) ∧
        (isInt64 (root.Signed.Version + 1) →
          newRoot.Signed.Version = root.Signed.Version + 1) ∧
        newRoot.Signatures =
          [{ KeyID := (KeyFromPublicKey rootPrivkey).ID,
             Signature := SigBytes.made rootPrivkey.pub (Payload.root newRoot.Signed) }] ∧
        mapGet newRoot.Signed.Roles Root = some rr ∧
        (KeyFromPublicKey rootPrivkey).ID ∈ rr.KeyIDs) ∧
    (∀ (rootPrivkey : PrivateKey) (k : Key) (rootFilepaths : List String)
        (root : Metadata RootType) (signed : RootType) (rr : Role),
      readPrivateKey env config.rootPrivkeyFilepath = .ok rootPrivkey →
      loadRoleKey config env = .ok (some k) →
      loadRoot env fs config.metadataDir = .ok (rootFilepaths, root) →
      VerifyDelegate root Root root = .ok () →
      applyThresholdAction config root.Signed k = .ok signed →
      mapGet signed.Roles Root = some rr →
      (KeyFromPublicKey rootPrivkey).ID ∉ rr.KeyIDs →
      changeThreshold config env fs = (.error Err.unrecognizedKey, fs)) ∧
    (∀ e fs', changeThreshold config env fs = (.error e, fs') →
      fs' = fs ∨
      ∃ (rootFilepaths : List String) (root : Metadata RootType),
        loadRoot env fs config.metadataDir = .ok (rootFilepaths, root) ∧
        e = Err.write ∧
        env.writeFails (Join config.metadataDir
          (versionedName (wrapInt64 (root.Signed.Version + 1)) Root)) = true ∧
        fs' = mapSet fs (Join config.metadataDir
          (versionedName (wrapInt64 (root.Signed.Version + 1)) Root)) Content.other) := by
  have hversion : ∀ newRoot, changeThresholdPlan config env fs = .ok newRoot →
      ∃ (rootPrivkey : PrivateKey) (rootFilepaths : List String) (root : Metadata RootType)
        (rr : Role),
        readPrivateKey env config.rootPrivkeyFilepath = .ok rootPrivkey ∧
        loadRoot env fs config.metadataDir = .ok (rootFilepaths, root) ∧
        newRoot.Signed.Version = wrapInt64 (root.Signed.Version + 1) ∧
        newRoot.Signatures =
          [{ KeyID := (KeyFromPublicKey rootPrivkey).ID,
             Signature := SigBytes.made rootPrivkey.pub (Payload.root newRoot.Signed) }] ∧
        mapGet newRoot.Signed.Roles Root = some rr ∧
        (KeyFromPublicKey rootPrivkey).ID ∈ rr.KeyIDs := by
    intro newRoot hp
    obtain ⟨rootPrivkey, k, rootFilepaths, root, signed, hk, _, hr, _, ha, hre, _⟩ :=
      changeThresholdPlan_ok hp
    obtain ⟨hsigned, hsigs, rr, hrr, hmem⟩ := reissueRoot_ok hre
    refine ⟨rootPrivkey, rootFilepaths, root, rr, hk, hr, ?_, hsigs, ?_, hmem⟩
    · rw [hsigned]
      simp only
      rw [applyThresholdAction_Version ha]
    · rw [hsigned]
      exact hrr
  refine ⟨?_, ?_, ?_⟩
  · intro fs' h
    obtain ⟨newRoot, hp, hfs⟩ := changeThreshold_ok h
    obtain ⟨rootPrivkey, rootFilepaths, root, rr, hk, hr, hver, hsigs, hrr, hmem⟩ :=
      hversion newRoot hp
    refine ⟨rootPrivkey, rootFilepaths, root, newRoot, rr, hk, hr, hfs, hver, ?_, hsigs, hrr,
      hmem⟩
    intro hT
    rw [hver, wrapInt64_of_isInt64 hT]
  · intro rootPrivkey k rootFilepaths root signed rr hk hrk hr hv ha hrr hni
    have hplan := changeThresholdPlan_eq hk hrk hr hv
    rw [ha] at hplan
    have hre : reissueRoot root signed rootPrivkey = .error Err.unrecognizedKey := by
      unfold reissueRoot
      simp only [Sign, ClearSignatures]
      rw [hrr]
      simp only
      rw [if_neg]
      exact hni
    simp only [hre] at hplan
    exact changeThreshold_of_plan_error hplan
  · intro e fs' h
    rcases changeThreshold_error_fs h with h1 | ⟨newRoot, hp, he, hw, _, hfs⟩
    · exact Or.inl h1
    · obtain ⟨_, rootFilepaths, root, _, _, hr, hver, _⟩ := hversion newRoot hp
      rw [hver] at hfs hw
      exact Or.inr ⟨rootFilepaths, root, hr, he, hw, hfs⟩

/-- Witness for C10 (amended): in the worked scenario the added Root is
`2.root.json` signed by the root key, and an attempt with a key that is not
a root key fails and leaves the directory as it was. -/
theorem changeThreshold_writes_one_root_witness :
    (changeThreshold scenarioAdd scenarioEnv scenarioFS).1 = .ok () ∧
    (∃ newRoot : Metadata RootType,
      (changeThreshold scenarioAdd scenarioEnv scenarioFS).2
        = mapSet scenarioFS "out/metadata/2.root.json" (Content.root newRoot) ∧
      newRoot.Signed.Version = 2 ∧
      newRoot.Signatures =
        [{ KeyID := "K-root",
           Signature := SigBytes.made keyRoot.pub (Payload.root newRoot.Signed) }]) ∧
    changeThreshold scenarioAddWrongRootKey scenarioEnv scenarioFS
      = (.error Err.unrecognizedKey, scenarioFS) :=
  ⟨by decide,
   match (changeThreshold_writes_one_root scenarioAdd scenarioEnv scenarioFS).1
      (changeThreshold scenarioAdd scenarioEnv scenarioFS).2 (by decide) with
   | ⟨rootPrivkey, rootFilepaths, root, newRoot, rr, hk, hr, hfs, _, hver, hsigs, _, _⟩ => by
     have hk' : rootPrivkey = keyRoot := by
       have : readPrivateKey scenarioEnv scenarioAdd.rootPrivkeyFilepath = .ok keyRoot := by
         decide
       rw [this] at hk
       cases hk
       rfl
     have hr' : root = scenarioRoot := by
       have : loadRoot scenarioEnv scenarioFS scenarioAdd.metadataDir
           = .ok (["out/metadata/1.root.json"], scenarioRoot) := by decide
       rw [this] at hr
       cases hr
       rfl
     subst hk' hr'
     have hv2 : newRoot.Signed.Version = 2 := hver (by decide)
     refine ⟨newRoot, ?_, hv2, hsigs⟩
     rw [hfs, hv2]
     rfl,
   by decide⟩

/-! ## `changeRootKey`: add, remove, and the threshold -/

/-- A failed `changeRootKey` leaves the directory as it was, unless the
failure is that of the write, which may leave a file at the path of the new
Root. -/
theorem changeRootKey_error_fs {config : configChangeRootKey} {env : Env} {fs fs' : FS}
    {e : Err} (h : changeRootKey config env fs = (.error e, fs')) :
    fs' = fs ∨
    ∃ newRoot, changeRootKeyPlan config env fs = .ok newRoot ∧ e = Err.write ∧
      fs' = mapSet fs (Join config.metadataDir (versionedName newRoot.Signed.Version Root))
        Content.other := by
  unfold changeRootKey at h
  cases hp : changeRootKeyPlan config env fs with
  | error e' =>
    simp only [hp, Prod.mk.injEq] at h
    exact Or.inl h.2.symm
  | ok newRoot =>
    simp only [hp, ToFile] at h
    split_ifs at h with hw hl
    · simp only [Prod.mk.injEq, Except.error.injEq] at h
      exact Or.inr ⟨newRoot, rfl, h.1.symm, h.2.symm⟩
    · simp only [Prod.mk.injEq] at h
      exact Or.inl h.2.symm
    · simp at h

theorem changeRootKey_ok {config : configChangeRootKey} {env : Env} {fs fs' : FS}
    (h : changeRootKey config env fs = (.ok (), fs')) :
    ∃ newRoot, changeRootKeyPlan config env fs = .ok newRoot ∧
      fs' = mapSet fs (Join config.metadataDir (versionedName newRoot.Signed.Version Root))
        (Content.root newRoot) := by
  unfold changeRootKey at h
  cases hp : changeRootKeyPlan config env fs with
  | error e' => simp [hp] at h
  | ok newRoot =>
    simp only [hp, ToFile] at h
    split at h
    · simp at h
    · simp only [Prod.mk.injEq, true_and] at h
      exact ⟨newRoot, rfl, h.symm⟩

theorem changeRootKey_of_plan_error {config : configChangeRootKey} {env : Env} {fs : FS}
    {e : Err} (h : changeRootKeyPlan config env fs = .error e) :
    changeRootKey config env fs = (.error e, fs) := by
  unfold changeRootKey
  rw [h]

/-- A run of `changeRootKey` either returns an error before its write and
leaves the directory as it was, or reaches the write with a new Root. -/
theorem changeRootKey_cases (config : configChangeRootKey) (env : Env) (fs : FS) :
    (∃ e, changeRootKey config env fs = (.error e, fs)) ∨
    (∃ newRoot, changeRootKeyPlan config env fs = .ok newRoot) := by
  cases h : changeRootKeyPlan config env fs with
  | error e => exact Or.inl ⟨e, changeRootKey_of_plan_error h⟩
  | ok newRoot => exact Or.inr ⟨newRoot, rfl⟩

/-- Once the new Root is made, `changeRootKey` writes it, or the write
fails and leaves the directory as it was or with a file that holds no
document at the path of the new Root. -/
theorem changeRootKey_of_plan_ok {config : configChangeRootKey} {env : Env} {fs : FS}
    {newRoot : Metadata RootType} (h : changeRootKeyPlan config env fs = .ok newRoot) :
    changeRootKey config env fs
      = (.ok (), mapSet fs (Join config.metadataDir (versionedName newRoot.Signed.Version Root))
          (Content.root newRoot)) ∨
    changeRootKey config env fs = (.error Err.write, fs) ∨
    changeRootKey config env fs
      = (.error Err.write,
          mapSet fs (Join config.metadataDir (versionedName newRoot.Signed.Version Root))
            Content.other) := by
  unfold changeRootKey
  rw [h]
  simp only [ToFile]
  split_ifs
  · exact Or.inr (Or.inr rfl)
  · exact Or.inr (Or.inl rfl)
  · exact Or.inl rfl

theorem changeRootKeyPlan_ok {config : configChangeRootKey} {env : Env} {fs : FS}
    {newRoot : Metadata RootType} (h : changeRootKeyPlan config env fs = .ok newRoot) :
    ∃ rootFilepaths root rootPrivkey signed newPrivkey,
      loadRoot env fs config.metadataDir = .ok (rootFilepaths, root) ∧
      VerifyDelegate root Root root = .ok () ∧
      readPrivateKey env config.privkeyFilepath = .ok rootPrivkey ∧
      applyRootKeyAction config env root.Signed = .ok (signed, newPrivkey) ∧
      reissueRootKey config env root signed rootPrivkey newPrivkey = .ok newRoot ∧
      env.dirWritable = true := by
  unfold changeRootKeyPlan at h
  simp only [bind, Except.bind, pure, Except.pure] at h
  cases hr : loadRoot env fs config.metadataDir with
  | error e => simp [hr] at h
  | ok rr =>
  obtain ⟨rootFilepaths, root⟩ := rr
  cases hv : VerifyDelegate root Root root with
  | error e => simp [hr, hv, orFail] at h
  | ok u =>
  cases hk : readPrivateKey env config.privkeyFilepath with
  | error e => simp [hr, hv, orFail, hk] at h
  | ok rootPrivkey =>
  cases ha : applyRootKeyAction config env root.Signed with
  | error e => simp [hr, hv, orFail, hk, ha] at h
  | ok sp =>
  obtain ⟨signed, newPrivkey⟩ := sp
  cases hre : reissueRootKey config env root signed rootPrivkey newPrivkey with
  | error e => simp [hr, hv, orFail, hk, ha, hre] at h
  | ok newRoot' =>
  by_cases hw : env.dirWritable = true
  · simp only [hr, hv, orFail, hk, ha, hre, IsDirWritable, hw, if_true, Except.ok.injEq] at h
    subst h
    exact ⟨rootFilepaths, root, rootPrivkey, signed, newPrivkey, rfl, hv, rfl, ha, hre, hw⟩
  · simp [hr, hv, orFail, hk, ha, hre, IsDirWritable, hw] at h

theorem reissueRootKey_ok {config : configChangeRootKey} {env : Env}
    {root newRoot : Metadata RootType} {signed : RootType} {rootPrivkey : PrivateKey}
    {newPrivkey : Option PrivateKey}
    (h : reissueRootKey config env root signed rootPrivkey newPrivkey = .ok newRoot) :
    ∃ rr, mapGet signed.Roles Root = some rr ∧
      (KeyFromPublicKey rootPrivkey).ID ∈ rr.KeyIDs ∧
      newRoot.Signed =
        { signed with
          Version := wrapInt64 (signed.Version + 1)
          Expires := ExpireIn env.now config.expireIn
          Roles := mapSet signed.Roles Root { rr with Threshold := config.threshold } } ∧
      newRoot.Signatures =
        { KeyID := (KeyFromPublicKey rootPrivkey).ID,
          Signature := SigBytes.made rootPrivkey.pub (Payload.root newRoot.Signed) } ::
        (match newPrivkey with
         | none => []
         | some k =>
           [{ KeyID := (KeyFromPublicKey k).ID,
              Signature := SigBytes.made k.pub (Payload.root newRoot.Signed) }]) := by
  unfold reissueRootKey at h
  simp only at h
  split at h
  · cases h
  · rename_i rr hrr
    cases newPrivkey with
    | none =>
      simp only at h
      split at h
      · rename_i hmem
        simp only [Except.ok.injEq] at h
        subst h
        exact ⟨rr, hrr, hmem, rfl, rfl⟩
      · cases h
    | some k =>
      simp only at h
      split at h
      · rename_i hmem
        split at h
        · simp only [Except.ok.injEq] at h
          subst h
          exact ⟨rr, hrr, hmem, rfl, rfl⟩
        · cases h
      · cases h

theorem applyRootKeyAction_add {config : configChangeRootKey} {env : Env} {signed : RootType}
    {newPrivkey : PrivateKey} {rr : Role}
    (hact : config.action = ChangeRootKeyActionAdd)
    (hin : readPrivateKey env config.inputPrivkeyFilepath = .ok newPrivkey)
    (hrole : mapGet signed.Roles Root = some rr) :
    applyRootKeyAction config env signed =
      if (KeyFromPublicKey newPrivkey).ID ∈ rr.KeyIDs then .error Err.duplicateKey
      else .ok ({ signed with
                  Roles := mapSet signed.Roles Root
                    { rr with KeyIDs := rr.KeyIDs ++ [(KeyFromPublicKey newPrivkey).ID] }
                  Keys := mapSet signed.Keys (KeyFromPublicKey newPrivkey).ID
                    (KeyFromPublicKey newPrivkey) }, some newPrivkey) := by
  unfold applyRootKeyAction
  simp only [hact, if_true, hin, hrole, AddKey]
  split_ifs <;> rfl

theorem applyRootKeyAction_remove {config : configChangeRootKey} {env : Env}
    {signed signed' : RootType} {newPrivkey : Option PrivateKey} {k : Key} {rr : Role}
    (hact : config.action = ChangeRootKeyActionRemove)
    (hin : tryParseAsPrivateThenPublic env config.inputPrivkeyFilepath = .ok k)
    (hrole : mapGet signed.Roles Root = some rr)
    (h : applyRootKeyAction config env signed = .ok (signed', newPrivkey)) :
    newPrivkey = none ∧
    mapGet signed'.Roles Root
      = some { rr with KeyIDs := rr.KeyIDs.filter (fun x => decide (x ≠ k.ID)) } := by
  have hne : ¬ config.action = ChangeRootKeyActionAdd := by
    rw [hact]; decide
  unfold applyRootKeyAction at h
  rw [if_neg hne, if_pos hact] at h
  simp only [hin, RevokeKey, hrole] at h
  split at h
  · cases h
  · rename_i s hs
    simp only [Except.ok.injEq, Prod.mk.injEq] at h
    obtain ⟨h1, h2⟩ := h
    subst h1
    refine ⟨h2.symm, ?_⟩
    split at hs
    · cases hs
    · split at hs
      · cases hs
        simp only
        rw [mapGet_mapSet_same]
      · cases hs
        simp only
        rw [mapGet_mapSet_same]

/-- C11, counterexample: from a latest Root of version 9223372036854775807,
`changeRootKey` with action `add` and a second root key succeeds and writes
`-9223372036854775808.root.json`, a Root of version -9223372036854775808,
which is not the old version plus one. -/
theorem changeRootKey_add_version_wraps :
    (changeRootKey scenarioRootKeyAdd scenarioEnv maxVersionRootFS).1 = .ok () ∧
    rootVersionAt maxVersionRootFS "out/metadata/9223372036854775807.root.json"
      = some 9223372036854775807 ∧
    mapGet maxVersionRootFS "out/metadata/-9223372036854775808.root.json" = none ∧
    rootVersionAt (changeRootKey scenarioRootKeyAdd scenarioEnv maxVersionRootFS).2
      "out/metadata/-9223372036854775808.root.json" = some (-9223372036854775808) ∧
    (changeRootKey scenarioRootKeyAdd scenarioEnv maxVersionRootFS).2.map (fun e => e.1)
      = maxVersionRootFS.map (fun e => e.1)
          ++ ["out/metadata/-9223372036854775808.root.json"] := by
  decide

/-- C11, amended: `changeRootKey` with action `add`, from a latest Root that
passes its own delegate check, with an input private key of id `K`: if `K`
is among the root key ids the operation fails (with the duplicate-key error
when the signing key can be read) and the directory is unchanged; otherwise
every successful run writes a Root whose root role has the old key ids
followed by `K` and the requested threshold, whose version is the old
version plus one wrapped to the `int64` range (the old version plus one
whenever that is in the range), and whose signature list is exactly the
signature of the signing root key followed by the signature of the new
key. -/
theorem changeRootKey_add (config : configChangeRootKey) (env : Env) (fs : FS)
    (newPrivkey : PrivateKey) (rootFilepaths : List String) (root : Metadata RootType)
    (rr : Role)
    (hact : config.action = ChangeRootKeyActionAdd)
    (hr : loadRoot env fs config.metadataDir = .ok (rootFilepaths, root))
    (hv : VerifyDelegate root Root root = .ok ())
    (hin : readPrivateKey env config.inputPrivkeyFilepath = .ok newPrivkey)
    (hrole : mapGet root.Signed.Roles Root = some rr) :
    ((KeyFromPublicKey newPrivkey).ID ∈ rr.KeyIDs →
      (∃ e, changeRootKey config env fs = (.error e, fs)) ∧
      ((∃ rootPrivkey, readPrivateKey env config.privkeyFilepath = .ok rootPrivkey) →
        changeRootKey config env fs = (.error Err.duplicateKey, fs))) ∧
    ((KeyFromPublicKey newPrivkey).ID ∉ rr.KeyIDs →
      ∀ fs', changeRootKey config env fs = (.ok (), fs') →
        ∃ (newRoot : Metadata RootType) (rootPrivkey : PrivateKey),
          readPrivateKey env config.privkeyFilepath = .ok rootPrivkey ∧
          fs' = mapSet fs (Join config.metadataDir (versionedName newRoot.Signed.Version Root))
            (Content.root newRoot) ∧
          mapGet newRoot.Signed.Roles Root
            = some { KeyIDs := rr.KeyIDs ++ [(KeyFromPublicKey newPrivkey).ID],
                     Threshold := config.threshold } ∧
          newRoot.Signed.Version = wrapInt64 (root.Signed.Version + 1) ∧
          (isInt64 (root.Signed.Version + 1) →
            newRoot.Signed.Version = root.Signed.Version + 1) ∧
          newRoot.Signatures =
            [ { KeyID := (KeyFromPublicKey rootPrivkey).ID,
                Signature := SigBytes.made rootPrivkey.pub (Payload.root newRoot.Signed) },
              { KeyID := (KeyFromPublicKey newPrivkey).ID,
                Signature := SigBytes.made newPrivkey.pub (Payload.root newRoot.Signed) } ]) := by
  have happly := @applyRootKeyAction_add config env root.Signed newPrivkey rr hact hin hrole
  constructor
  · intro hmem
    rw [if_pos hmem] at happly
    have hnot : ∀ newRoot, changeRootKeyPlan config env fs ≠ .ok newRoot := by
      intro newRoot hp
      obtain ⟨_, root', _, _, _, hr', _, _, ha, _, _⟩ := changeRootKeyPlan_ok hp
      rw [hr] at hr'
      cases hr'
      rw [happly] at ha
      cases ha
    constructor
    · rcases changeRootKey_cases config env fs with h | ⟨newRoot, h⟩
      · exact h
      · exact absurd h (hnot newRoot)
    · rintro ⟨rootPrivkey, hk⟩
      apply changeRootKey_of_plan_error
      unfold changeRootKeyPlan
      simp only [bind, Except.bind, pure, Except.pure, hr, hv, orFail, hk, happly]
  · intro hni fs' h
    rw [if_neg hni] at happly
    obtain ⟨newRoot, hp, hfs⟩ := changeRootKey_ok h
    obtain ⟨_, root', rootPrivkey, signed, newPrivkey', hr', _, hk, ha, hre, _⟩ :=
      changeRootKeyPlan_ok hp
    rw [hr] at hr'
    cases hr'
    rw [happly] at ha
    cases ha
    obtain ⟨rr', hrr', _, hsigned, hsigs⟩ := reissueRootKey_ok hre
    simp only at hrr'
    rw [mapGet_mapSet_same] at hrr'
    cases hrr'
    refine ⟨newRoot, rootPrivkey, hk, hfs, ?_, ?_, ?_, hsigs⟩
    · rw [hsigned]
      simp only
      rw [mapGet_mapSet_same]
    · rw [hsigned]
    · intro hT
      rw [hsigned]
      simp only
      rw [wrapInt64_of_isInt64 hT]

/-- Witness for C11 (amended): adding the second root key in the worked scenario
writes `2.root.json` with both key ids, the requested threshold 2 and the
two signatures. -/
theorem changeRootKey_add_witness :
    (changeRootKey scenarioRootKeyAdd scenarioEnv scenarioFS).1 = .ok () ∧
    ∃ newRoot : Metadata RootType,
      (changeRootKey scenarioRootKeyAdd scenarioEnv scenarioFS).2
        = mapSet scenarioFS (Join "out/metadata" (versionedName newRoot.Signed.Version Root))
            (Content.root newRoot) ∧
      mapGet newRoot.Signed.Roles Root
        = some { KeyIDs := ["K-root", "K-root-2"], Threshold := 2 } ∧
      newRoot.Signed.Version = 2 ∧
      newRoot.Signatures.map (fun s => s.KeyID) = ["K-root", "K-root-2"] :=
  ⟨by decide,
   match (changeRootKey_add scenarioRootKeyAdd scenarioEnv scenarioFS keyRootTwo
      ["out/metadata/1.root.json"] scenarioRoot ⟨["K-root"], 1⟩ (by decide) (by decide)
      (by decide) (by decide) (by decide)).2 (by decide)
      (changeRootKey scenarioRootKeyAdd scenarioEnv scenarioFS).2 (by decide) with
   | ⟨newRoot, rootPrivkey, hk, h1, h2, _, h3, h4⟩ => by
     have hk' : rootPrivkey = keyRoot := by
       have : readPrivateKey scenarioEnv scenarioRootKeyAdd.privkeyFilepath = .ok keyRoot := by
         decide
       rw [this] at hk
       cases hk
       rfl
     subst hk'
     refine ⟨newRoot, h1, h2, h3 (by decide), ?_⟩
     rw [h4]
     rfl⟩

/-- C12: `changeRootKey` with action `remove`, for an input key with id `K`,
returns an error and leaves the directory unchanged when `K` is the only
root key id of the latest Root, and also when `K` is the id of the key that
signs the new Root. -/
theorem changeRootKey_remove_rejected (config : configChangeRootKey) (env : Env) (fs : FS)
    (k : Key) (rootFilepaths : List String) (root : Metadata RootType) (rr : Role)
    (hact : config.action = ChangeRootKeyActionRemove)
    (hr : loadRoot env fs config.metadataDir = .ok (rootFilepaths, root))
    (hin : tryParseAsPrivateThenPublic env config.inputPrivkeyFilepath = .ok k)
    (hrole : mapGet root.Signed.Roles Root = some rr) :
    (rr.KeyIDs = [k.ID] → ∃ e, changeRootKey config env fs = (.error e, fs)) ∧
    (∀ rootPrivkey, readPrivateKey env config.privkeyFilepath = .ok rootPrivkey →
      (KeyFromPublicKey rootPrivkey).ID = k.ID →
      ∃ e, changeRootKey config env fs = (.error e, fs)) := by
  have hsucc : ∀ newRoot, changeRootKeyPlan config env fs = .ok newRoot →
      ∃ rootPrivkey, readPrivateKey env config.privkeyFilepath = .ok rootPrivkey ∧
        (KeyFromPublicKey rootPrivkey).ID ∈ rr.KeyIDs.filter (fun x => decide (x ≠ k.ID)) := by
    intro newRoot hp
    obtain ⟨_, root', rootPrivkey, signed, newPrivkey, hr', _, hk, ha, hre, _⟩ :=
      changeRootKeyPlan_ok hp
    rw [hr] at hr'
    cases hr'
    obtain ⟨_, hrole'⟩ := applyRootKeyAction_remove hact hin hrole ha
    obtain ⟨rr', hrr', hmem, _, _⟩ := reissueRootKey_ok hre
    rw [hrole'] at hrr'
    cases hrr'
    exact ⟨rootPrivkey, hk, hmem⟩
  constructor
  · intro honly
    rcases changeRootKey_cases config env fs with h | ⟨newRoot, h⟩
    · exact h
    · obtain ⟨rootPrivkey, _, hmem⟩ := hsucc newRoot h
      rw [honly] at hmem
      simp at hmem
  · intro rootPrivkey hk hsame
    rcases changeRootKey_cases config env fs with h | ⟨newRoot, h⟩
    · exact h
    · obtain ⟨rootPrivkey', hk', hmem⟩ := hsucc newRoot h
      rw [hk] at hk'
      cases hk'
      rw [hsame] at hmem
      simp at hmem

/-- Witness for C12: removing the only root key of the worked scenario
fails, and so does removing the second of two root keys when that key signs
the new Root; the directory is unchanged in both runs. -/
theorem changeRootKey_remove_rejected_witness :
    (∃ e, changeRootKey scenarioRootKeyRemove scenarioEnv scenarioFS = (.error e, scenarioFS)) ∧
    (∃ e, changeRootKey scenarioRootKeyRemoveSigner scenarioEnv twoRootKeysFS
      = (.error e, twoRootKeysFS)) :=
  ⟨(changeRootKey_remove_rejected scenarioRootKeyRemove scenarioEnv scenarioFS keyRoot.pub
      ["out/metadata/1.root.json"] scenarioRoot ⟨["K-root"], 1⟩ (by decide) (by decide)
      (by decide) (by decide)).1 (by decide),
   (changeRootKey_remove_rejected scenarioRootKeyRemoveSigner scenarioEnv twoRootKeysFS
      keyRootTwo.pub ["out/metadata/1.root.json", "out/metadata/2.root.json"] twoRootKeysRoot
      ⟨["K-root", "K-root-2"], 2⟩ (by decide) (by decide) (by decide) (by decide)).2
      keyRootTwo (by decide) (by decide)⟩

/-- C13, counterexample: in the worked scenario the change-root-key command
with action `add` and a requested threshold of 5 succeeds and writes
`2.root.json`, a Root whose root role has two key ids and threshold 5. -/
theorem cmdChangeRootKey_threshold_above_keys :
    (cmdChangeRootKey scenarioRootKeyAddFive scenarioEnv scenarioFS).1
      = ChangeRootKeySucceeded ++ "\n" ∧
    rootRoleAt scenarioFS "out/metadata/2.root.json" = none ∧
    rootRoleAt (cmdChangeRootKey scenarioRootKeyAddFive scenarioEnv scenarioFS).2
      "out/metadata/2.root.json" = some { KeyIDs := ["K-root", "K-root-2"], Threshold := 5 } ∧
    ¬ ((5 : Int) ≤ (["K-root", "K-root-2"] : List String).length) := by
  decide

/-- C13, amended: the change-root-key command with a requested threshold of
0 prints its failure banner and leaves the directory unchanged; and every
run either leaves the directory unchanged or changes the one file at the
path of a new Root whose root role has the requested threshold, which is at
least 1, and at least one key id: that file holds the new Root, or, after a
failed write, no document. -/
theorem cmdChangeRootKey_threshold (config : configChangeRootKey) (env : Env) (fs : FS) :
    (config.threshold = 0 →
      (cmdChangeRootKey config env fs).2 = fs ∧
      ∃ pre, (cmdChangeRootKey config env fs).1 = pre ++ ChangeRootKeyFailed ++ "\n") ∧
    ((cmdChangeRootKey config env fs).2 = fs ∨
      ∃ (newRoot : Metadata RootType) (rr : Role),
        ((cmdChangeRootKey config env fs).2
          = mapSet fs (Join config.metadataDir (versionedName newRoot.Signed.Version Root))
              (Content.root newRoot) ∨
         (cmdChangeRootKey config env fs).2
          = mapSet fs (Join config.metadataDir (versionedName newRoot.Signed.Version Root))
              Content.other) ∧
        mapGet newRoot.Signed.Roles Root = some rr ∧
        rr.Threshold = config.threshold ∧ 1 ≤ rr.Threshold ∧ 1 ≤ rr.KeyIDs.length) := by
  constructor
  · intro h0
    unfold cmdChangeRootKey changeRootKeyPreflight
    split_ifs with h1 h2
    · exact ⟨rfl, _, rfl⟩
    · exact ⟨rfl, _, rfl⟩
    · omega
  · unfold cmdChangeRootKey
    cases hpre : changeRootKeyPreflight config with
    | some out => exact Or.inl rfl
    | none =>
      have hth : 1 ≤ config.threshold := by
        unfold changeRootKeyPreflight at hpre
        split_ifs at hpre with h1 h2
        omega
      rcases changeRootKey_cases config env fs with ⟨e, h⟩ | ⟨newRoot, hp⟩
      · left
        rw [h]
      · obtain ⟨_, root, rootPrivkey, signed, newPrivkey, _, _, _, _, hre, _⟩ :=
          changeRootKeyPlan_ok hp
        obtain ⟨rr, _, hmem, hsigned, _⟩ := reissueRootKey_ok hre
        have hrole : mapGet newRoot.Signed.Roles Root
            = some { rr with Threshold := config.threshold } := by
          rw [hsigned]
          simp only
          rw [mapGet_mapSet_same]
        have hlen : 1 ≤ rr.KeyIDs.length := List.length_pos_of_mem hmem
        rcases changeRootKey_of_plan_ok hp with h | h | h
        · right
          refine ⟨newRoot, { rr with Threshold := config.threshold }, Or.inl ?_, hrole, rfl,
            (by simp only; exact_mod_cast hth), hlen⟩
          rw [h]
        · left
          rw [h]
        · right
          refine ⟨newRoot, { rr with Threshold := config.threshold }, Or.inr ?_, hrole, rfl,
            (by simp only; exact_mod_cast hth), hlen⟩
          rw [h]

/-- Witness for C13 (amended): in the worked scenario a requested threshold
of 0 is rejected with the directory unchanged, and the run with threshold 5
writes a Root with that threshold. -/
theorem cmdChangeRootKey_threshold_witness :
    (cmdChangeRootKey { scenarioRootKeyAdd with threshold := 0 } scenarioEnv scenarioFS).2
      = scenarioFS ∧
    ∃ (newRoot : Metadata RootType) (rr : Role),
      (cmdChangeRootKey scenarioRootKeyAddFive scenarioEnv scenarioFS).2
        = mapSet scenarioFS (Join "out/metadata" (versionedName newRoot.Signed.Version Root))
            (Content.root newRoot) ∧
      mapGet newRoot.Signed.Roles Root = some rr ∧ rr.Threshold = 5 :=
  ⟨((cmdChangeRootKey_threshold { scenarioRootKeyAdd with threshold := 0 } scenarioEnv
      scenarioFS).1 rfl).1,
   match (cmdChangeRootKey_threshold scenarioRootKeyAddFive scenarioEnv scenarioFS).2 with
   | Or.inl h => absurd h (by decide)
   | Or.inr ⟨newRoot, rr, Or.inl h1, h2, h3, _⟩ => ⟨newRoot, rr, h1, h2, h3⟩
   | Or.inr ⟨_, _, Or.inr h1, _⟩ =>
     (mapSet_other_absurd "out/metadata/2.root.json" h1 (by decide) (by decide)
       (by decide)).elim⟩

/-! ## `updateMetadata`: the checks before the write loop -/

theorem loadRoles_walkFails {env env' : Env} (h : env'.walkFails = env.walkFails) (fs : FS)
    (dir : String) : loadRoles env' fs dir = loadRoles env fs dir := by
  unfold loadRoles loadRoot listDir
  rw [h]

theorem updateMetadata_of_plan_error {config : configUpdate} {env : Env} {fs : FS} {e : Err}
    (h : updatePlan config env fs = .error e) :
    updateMetadata config env fs = (.error e, fs) := by
  unfold updateMetadata
  rw [h]

theorem verifyPrevious_error {l : Loaded}
    (hbad : VerifyDelegate l.root Root l.root ≠ .ok () ∨
      VerifyDelegate l.root Targets l.targets ≠ .ok () ∨
      VerifyDelegate l.root Snapshot l.snapshot ≠ .ok () ∨
      VerifyDelegate l.root Timestamp l.timestamp ≠ .ok ()) :
    verifyPrevious l = .error Err.inadequatePrior := by
  unfold verifyPrevious
  simp only [bind, Except.bind, orFail]
  cases h1 : VerifyDelegate l.root Root l.root with
  | error e => rfl
  | ok u1 =>
    cases h2 : VerifyDelegate l.root Targets l.targets with
    | error e => rfl
    | ok u2 =>
      cases h3 : VerifyDelegate l.root Snapshot l.snapshot with
      | error e => rfl
      | ok u3 =>
        cases h4 : VerifyDelegate l.root Timestamp l.timestamp with
        | error e => rfl
        | ok u4 =>
          rcases hbad with h | h | h | h
          · exact absurd h1 h
          · exact absurd h2 h
          · exact absurd h3 h
          · exact absurd h4 h

/-- C14: when the latest Root, Targets, Snapshot or Timestamp fails the
delegate check under the latest Root, `updateMetadata` returns the
inadequate-signatures error and the directory is unchanged; the outcome is
the same whatever the scan of the repository directory, the console input
and the key files are, so the error is returned before scanning, prompting
or signing. -/
theorem updateMetadata_inadequate_prior (config : configUpdate) (env : Env) (fs : FS)
    (l : Loaded)
    (hl : loadRoles env fs config.metadataDir = .ok l)
    (hbad : VerifyDelegate l.root Root l.root ≠ .ok () ∨
      VerifyDelegate l.root Targets l.targets ≠ .ok () ∨
      VerifyDelegate l.root Snapshot l.snapshot ≠ .ok () ∨
      VerifyDelegate l.root Timestamp l.timestamp ≠ .ok ()) :
    updateMetadata config env fs = (.error Err.inadequatePrior, fs) ∧
    ∀ env' : Env, env'.walkFails = env.walkFails →
      updateMetadata config env' fs = (.error Err.inadequatePrior, fs) := by
  have key : ∀ env' : Env, env'.walkFails = env.walkFails →
      updateMetadata config env' fs = (.error Err.inadequatePrior, fs) := by
    intro env' hw
    apply updateMetadata_of_plan_error
    unfold updatePlan
    simp only [bind, Except.bind, loadRoles_walkFails hw, hl, verifyPrevious_error hbad]
  exact ⟨key env rfl, key⟩

/-- Witness for C14: with the latest Snapshot of the worked scenario
unsigned, the update fails and leaves the directory as it was, also when the
scan fails, the operator would confirm and no key file exists. -/
theorem updateMetadata_inadequate_prior_witness :
    updateMetadata scenarioUpdate scenarioEnv unsignedSnapshotFS
      = (.error Err.inadequatePrior, unsignedSnapshotFS) ∧
    updateMetadata scenarioUpdate
      { scenarioEnv with scan := .error Err.io, answers := [true, true],
                         keyFiles := fun _ => KeyFile.missing } unsignedSnapshotFS
      = (.error Err.inadequatePrior, unsignedSnapshotFS) :=
  have h := updateMetadata_inadequate_prior scenarioUpdate scenarioEnv unsignedSnapshotFS
    { scenarioLoaded with snapshot := ClearSignatures scenarioSnapshot } (by decide)
    (Or.inr (Or.inr (Or.inl (by decide))))
  ⟨h.1, h.2 _ rfl⟩

/-- C15: for a key supplied to `updateMetadata` for Targets, Snapshot or
Timestamp (a non-empty key path whose file parses as a private key), if the
id of the key is not among the key ids the latest Root records for that
same role, `updateMetadata` returns an error and the directory is unchanged;
the key ids of the other roles play no part, so a key that is valid for a
different role is rejected as well. -/
theorem updateMetadata_invalid_key (config : configUpdate) (env : Env) (fs : FS) (l : Loaded)
    (name path : String) (k : PrivateKey)
    (hl : loadRoles env fs config.metadataDir = .ok l)
    (hname : (name, path) ∈ [ (Targets, config.targetsPrivkeyFilepath),
                               (Snapshot, config.snapshotPrivkeyFilepath),
                               (Timestamp, config.timestampPrivkeyFilepath) ])
    (hpath : path.length ≠ 0)
    (hk : readPrivateKey env path = .ok k)
    (hni : ∀ r, mapGet l.root.Signed.Roles name = some r → (KeyFromPublicKey k).ID ∉ r.KeyIDs) :
    ∃ e, updateMetadata config env fs = (.error e, fs) := by
  have hload : loadUpdateKey env path = .ok (some k) := by
    unfold loadUpdateKey
    rw [if_neg hpath, hk]
  have hcheck : checkUpdateKey l.root name (some k) ≠ .ok () := by
    unfold checkUpdateKey
    simp only
    cases hr : mapGet l.root.Signed.Roles name with
    | none => simp
    | some r =>
      simp only
      rw [if_neg (hni r hr)]
      simp
  cases hp : updatePlan config env fs with
  | error e => exact ⟨e, updateMetadata_of_plan_error hp⟩
  | ok r =>
    exfalso
    obtain ⟨l', newTargets, answers, hl', _, _, hs⟩ := updatePlan_ok hp
    rw [hl] at hl'
    cases hl'
    obtain ⟨tk, sk, mk, h1, h2, h3, c1, c2, c3, _, _⟩ := updateSign_ok hs
    simp only [List.mem_cons, Prod.mk.injEq, List.mem_singleton, List.not_mem_nil,
      or_false] at hname
    rcases hname with ⟨hn, hpa⟩ | ⟨hn, hpa⟩ | ⟨hn, hpa⟩
    · subst hn hpa
      rw [hload] at h1
      cases h1
      exact hcheck c1
    · subst hn hpa
      rw [hload] at h2
      cases h2
      exact hcheck c2
    · subst hn hpa
      rw [hload] at h3
      cases h3
      exact hcheck c3

/-- Witness for C15: in the worked scenario the snapshot key supplied as the
targets key is rejected and the directory is unchanged. -/
theorem updateMetadata_invalid_key_witness :
    (KeyFromPublicKey keySnapshot).ID ∈ ["K-snapshot"] ∧
    ∃ e, updateMetadata scenarioUpdateWrongKey scenarioEnv scenarioFS = (.error e, scenarioFS) :=
  ⟨by decide,
   updateMetadata_invalid_key scenarioUpdateWrongKey scenarioEnv scenarioFS scenarioLoaded
     Targets "keys/snapshot" keySnapshot (by decide) (by decide) (by decide) (by decide)
     (by
       intro r hr
       have h : mapGet scenarioLoaded.root.Signed.Roles Targets = some ⟨["K-targets"], 1⟩ := by
         decide
       rw [h] at hr
       cases hr
       decide)⟩

/-! ## The checks of the commands before the operation -/

/-- The check of the update command lets a combination of key paths through
exactly when no timestamp key comes without snapshot and targets keys and no
snapshot key comes without a targets key. -/
theorem updatePreflight_none_iff (config : configUpdate) :
    updatePreflight config = none ↔
      (config.timestampPrivkeyFilepath.length = 0 ∧ config.snapshotPrivkeyFilepath.length = 0) ∨
      (config.timestampPrivkeyFilepath.length = 0 ∧ config.targetsPrivkeyFilepath.length ≠ 0) ∨
      (config.snapshotPrivkeyFilepath.length ≠ 0 ∧ config.targetsPrivkeyFilepath.length ≠ 0) := by
  unfold updatePreflight
  split_ifs with h1 h2 h3 <;> simp <;> omega

/-- C16, evaluation: with all three key paths empty the check of the update
command prints nothing and `updateMetadata` is called; in the worked
scenario that run succeeds and writes `2.targets.json` and
`2.snapshot.json`. -/
theorem cmdUpdate_no_keys_accepted :
    updatePreflight scenarioUpdateNoKeys = none ∧
    (cmdUpdate scenarioUpdateNoKeys scenarioEnv scenarioFS).1
      = "Metadata files updated in dir: out/metadata\n" ++ UpdateSucceeded ++ "\n" ∧
    (cmdUpdate scenarioUpdateNoKeys scenarioEnv scenarioFS).2.map (fun e => e.1)
      = [ "out/metadata/1.root.json", "out/metadata/1.snapshot.json",
          "out/metadata/1.targets.json", "out/metadata/timestamp.json",
          "out/metadata/2.targets.json", "out/metadata/2.snapshot.json" ] := by
  decide

/-- C17: the init command goes on to `initRepo` exactly when each of the
four roles has a threshold of at least 1 and the number of `;`-separated
entries of its key-path flag equals the threshold; when the check fails the
command returns what the check printed, with the files as they were and no
directory created, and when it passes the outcome is that of `initRepo` on
the split key paths. -/
theorem cmdInit_preflight (config : configInit) :
    ((∃ m, initPreflight (initThresholds config) (initKeyFilepaths config) getRoles [] = .ok m) ↔
      (1 ≤ config.rootThreshhold ∧
        (Split ';' config.rootPrivkeyFilepathsRaw.data).length = config.rootThreshhold) ∧
      (1 ≤ config.targetsThreshold ∧
        (Split ';' config.targetsPrivkeyFilepathsRaw.data).length = config.targetsThreshold) ∧
      (1 ≤ config.snapshotThreshold ∧
        (Split ';' config.snapshotPrivkeyFilepathsRaw.data).length = config.snapshotThreshold) ∧
      (1 ≤ config.timestampThreshold ∧
        (Split ';' config.timestampPrivkeyFilepathsRaw.data).length
          = config.timestampThreshold)) ∧
    (∀ out, initPreflight (initThresholds config) (initKeyFilepaths config) getRoles []
        = .error out →
      ∀ env fs, cmdInit config env fs = (out, fs, [])) ∧
    (∀ m, initPreflight (initThresholds config) (initKeyFilepaths config) getRoles [] = .ok m →
      ∀ env fs, cmdInit config env fs =
        (report (initRepo { config with rolesPrivkeyFilepaths := m } env fs).1 InitFailed
            InitSucceeded ("Metadata files written to: " ++ config.outputDir ++ "\n"),
          (initRepo { config with rolesPrivkeyFilepaths := m } env fs).2.1,
          (initRepo { config with rolesPrivkeyFilepaths := m } env fs).2.2)) := by
  refine ⟨?_, ?_, ?_⟩
  · simp only [initPreflight, getRoles, initThresholds, initKeyFilepaths, mapGet, Root, Targets,
      Snapshot, Timestamp, List.length_map]
    simp only [show ("targets" = "root") = False from by decide,
      show ("snapshot" = "root") = False from by decide,
      show ("timestamp" = "root") = False from by decide,
      show ("root" = "targets") = False from by decide,
      show ("root" = "snapshot") = False from by decide,
      show ("root" = "timestamp") = False from by decide,
      show ("targets" = "snapshot") = False from by decide,
      show ("snapshot" = "targets") = False from by decide,
      show ("targets" = "timestamp") = False from by decide,
      show ("timestamp" = "targets") = False from by decide,
      show ("snapshot" = "timestamp") = False from by decide,
      show ("timestamp" = "snapshot") = False from by decide,
      if_true, if_false, Option.getD_some]
    split_ifs <;> simp <;> omega
  · intro out h env fs
    unfold cmdInit
    rw [h]
  · intro m h env fs
    unfold cmdInit
    rw [h]

/-- Witness for C17: the initialisation of the worked scenario passes the
check, and with a root threshold of 0 it is rejected with nothing created. -/
theorem cmdInit_preflight_witness :
    (∃ m, initPreflight (initThresholds scenarioInit) (initKeyFilepaths scenarioInit) getRoles []
      = .ok m) ∧
    cmdInit scenarioInitZero scenarioEnv []
      = ("Threshold must be greater than 0 for role: root\n", [], []) :=
  ⟨(cmdInit_preflight scenarioInit).1.mpr (by decide),
   (cmdInit_preflight scenarioInitZero).2.1 _ (by decide) scenarioEnv []⟩

/-! ## Write loops and their rollback -/

/-- C18, evaluation: `initRepo` into an output directory that holds
`notes.txt`, with the second write (`1.snapshot.json`) failing after
`1.targets.json` was written: the path recorded for the first write is the
output directory itself, so the rollback removes `notes.txt` together with
`1.targets.json`; only the file outside the output directory is left. -/
theorem initRepo_rollback_removes_output_dir :
    failFirstSnapshotEnv.writeFails "out/metadata/1.targets.json" = false ∧
    mapGet notesFS "out/metadata/notes.txt" = some Content.other ∧
    (initRepo scenarioInitRepo failFirstSnapshotEnv notesFS).1 = .error Err.write ∧
    mapGet (initRepo scenarioInitRepo failFirstSnapshotEnv notesFS).2.1
      "out/metadata/notes.txt" = none ∧
    (initRepo scenarioInitRepo failFirstSnapshotEnv notesFS).2.1
      = [("elsewhere/readme.txt", Content.other)] := by
  decide

theorem mapGet_cons {β : Type} (k : String) (v : β) (rest : List (String × β)) (q : String) :
    mapGet ((k, v) :: rest) q = if k = q then some v else mapGet rest q := rfl

theorem checkRole_spec {T : Type} [RolePayload T] (now : Int) (root : Metadata RootType)
    (name : String) (m : Metadata T) (expires : Int) (entry : verResult)
    (hv : entry.valid = true) (he : entry.errorMessages = []) :
    ((checkRole now root name m expires entry).valid = false ↔
      (checkRole now root name m expires entry).errorMessages ≠ []) ∧
    (roleFails now root name m expires →
      (checkRole now root name m expires entry).errorMessages.length > 0) := by
  unfold checkRole roleFails IsExpired
  cases hd : VerifyDelegate root name m with
  | error e =>
    simp only [he, List.nil_append]
    split_ifs <;> simp
  | ok u =>
    simp only
    by_cases hx : expires < now
    · simp [hx, he]
    · simp [hx, hv, he]

theorem loadAttribute_ok {l : Loaded} {name filepath : String} {expires : Int}
    {entry : verResult} (h : loadAttribute l name filepath expires = .ok entry) :
    entry.valid = true ∧ entry.errorMessages = [] := by
  unfold loadAttribute at h
  split at h
  · cases h
  · cases h
    exact ⟨rfl, rfl⟩

theorem verifyReport_ok {env : Env} {l : Loaded} {report : List (String × verResult)}
    (h : verifyReport env l = .ok report) :
    ∃ lastRoot rootEntry targetsEntry snapshotEntry timestampEntry,
      loadAttribute l Root lastRoot l.root.Signed.Expires = .ok rootEntry ∧
      loadAttribute l Targets l.targetsPath l.targets.Signed.Expires = .ok targetsEntry ∧
      loadAttribute l Snapshot l.snapshotPath l.snapshot.Signed.Expires = .ok snapshotEntry ∧
      loadAttribute l Timestamp l.timestampPath l.timestamp.Signed.Expires
        = .ok timestampEntry ∧
      report =
        [ (Root, checkRole env.now l.root Root l.root l.root.Signed.Expires rootEntry),
          (Timestamp, checkRole env.now l.root Timestamp l.timestamp l.timestamp.Signed.Expires
            timestampEntry),
          (Snapshot, checkRole env.now l.root Snapshot l.snapshot l.snapshot.Signed.Expires
            snapshotEntry),
          (Targets, checkRole env.now l.root Targets l.targets l.targets.Signed.Expires
            targetsEntry) ] := by
  unfold verifyReport at h
  simp only [bind, Except.bind, pure, Except.pure] at h
  cases h0 : lastElem l.rootFilepaths with
  | error e => simp [h0] at h
  | ok lastRoot =>
  cases h1 : loadAttribute l Root lastRoot l.root.Signed.Expires with
  | error e => simp [h0, h1] at h
  | ok rootEntry =>
  cases h2 : loadAttribute l Targets l.targetsPath l.targets.Signed.Expires with
  | error e => simp [h0, h1, h2] at h
  | ok targetsEntry =>
  cases h3 : loadAttribute l Snapshot l.snapshotPath l.snapshot.Signed.Expires with
  | error e => simp [h0, h1, h2, h3] at h
  | ok snapshotEntry =>
  cases h4 : loadAttribute l Timestamp l.timestampPath l.timestamp.Signed.Expires with
  | error e => simp [h0, h1, h2, h3, h4] at h
  | ok timestampEntry =>
  simp only [h0, h1, h2, h3, h4, Except.ok.injEq] at h
  exact ⟨lastRoot, rootEntry, targetsEntry, snapshotEntry, timestampEntry, h1, rfl, rfl, rfl,
    h.symm⟩

theorem verifyReport_error {env : Env} {fs : FS} {dir : String} {l : Loaded} {e : Err}
    (hl : loadRoles env fs dir = .ok l) (h : verifyReport env l = .error e) :
    ∃ name ∈ getRoles, mapGet l.root.Signed.Roles name = none := by
  obtain ⟨_, _, _, hroot, _⟩ := loadRoles_ok hl
  obtain ⟨_, last, hlast, _⟩ := loadRoot_ok hroot
  have h0 : lastElem l.rootFilepaths = .ok last := by
    unfold lastElem
    rw [hlast]
  by_contra hno
  simp only [getRoles, List.mem_cons, List.mem_singleton, List.not_mem_nil, or_false,
    exists_eq_or_imp, exists_eq_left, not_or] at hno
  obtain ⟨n1, n2, n3, n4⟩ := hno
  obtain ⟨r1, hr1⟩ := Option.ne_none_iff_exists'.mp n1
  obtain ⟨r2, hr2⟩ := Option.ne_none_iff_exists'.mp n2
  obtain ⟨r3, hr3⟩ := Option.ne_none_iff_exists'.mp n3
  obtain ⟨r4, hr4⟩ := Option.ne_none_iff_exists'.mp n4
  unfold verifyReport at h
  simp [bind, Except.bind, pure, Except.pure, h0, loadAttribute, hr1, hr2, hr3, hr4] at h

/-- C20, counterexample: in the worked scenario every document expires at
day 365; at that very instant the expiry of no document is strictly after
the clock, and `verifyMetadata` succeeds. -/
theorem verifyMetadata_at_expiry_succeeds :
    verifyMetadata scenarioVerify lateEnv scenarioFS = .ok () ∧
    loadRoles lateEnv scenarioFS scenarioVerify.metadataDir = .ok scenarioLoaded ∧
    ¬ lateEnv.now < scenarioLoaded.root.Signed.Expires ∧
    ¬ lateEnv.now < scenarioLoaded.timestamp.Signed.Expires ∧
    ¬ lateEnv.now < scenarioLoaded.snapshot.Signed.Expires ∧
    ¬ lateEnv.now < scenarioLoaded.targets.Signed.Expires := by
  decide

/-- C20, amended: with the latest documents loaded, the report of
`verifyMetadata` lists the checks in the order Root, Timestamp, Snapshot,
Targets, and in every row the valid flag is false exactly when the error
list is not empty; and whenever one of the four documents fails its delegate
check under the latest Root or has an expiry that is strictly before the
clock, `verifyMetadata` does not succeed: it returns the error of the report
or of the scan of the repository directory, provided the latest Root has an
entry for each of the four roles (without such an entry the run ends
abnormally). -/
theorem verifyMetadata_reports_failures (config : configVerify) (env : Env) (fs : FS)
    (l : Loaded) (hl : loadRoles env fs config.metadataDir = .ok l) :
    (∀ report, verifyReport env l = .ok report →
      report.map (fun row => row.1) = [Root, Timestamp, Snapshot, Targets] ∧
      ∀ row ∈ report, (row.2.valid = false ↔ row.2.errorMessages ≠ [])) ∧
    (roleFails env.now l.root Root l.root l.root.Signed.Expires ∨
      roleFails env.now l.root Timestamp l.timestamp l.timestamp.Signed.Expires ∨
      roleFails env.now l.root Snapshot l.snapshot l.snapshot.Signed.Expires ∨
      roleFails env.now l.root Targets l.targets l.targets.Signed.Expires →
      ∃ e, verifyMetadata config env fs = .error e ∧
        ((∀ name ∈ getRoles, mapGet l.root.Signed.Roles name ≠ none) →
          e = Err.reported ∨ e = Err.scan)) := by
  constructor
  · intro report hr
    obtain ⟨lastRoot, e1, e2, e3, e4, h1, h2, h3, h4, hrep⟩ := verifyReport_ok hr
    subst hrep
    refine ⟨rfl, ?_⟩
    intro row hrow
    simp only [List.mem_cons, List.mem_singleton, List.not_mem_nil, or_false] at hrow
    rcases hrow with h | h | h | h <;> subst h
    · exact (checkRole_spec _ _ _ _ _ _ (loadAttribute_ok h1).1 (loadAttribute_ok h1).2).1
    · exact (checkRole_spec _ _ _ _ _ _ (loadAttribute_ok h4).1 (loadAttribute_ok h4).2).1
    · exact (checkRole_spec _ _ _ _ _ _ (loadAttribute_ok h3).1 (loadAttribute_ok h3).2).1
    · exact (checkRole_spec _ _ _ _ _ _ (loadAttribute_ok h2).1 (loadAttribute_ok h2).2).1
  · intro hbad
    cases hr : verifyReport env l with
    | error e =>
      refine ⟨e, ?_, ?_⟩
      · unfold verifyMetadata
        simp only [bind, Except.bind, hl, hr]
      · intro hall
        obtain ⟨name, hname, hnone⟩ := verifyReport_error hl hr
        exact absurd hnone (hall name hname)
    | ok report =>
      obtain ⟨lastRoot, e1, e2, e3, e4, h1, h2, h3, h4, hrep⟩ := verifyReport_ok hr
      have hany : report.any (fun row => decide (row.2.errorMessages.length > 0)) = true := by
        subst hrep
        simp only [List.any_cons, List.any_nil, Bool.or_false, Bool.or_eq_true,
          decide_eq_true_eq]
        rcases hbad with h | h | h | h
        · exact Or.inl
            ((checkRole_spec _ _ _ _ _ _ (loadAttribute_ok h1).1 (loadAttribute_ok h1).2).2 h)
        · exact Or.inr (Or.inl
            ((checkRole_spec _ _ _ _ _ _ (loadAttribute_ok h4).1 (loadAttribute_ok h4).2).2 h))
        · exact Or.inr (Or.inr (Or.inl
            ((checkRole_spec _ _ _ _ _ _ (loadAttribute_ok h3).1 (loadAttribute_ok h3).2).2 h)))
        · exact Or.inr (Or.inr (Or.inr
            ((checkRole_spec _ _ _ _ _ _ (loadAttribute_ok h2).1 (loadAttribute_ok h2).2).2 h)))
      cases hg : GenerateNewTargetsFromDir env (ExpireIn env.now 1000) with
      | error e =>
        refine ⟨e, ?_, ?_⟩
        · unfold verifyMetadata
          simp only [bind, Except.bind, hl, hr, hg]
        · intro _
          right
          unfold GenerateNewTargetsFromDir at hg
          split at hg
          · cases hg
            rfl
          · cases hg
      | ok nt =>
        refine ⟨Err.reported, ?_, fun _ => Or.inl rfl⟩
        unfold verifyMetadata
        simp only [bind, Except.bind, hl, hr, hg, hany, if_true]

/-- Witness for C20 (amended): on the day after the expiry of the documents
of the worked scenario every document has expired, and `verifyMetadata`
returns the error of the report. -/
theorem verifyMetadata_reports_failures_witness :
    verifyMetadata scenarioVerify expiredEnv scenarioFS = .error Err.reported ∧
    ∃ e, verifyMetadata scenarioVerify expiredEnv scenarioFS = .error e ∧
      ((∀ name ∈ getRoles, mapGet scenarioLoaded.root.Signed.Roles name ≠ none) →
        e = Err.reported ∨ e = Err.scan) :=
  ⟨by decide,
   (verifyMetadata_reports_failures scenarioVerify expiredEnv scenarioFS scenarioLoaded
      (by decide)).2 (Or.inl (Or.inr (by decide)))⟩

/-! ## Evaluations of the directory listing, the prompts and the commands -/

/-- C21, evaluation: for the input directory `repo/data/repo` and the file
`repo/data/repo/f.txt` found under it, the local path returned is the whole
path, cut at the first path element named `repo`, and not `repo/f.txt`, the
trailing directory name joined with the path relative to the directory; and
for the input directory `.` the visited files `f.txt` and `sub/g.txt` are
left out, no path element being equal to `.`. -/
theorem GetAllFilepathsInDir_first_match :
    GetAllFilepathsInDir "repo/data/repo" (.ok ["repo/data/repo/f.txt"])
      = .ok [("repo/data/repo/f.txt", "repo/data/repo/f.txt")] ∧
    lastPathElem (Clean "repo/data/repo".data) = "repo".data ∧
    ("repo/data/repo/f.txt" : String) ≠ Join "repo" "f.txt" ∧
    GetAllFilepathsInDir "." (.ok ["f.txt", "sub/g.txt"]) = .ok [] := by
  decide

/-- The property of `GetAllFilepathsInDir` that holds for every input: the
full paths returned are, in order, the visited files that have a path
element equal to the trailing directory name, each with the local path that
starts at the first such element. -/
theorem GetAllFilepathsInDir_spec (path : String) (fulls : List String) :
    ∃ listing, GetAllFilepathsInDir path (.ok fulls) = .ok listing ∧
      listing.map (fun e => e.2)
        = fulls.filter (fun full =>
            (fromRoot (lastPathElem (Clean path.data)) (Split PathSeparator full.data)).isSome) ∧
      ∀ e ∈ listing, ∃ parts,
        fromRoot (lastPathElem (Clean path.data)) (Split PathSeparator e.2.data) = some parts ∧
        e.1 = String.mk (List.intercalate [PathSeparator] parts) := by
  refine ⟨_, rfl, ?_, ?_⟩
  · induction fulls with
    | nil => rfl
    | cons full rest ih =>
      simp only [List.filterMap_cons, List.filter_cons]
      cases h : fromRoot (lastPathElem (Clean path.data)) (Split PathSeparator full.data) with
      | none => simpa using ih
      | some parts => simpa using ih
  · intro e he
    simp only [List.mem_filterMap] at he
    obtain ⟨full, _, hfull⟩ := he
    cases h : fromRoot (lastPathElem (Clean path.data)) (Split PathSeparator full.data) with
    | none => simp [h] at hfull
    | some parts =>
      simp only [h, Option.some.injEq] at hfull
      subst hfull
      exact ⟨parts, h, rfl⟩

/-- C23, evaluation: `signMetadata` for a Targets document that needs two
signatures and gets its first one asks for confirmation; when the operator
declines it returns success with the directory unchanged and the sign
command prints its success lines, whereas with an operator who confirms the
file is rewritten. `updateMetadata` with a declining operator returns an
error and leaves the directory unchanged. -/
theorem signMetadata_declined_returns_success :
    signMetadata scenarioSignFirst decliningEnv shortOfThresholdFS
      = (.ok (), shortOfThresholdFS) ∧
    (cmdSign scenarioSignFirst decliningEnv shortOfThresholdFS).1
      = "Metadata file for role targets updated in dir: out/metadata\n" ++ SignSucceeded ++
          "\n" ∧
    (signMetadata scenarioSignFirst confirmingEnv shortOfThresholdFS).1 = .ok () ∧
    (signMetadata scenarioSignFirst confirmingEnv shortOfThresholdFS).2 ≠ shortOfThresholdFS ∧
    updateMetadata scenarioUpdateAsk decliningEnv scenarioFS
      = (.error Err.notConfirmed, scenarioFS) := by
  decide

/-- The fourteen banners are pairwise distinct. -/
theorem banners_nodup : banners.Nodup := by
  decide

/-- C25, evaluation: the init command with a root threshold of 0 is
rejected by its validation and the only line it writes to the command's
output is the hint about the threshold; no failure banner follows. -/
theorem cmdInit_threshold_zero_no_banner :
    (cmdInit scenarioInitZero scenarioEnv []).1
      = "Threshold must be greater than 0 for role: root\n" ∧
    lastLine (cmdInit scenarioInitZero scenarioEnv []).1
      = "Threshold must be greater than 0 for role: root" ∧
    lastLine (cmdInit scenarioInitZero scenarioEnv []).1 ≠ InitFailed ∧
    lastLine (cmdInit scenarioInitTwo scenarioEnv []).1 = InitSucceeded := by
  decide

/-- C27, evaluation: in the worked scenario, whose only root key id is
`K-root`, an `add` of the second key signed by that same second key
succeeds and writes `2.root.json` with both key ids; the id of the signing
key is not among the root key ids of the loaded Root. -/
theorem changeRootKey_add_self_signed :
    readPrivateKey scenarioEnv scenarioRootKeyAddSelf.privkeyFilepath = .ok keyRootTwo ∧
    rootRoleAt scenarioFS "out/metadata/1.root.json"
      = some { KeyIDs := ["K-root"], Threshold := 1 } ∧
    (KeyFromPublicKey keyRootTwo).ID ∉ ["K-root"] ∧
    (changeRootKey scenarioRootKeyAddSelf scenarioEnv scenarioFS).1 = .ok () ∧
    rootRoleAt (changeRootKey scenarioRootKeyAddSelf scenarioEnv scenarioFS).2
      "out/metadata/2.root.json" = some { KeyIDs := ["K-root", "K-root-2"], Threshold := 2 } := by
  decide

/-- C29, evaluation: the change-threshold command with action `add` and the
role name `foo` passes the checks of the command; the loaded Root has no
entry for `foo`, and `changeThreshold` ends in the panic of the missing
entry, so the command prints neither banner. -/
theorem changeThreshold_unknown_role_panics :
    changeThresholdPreflight scenarioAddUnknownRole = none ∧
    mapGet scenarioRoot.Signed.Roles scenarioAddUnknownRole.role = none ∧
    changeThreshold scenarioAddUnknownRole scenarioEnv scenarioFS
      = (.error Err.panic, scenarioFS) ∧
    (cmdChangeThreshold scenarioAddUnknownRole "" scenarioEnv scenarioFS).1
      = "Running change-threshold command...\nChanging signature threshold of role: ...\n" := by
  decide

/-- C30, evaluation: for the same two file names, `1.root.json` and
`1.targets.json`, the files selected for the role `root` are `1.root.json`
alone in a directory named `metadata`, and both files in a directory named
`root`; with `timestamp.json` as a third file the call for the directory
named `root` ends in the panic of the sort comparator. -/
theorem GetRoleMetadataFilepathsFromDir_directory_name :
    GetRoleMetadataFilepathsFromDir
      (GetAllFilepathsInDir "out/metadata"
        (.ok ["out/metadata/1.root.json", "out/metadata/1.targets.json"])) Root
      = .ok ["out/metadata/1.root.json"] ∧
    GetRoleMetadataFilepathsFromDir
      (GetAllFilepathsInDir "out/root" (.ok ["out/root/1.root.json", "out/root/1.targets.json"]))
      Root
      = .ok ["out/root/1.root.json", "out/root/1.targets.json"] ∧
    GetRoleMetadataFilepathsFromDir
      (GetAllFilepathsInDir "out/root"
        (.ok ["out/root/1.root.json", "out/root/1.targets.json", "out/root/timestamp.json"]))
      Root
      = .error Err.panic := by
  decide

/-! ## `changeThreshold`: threshold and number of key ids -/

theorem length_filter_ne_of_nodup (k : String) :
    ∀ l : List String, l.Nodup → k ∈ l →
      (l.filter (fun x => decide (x ≠ k))).length + 1 = l.length := by
  intro l
  induction l with
  | nil =>
    intro _ h
    cases h
  | cons a rest ih =>
    intro hnd hmem
    rw [List.nodup_cons] at hnd
    by_cases ha : a = k
    · subst ha
      have hfil : (rest.filter (fun x => decide (x ≠ a))) = rest := by
        rw [List.filter_eq_self]
        intro x hx
        simp only [ne_eq, decide_not, Bool.not_eq_true', decide_eq_false_iff_not]
        intro hxa
        subst hxa
        exact hnd.1 hx
      have hcons : (a :: rest).filter (fun x => decide (x ≠ a))
          = rest.filter (fun x => decide (x ≠ a)) :=
        @List.filter_cons_of_neg String (fun x => decide (x ≠ a)) a rest (by simp)
      rw [hcons, hfil]
      rfl
    · have hk : k ∈ rest := by
        rcases List.mem_cons.mp hmem with h | h
        · exact absurd h.symm ha
        · exact h
      have hcons : (a :: rest).filter (fun x => decide (x ≠ k))
          = a :: rest.filter (fun x => decide (x ≠ k)) :=
        @List.filter_cons_of_pos String (fun x => decide (x ≠ k)) a rest (by simp [ha])
      rw [hcons, List.length_cons, List.length_cons, ih hnd.2 hk]

/-- C28: from a loaded Root in which the role has a threshold between 1 and
the number of its key ids and no repeated key id, every Root written by a
successful `changeThreshold` with action `add` or `reduce` has, for that
role, again a threshold between 1 and the number of key ids and no repeated
key id (the incremented threshold staying in the `int` range). -/
theorem changeThreshold_preserves_bound (config : configChangeThreshold) (env : Env) (fs : FS)
    (rootFilepaths : List String) (root : Metadata RootType) (r : Role)
    (hr : loadRoot env fs config.metadataDir = .ok (rootFilepaths, root))
    (hrole : mapGet root.Signed.Roles config.role = some r)
    (hact : config.action = ChangeThresholdActionAdd ∨
      config.action = ChangeThresholdActionReduce)
    (hlow : 1 ≤ r.Threshold) (hup : r.Threshold ≤ r.KeyIDs.length) (hnodup : r.KeyIDs.Nodup)
    (hint : isInt64 (r.Threshold + 1)) :
    ∀ fs', changeThreshold config env fs = (.ok (), fs') →
      ∃ (newRoot : Metadata RootType) (r' : Role),
        fs' = mapSet fs (Join config.metadataDir (versionedName newRoot.Signed.Version Root))
          (Content.root newRoot) ∧
        mapGet newRoot.Signed.Roles config.role = some r' ∧
        1 ≤ r'.Threshold ∧ r'.Threshold ≤ r'.KeyIDs.length ∧ r'.KeyIDs.Nodup := by
  intro fs' h
  obtain ⟨newRoot, hp, hfs⟩ := changeThreshold_ok h
  obtain ⟨rootPrivkey, k, rootFilepaths', root', signed, _, _, hr', _, ha, hre, _⟩ :=
    changeThresholdPlan_ok hp
  rw [hr] at hr'
  cases hr'
  obtain ⟨hsigned, _, _⟩ := reissueRoot_ok hre
  have hint' : isInt64 (r.Threshold - 1) := by
    unfold isInt64 at hint ⊢
    omega
  rcases hact with hadd | hred
  · rw [applyThresholdAction_add hadd hrole] at ha
    split at ha
    · cases ha
    · rename_i hni
      cases ha
      refine ⟨newRoot, { KeyIDs := r.KeyIDs ++ [k.ID], Threshold := r.Threshold + 1 }, hfs, ?_,
        ?_, ?_, ?_⟩
      · rw [hsigned]
        simp only
        rw [mapGet_mapSet_same, wrapInt64_of_isInt64 hint]
      · simp only
        omega
      · simp only [List.length_append, List.length_singleton, Nat.cast_add, Nat.cast_one]
        omega
      · simp only
        rw [List.nodup_append]
        refine ⟨hnodup, List.nodup_singleton _, ?_⟩
        intro x hx hx'
        rw [List.mem_singleton] at hx'
        subst hx'
        exact hni hx
  · rw [applyThresholdAction_reduce hred hrole] at ha
    split at ha
    · cases ha
    · rename_i hnz
      split at ha
      · cases ha
      · rename_i hmem
        cases ha
        have hmem' : k.ID ∈ r.KeyIDs := not_not.mp hmem
        have hlen := length_filter_ne_of_nodup k.ID r.KeyIDs hnodup hmem'
        rw [wrapInt64_of_isInt64 hint'] at hnz
        refine ⟨newRoot, { KeyIDs := r.KeyIDs.filter (fun x => decide (x ≠ k.ID)),
                           Threshold := r.Threshold - 1 }, hfs, ?_, ?_, ?_, ?_⟩
        · rw [hsigned]
          simp only
          rw [mapGet_mapSet_same, wrapInt64_of_isInt64 hint']
        · simp only
          omega
        · simp only
          have : (r.KeyIDs.length : Int)
              = ((r.KeyIDs.filter (fun x => decide (x ≠ k.ID))).length : Int) + 1 := by
            exact_mod_cast hlen.symm
          omega
        · simp only
          exact hnodup.filter _

/-- Witness for C28: adding the snapshot key to the Targets role of the
worked scenario (one key, threshold 1) writes a Root whose Targets role has
threshold 2 and two distinct key ids. -/
theorem changeThreshold_preserves_bound_witness :
    ∃ (newRoot : Metadata RootType) (r' : Role),
      (changeThreshold scenarioAdd scenarioEnv scenarioFS).2
        = mapSet scenarioFS (Join "out/metadata" (versionedName newRoot.Signed.Version Root))
            (Content.root newRoot) ∧
      mapGet newRoot.Signed.Roles "targets" = some r' ∧
      1 ≤ r'.Threshold ∧ r'.Threshold ≤ r'.KeyIDs.length ∧ r'.KeyIDs.Nodup :=
  changeThreshold_preserves_bound scenarioAdd scenarioEnv scenarioFS
    ["out/metadata/1.root.json"] scenarioRoot ⟨["K-targets"], 1⟩ (by decide) (by decide)
    (Or.inl (by decide)) (by decide) (by decide) (by decide) (by decide)
    (changeThreshold scenarioAdd scenarioEnv scenarioFS).2 (by decide)

/-! ## `AskConfirmation` -/

theorem isYes_not_isNo {s : String} (h : isYes s) : ¬ isNo s := by
  unfold isYes at h
  unfold isNo
  rcases h with h | h <;> rw [h] <;> decide

theorem askConfirmation_spec (n : Int) (hint : isInt64 n) :
    ∀ (responses : List (Option String)) (c : Int), 0 ≤ c → c < n →
      (∃ k : Nat, c + (k : Int) ≤ n ∧
        (cli.askConfirmation n c responses).2 = responses.drop k) ∧
      ((cli.askConfirmation n c responses).1 = true ↔
        ∃ i : Nat, c + (i : Int) < n ∧ ∃ s, responses[i]? = some (some s) ∧ isYes s ∧
          ∀ j < i, ∃ t, responses[j]? = some (some t) ∧ ¬ isYes t ∧ ¬ isNo t) := by
  intro responses
  induction responses with
  | nil =>
    intro c hc hcn
    refine ⟨⟨0, by omega, rfl⟩, ?_⟩
    simp [cli.askConfirmation]
  | cons r rest ih =>
    intro c hc hcn
    cases r with
    | none =>
      refine ⟨⟨1, by omega, rfl⟩, ?_⟩
      simp only [cli.askConfirmation, Bool.false_eq_true, false_iff, not_exists, not_and]
      intro i _ s hs
      cases i with
      | zero => simp at hs
      | succ i =>
        intro _ hall
        obtain ⟨t, ht, _⟩ := hall 0 (Nat.succ_pos i)
        simp at ht
    | some r =>
      by_cases hy : isYes r
      · refine ⟨⟨1, by omega, ?_⟩, ?_⟩
        · unfold cli.askConfirmation
          unfold isYes at hy
          rw [if_pos hy]
          rfl
        · have : (cli.askConfirmation n c (some r :: rest)).1 = true := by
            unfold cli.askConfirmation
            unfold isYes at hy
            rw [if_pos hy]
          rw [this]
          simp only [true_iff]
          refine ⟨0, by omega, r, by simp, hy, ?_⟩
          intro j hj
          omega
      · by_cases hno : isNo r
        · have hres : cli.askConfirmation n c (some r :: rest) = (false, rest) := by
            unfold cli.askConfirmation
            unfold isYes at hy
            unfold isNo at hno
            rw [if_neg hy, if_pos hno]
          rw [hres]
          refine ⟨⟨1, by omega, rfl⟩, ?_⟩
          simp only [Bool.false_eq_true, false_iff, not_exists, not_and]
          intro i _ s hs
          cases i with
          | zero =>
            simp only [List.getElem?_cons_zero, Option.some.injEq] at hs
            subst hs
            intro hys
            exact absurd hys hy
          | succ i =>
            intro _ hall
            obtain ⟨t, ht, _, htn⟩ := hall 0 (Nat.succ_pos i)
            simp only [List.getElem?_cons_zero, Option.some.injEq] at ht
            subst ht
            exact htn hno
        · have hw : wrapInt64 (c + 1) = c + 1 := by
            apply wrapInt64_of_isInt64
            unfold isInt64 at hint ⊢
            omega
          by_cases hlast : c + 1 = n
          · have hres : cli.askConfirmation n c (some r :: rest) = (false, rest) := by
              unfold cli.askConfirmation
              unfold isYes at hy
              unfold isNo at hno
              rw [if_neg hy, if_neg hno, hw, if_pos hlast]
            rw [hres]
            refine ⟨⟨1, by omega, rfl⟩, ?_⟩
            simp only [Bool.false_eq_true, false_iff, not_exists, not_and]
            intro i hi s hs
            cases i with
            | zero =>
              simp only [List.getElem?_cons_zero, Option.some.injEq] at hs
              subst hs
              intro hys
              exact absurd hys hy
            | succ i =>
              push_cast at hi
              omega
          · have hres : cli.askConfirmation n c (some r :: rest)
                = cli.askConfirmation n (c + 1) rest := by
              conv_lhs => unfold cli.askConfirmation
              unfold isYes at hy
              unfold isNo at hno
              rw [if_neg hy, if_neg hno, hw, if_neg hlast]
            rw [hres]
            obtain ⟨⟨k, hk, hdrop⟩, hiff⟩ := ih (c + 1) (by omega) (by omega)
            refine ⟨⟨k + 1, by push_cast; omega, ?_⟩, ?_⟩
            · rw [hdrop]
              rfl
            · rw [hiff]
              constructor
              · rintro ⟨i, hi, s, hs, hys, hall⟩
                refine ⟨i + 1, by push_cast; omega, s, ?_, hys, ?_⟩
                · simpa using hs
                · intro j hj
                  cases j with
                  | zero => exact ⟨r, by simp, hy, hno⟩
                  | succ j =>
                    obtain ⟨t, ht, htt⟩ := hall j (by omega)
                    exact ⟨t, by simpa using ht, htt⟩
              · rintro ⟨i, hi, s, hs, hys, hall⟩
                cases i with
                | zero =>
                  simp only [List.getElem?_cons_zero, Option.some.injEq] at hs
                  subst hs
                  exact absurd hys hy
                | succ i =>
                  refine ⟨i, by push_cast at hi; omega, s, by simpa using hs, hys, ?_⟩
                  intro j hj
                  obtain ⟨t, ht, htt⟩ := hall (j + 1) (by omega)
                  exact ⟨t, by simpa using ht, htt⟩

/-- C24: for every `n ≥ 1` and every console input, `AskConfirmation(n)`
returns after reading at most `n` responses (what is left of the input is
the input without its first `k` lines, `k ≤ n`), and it returns true exactly
when one of the first `n` responses is `y` or `yes`, ignoring case, and
every response before it was read and is none of `y`, `yes`, `n`, `no`. So a
read error, a `n` or `no`, and `n` unrecognised responses in a row all
return false. -/
theorem AskConfirmation_spec (n : Int) (hn : 1 ≤ n) (hint : isInt64 n)
    (responses : List (Option String)) :
    (∃ k : Nat, (k : Int) ≤ n ∧ (cli.AskConfirmation n responses).2 = responses.drop k) ∧
    ((cli.AskConfirmation n responses).1 = true ↔
      ∃ i : Nat, (i : Int) < n ∧ ∃ s, responses[i]? = some (some s) ∧ isYes s ∧
        ∀ j < i, ∃ t, responses[j]? = some (some t) ∧ ¬ isYes t ∧ ¬ isNo t) := by
  have h := askConfirmation_spec n hint responses 0 (le_refl 0) (by omega)
  simp only [zero_add] at h
  exact h

/-- Witness for C24: with `n = 3` a `YES` given as the third response is
honoured and the fourth line is left unread; after three unrecognised
responses the answer is false and the fourth line is left unread; a read
error returns false at once. -/
theorem AskConfirmation_spec_witness :
    cli.AskConfirmation 3 [some "x", some "maybe", some "YES", some "no"]
      = (true, [some "no"]) ∧
    cli.AskConfirmation 3 [some "x", some "maybe", some "zz", some "yes"]
      = (false, [some "yes"]) ∧
    cli.AskConfirmation 3 [none, some "yes"] = (false, [some "yes"]) ∧
    ((cli.AskConfirmation 3 [some "x", some "maybe", some "YES", some "no"]).1 = true ↔
      ∃ i : Nat, (i : Int) < 3 ∧ ∃ s,
        [some "x", some "maybe", some "YES", some "no"][i]? = some (some s) ∧ isYes s ∧
        ∀ j < i, ∃ t, [some "x", some "maybe", some "YES", some "no"][j]? = some (some t) ∧
          ¬ isYes t ∧ ¬ isNo t) :=
  ⟨by decide, by decide, by decide,
   (AskConfirmation_spec 3 (by decide) (by decide)
      [some "x", some "maybe", some "YES", some "no"]).2⟩

/-! ## File semaphores -/

theorem mapGet_mapDelete_same {β : Type} (m : List (String × β)) (k : String) :
    mapGet (mapDelete m k) k = none := by
  induction m with
  | nil => rfl
  | cons e rest ih =>
    obtain ⟨k', v⟩ := e
    unfold mapDelete at ih ⊢
    by_cases hk : k' = k
    · rw [@List.filter_cons_of_neg (String × β) (fun e => decide (e.1 ≠ k)) (k', v) rest
        (by simp [hk])]
      exact ih
    · rw [@List.filter_cons_of_pos (String × β) (fun e => decide (e.1 ≠ k)) (k', v) rest
        (by simp [hk])]
      rw [mapGet_cons, if_neg hk]
      exact ih

theorem mapGet_mapDelete_other {β : Type} (m : List (String × β)) (k k2 : String)
    (hne : k ≠ k2) : mapGet (mapDelete m k) k2 = mapGet m k2 := by
  induction m with
  | nil => rfl
  | cons e rest ih =>
    obtain ⟨k', v⟩ := e
    unfold mapDelete at ih ⊢
    by_cases hk : k' = k
    · rw [@List.filter_cons_of_neg (String × β) (fun e => decide (e.1 ≠ k)) (k', v) rest
        (by simp [hk])]
      rw [ih, mapGet_cons, if_neg]
      rw [hk]
      exact hne
    · rw [@List.filter_cons_of_pos (String × β) (fun e => decide (e.1 ≠ k)) (k', v) rest
        (by simp [hk])]
      rw [mapGet_cons, mapGet_cons, ih]

/-- The outcome of `Exists` depends on the file of the name alone. -/
theorem Semaphore_Exists_congr (s : Semaphore) (fs fs' : SemaphoreFS) (name : String)
    (h : ∀ d, mapGet s.SemaphoreMap name = some d → mapGet fs' d.Filepath = mapGet fs d.Filepath) :
    s.Exists fs' name = s.Exists fs name := by
  unfold Semaphore.Exists Semaphore.getSemaphoreDesc
  cases hd : mapGet s.SemaphoreMap name with
  | none => rfl
  | some d =>
    simp only
    rw [h d hd]

/-- C26: for a semaphore whose names have pairwise distinct file paths,
over the state of the semaphore files: `Exists` of a name whose file is not
there is false; after a successful `Write` of a name, `Exists` of it is
true, a further `Write` of it fails and leaves the files unchanged, and
`Exists` of every other name is what it was; after a successful `Release`
of a name, `Exists` of it is false and `Exists` of every other name is what
it was, so still true for the names written; and `Exists` of a name that is
not in the map returns an error. -/
theorem Semaphore_lifecycle (s : Semaphore)
    (hdistinct : ∀ n1 n2 d1 d2, mapGet s.SemaphoreMap n1 = some d1 →
      mapGet s.SemaphoreMap n2 = some d2 → n1 ≠ n2 → d1.Filepath ≠ d2.Filepath) :
    (∀ fs name d, mapGet s.SemaphoreMap name = some d → mapGet fs d.Filepath = none →
      s.Exists fs name = .ok false) ∧
    (∀ writable fs fs' name, s.Write writable fs name = (.ok (), fs') →
      s.Exists fs' name = .ok true ∧
      (∀ writable', s.Write writable' fs' name = (.error Err.write, fs')) ∧
      ∀ other, other ≠ name → s.Exists fs' other = s.Exists fs other) ∧
    (∀ fs fs' name, s.Release fs name = (.ok (), fs') →
      s.Exists fs' name = .ok false ∧
      ∀ other, other ≠ name → s.Exists fs' other = s.Exists fs other) ∧
    (∀ fs name, mapGet s.SemaphoreMap name = none → ∃ e, s.Exists fs name = .error e) := by
  refine ⟨?_, ?_, ?_, ?_⟩
  · intro fs name d hd hfile
    unfold Semaphore.Exists Semaphore.getSemaphoreDesc
    simp only [hd, hfile]
  · intro writable fs fs' name h
    unfold Semaphore.Write Semaphore.getSemaphoreDesc at h
    cases hd : mapGet s.SemaphoreMap name with
    | none => simp [hd] at h
    | some d =>
      simp only [hd] at h
      cases hfile : mapGet fs d.Filepath with
      | some bytes => simp [hfile] at h
      | none =>
        simp only [hfile] at h
        by_cases hw : writable = true
        · simp only [hw, if_true, Prod.mk.injEq, true_and] at h
          subst h
          refine ⟨?_, ?_, ?_⟩
          · unfold Semaphore.Exists Semaphore.getSemaphoreDesc
            simp only [hd, mapGet_mapSet_same]
            simp
          · intro writable'
            unfold Semaphore.Write Semaphore.getSemaphoreDesc
            simp only [hd, mapGet_mapSet_same]
          · intro other hne
            apply Semaphore_Exists_congr
            intro d' hd'
            exact mapGet_mapSet_other _ _ _ _ (hdistinct name other d d' hd hd' (Ne.symm hne))
        · simp [hw] at h
  · intro fs fs' name h
    unfold Semaphore.Release Semaphore.getSemaphoreDesc at h
    cases hd : mapGet s.SemaphoreMap name with
    | none => simp [hd] at h
    | some d =>
      simp only [hd] at h
      cases hfile : mapGet fs d.Filepath with
      | none => simp [hfile] at h
      | some bytes =>
        simp only [hfile] at h
        split_ifs at h with hne
        · simp at h
        · simp only [Prod.mk.injEq, true_and] at h
          subst h
          refine ⟨?_, ?_⟩
          · unfold Semaphore.Exists Semaphore.getSemaphoreDesc
            simp only [hd, mapGet_mapDelete_same]
          · intro other hother
            apply Semaphore_Exists_congr
            intro d' hd'
            exact mapGet_mapDelete_other _ _ _
              (hdistinct name other d d' hd hd' (Ne.symm hother))
  · intro fs name hd
    refine ⟨Err.undefinedName, ?_⟩
    unfold Semaphore.Exists Semaphore.getSemaphoreDesc
    simp only [hd]

/-- Witness for C26: the semaphore of the package test. `first` does not
exist at the start, exists after its `Write`, cannot be written twice, and
after its `Release` it is gone while `second` still exists; the name
`fourth` is undefined. -/
theorem Semaphore_lifecycle_witness :
    scenarioSemaphore.Exists [] "first" = .ok false ∧
    scenarioSemaphore.Exists (scenarioSemaphore.Write true [] "first").2 "first" = .ok true ∧
    scenarioSemaphore.Write true (scenarioSemaphore.Write true [] "first").2 "first"
      = (.error Err.write, (scenarioSemaphore.Write true [] "first").2) ∧
    scenarioSemaphore.Exists (scenarioSemaphore.Release twoSemaphoresFS "first").2 "first"
      = .ok false ∧
    scenarioSemaphore.Exists (scenarioSemaphore.Release twoSemaphoresFS "first").2 "second"
      = .ok true ∧
    ∃ e, scenarioSemaphore.Exists [] "fourth" = .error e :=
  have h := Semaphore_lifecycle scenarioSemaphore (by
    intro n1 n2 d1 d2 h1 h2 hne
    simp only [scenarioSemaphore, mapGet] at h1 h2
    split_ifs at h1 h2 <;> simp_all
    all_goals (subst h1 h2; decide))
  have hw := h.2.1 true [] (scenarioSemaphore.Write true [] "first").2 "first" (by decide)
  have hr := h.2.2.1 twoSemaphoresFS (scenarioSemaphore.Release twoSemaphoresFS "first").2
    "first" (by decide)
  ⟨h.1 [] "first" ⟨"sem/first_file", "first_semaphore"⟩ (by decide) (by decide),
   hw.1, hw.2.1 true, hr.1,
   (hr.2 "second" (by decide)).trans (by decide),
   h.2.2.2 [] "fourth" (by decide)⟩

/-! ## `CompareNewOldTargets` -/

/-- What the key check of `changeRootKey` guarantees: in a successful run
the id of the signing key is among the root key ids of the loaded Root, or
the action is `add` and the signing key has the id of the key being added. -/
theorem changeRootKey_signer (config : configChangeRootKey) (env : Env) (fs fs' : FS)
    (h : changeRootKey config env fs = (.ok (), fs')) :
    ∃ rootFilepaths root rootPrivkey rr,
      loadRoot env fs config.metadataDir = .ok (rootFilepaths, root) ∧
      readPrivateKey env config.privkeyFilepath = .ok rootPrivkey ∧
      mapGet root.Signed.Roles Root = some rr ∧
      ((KeyFromPublicKey rootPrivkey).ID ∈ rr.KeyIDs ∨
        (config.action = ChangeRootKeyActionAdd ∧
          ∃ newPrivkey, readPrivateKey env config.inputPrivkeyFilepath = .ok newPrivkey ∧
            (KeyFromPublicKey rootPrivkey).ID = (KeyFromPublicKey newPrivkey).ID)) := by
  obtain ⟨newRoot, hp, _⟩ := changeRootKey_ok h
  obtain ⟨rootFilepaths, root, rootPrivkey, signed, newPrivkey, hr, _, hk, ha, hre, _⟩ :=
    changeRootKeyPlan_ok hp
  obtain ⟨rr', hrr', hmem, _, _⟩ := reissueRootKey_ok hre
  by_cases hadd : config.action = ChangeRootKeyActionAdd
  · cases hin : readPrivateKey env config.inputPrivkeyFilepath with
    | error e => simp [applyRootKeyAction, hadd, hin] at ha
    | ok np =>
      cases hrole : mapGet root.Signed.Roles Root with
      | none => simp [applyRootKeyAction, hadd, hin, hrole] at ha
      | some rr =>
        rw [applyRootKeyAction_add hadd hin hrole] at ha
        split at ha
        · cases ha
        · cases ha
          simp only at hrr'
          rw [mapGet_mapSet_same] at hrr'
          cases hrr'
          refine ⟨rootFilepaths, root, rootPrivkey, rr, hr, hk, hrole, ?_⟩
          simp only [List.mem_append, List.mem_singleton] at hmem
          rcases hmem with hm | hm
          · exact Or.inl hm
          · exact Or.inr ⟨hadd, np, rfl, hm⟩
  · by_cases hrem : config.action = ChangeRootKeyActionRemove
    · cases hin : tryParseAsPrivateThenPublic env config.inputPrivkeyFilepath with
      | error e =>
        unfold applyRootKeyAction at ha
        rw [if_neg hadd, if_pos hrem] at ha
        simp [hin] at ha
      | ok k =>
        cases hrole : mapGet root.Signed.Roles Root with
        | none =>
          unfold applyRootKeyAction at ha
          rw [if_neg hadd, if_pos hrem] at ha
          simp [hin, RevokeKey, hrole] at ha
        | some rr =>
          obtain ⟨_, hrole'⟩ := applyRootKeyAction_remove hrem hin hrole ha
          rw [hrole'] at hrr'
          cases hrr'
          exact ⟨rootFilepaths, root, rootPrivkey, rr, hr, hk, hrole,
            Or.inl (List.mem_of_mem_filter hmem)⟩
    · unfold applyRootKeyAction at ha
      rw [if_neg hadd, if_neg hrem] at ha
      cases ha
      exact ⟨rootFilepaths, root, rootPrivkey, rr', hr, hk, hrr', Or.inl hmem⟩

end UpdaterRepo
